import Mathlib

/-! # asc2log: ASC trace to CAN frame log conversion

A shallow embedding of `asc2log.c` (can-utils) and the properties of its
timestamp arithmetic, identifier resolution and line processing.

Conventions of the embedding.

* `struct timeval` fields are `long`. Signed overflow is undefined in C, so the sums
  and products of `calc_tv` are mathematical integers; `calc_tv_long` is the same
  function with every result reduced to 64 bits, as the compiled program computes
  it, and is the one used for sequences of calls whose sums may leave the range.
* `canid_t` and `unsigned int` are naturals reduced modulo `2^32` where the C
  code stores into them; `strtoul` saturates at `ULONG_MAX = 2^64 - 1`.
* Functions that write through pointers return the written objects.
* Strings are lists of characters; a line is the buffer `fgets` hands to the loop.
* `sscanf` is an interpreter of the directives of the formats the program uses.
  It returns the items assigned, each with the value its object holds; objects
  whose conversion was not reached keep their old value. A numeral too large
  for its object is stored as the C library of an LP64 machine stores it:
  `%ld` and `%d` convert with `strtol`, which saturates at `LONG_MIN` and
  `LONG_MAX`, `%x` converts with `strtoul`, which saturates at `ULONG_MAX`, and
  an `int` object keeps the low 32 bits of the result. A `0x` with no digit
  after it is a matching failure of `%x`.
* Character arrays are taken to hold the tokens stored in them: the line buffer
  bounds the tokens of the trace, and `m_name` holds name tokens shorter than
  `MSG_NAME_MAX`.
* `get_date`, `gettimeofday` and the options are parameters of the loop
  (`Env`); what `get_date` and the verbose mode print is not part of the records.
-/

namespace Asc2log

/-! ## Timestamps -/

/-- The two `long` fields of `struct timeval`. -/
structure timeval where
  tv_sec : Int
  tv_usec : Int
deriving DecidableEq, Repr

/-- Lines 128-132 of `calc_tv`: the in-place scaling of `read_tv->tv_usec`. -/
def scale_usec (dplace : Int) (usec : Int) : Int :=
  let u := if dplace = 4 then usec * 100 else usec
  if dplace = 5 then u * 10 else u

/-- Lines 151-154 of `calc_tv`: the single carry step, `if (tv->tv_usec > 1000000)`. -/
def carry (tv : timeval) : timeval :=
  if tv.tv_usec > 1000000 then
    { tv_sec := tv.tv_sec + 1, tv_usec := tv.tv_usec - 1000000 }
  else tv

/-- The function `calc_tv(tv, read_tv, date_tv, timestamps, dplace)`.
It writes `*tv` and `*read_tv`; the pair returned is `(tv, read_tv)` after the call. -/
def calc_tv (tv read_tv date_tv : timeval) (timestamps : Char) (dplace : Int) :
    timeval × timeval :=
  let read_tv := { read_tv with tv_usec := scale_usec dplace read_tv.tv_usec }
  let tv :=
    if timestamps = 'a' then
      { tv_sec := date_tv.tv_sec + read_tv.tv_sec,
        tv_usec := date_tv.tv_usec + read_tv.tv_usec }
    else
      let tv :=
        if (tv.tv_sec = 0 ∧ tv.tv_usec = 0) ∧ (date_tv.tv_sec ≠ 0 ∨ date_tv.tv_usec ≠ 0) then
          { tv_sec := date_tv.tv_sec, tv_usec := date_tv.tv_usec }
        else tv
      { tv_sec := tv.tv_sec + read_tv.tv_sec,
        tv_usec := tv.tv_usec + read_tv.tv_usec }
  (carry tv, read_tv)

/-! ### The timestamp calculator as the specification words it

Section 4.5 of the specification: scale, add to the session date (absolute) or to
the accumulator seeded once from the session date (relative), then normalise with
"if microseconds ≥ 1_000_000, subtract 1_000_000 and increment seconds by one". -/

/-- The normalisation rule in the words of the specification (`≥`). -/
def spec_normalize (t : timeval) : timeval :=
  if t.tv_usec ≥ 1000000 then
    { tv_sec := t.tv_sec + 1, tv_usec := t.tv_usec - 1000000 }
  else t

/-- The `compute` contract in the words of the specification. -/
def spec_compute (accumulator raw sessionDate : timeval) (absolute : Bool)
    (decimalPlaces : Int) : timeval :=
  let scaled : timeval :=
    { tv_sec := raw.tv_sec,
      tv_usec := if decimalPlaces = 4 then raw.tv_usec * 100
                 else if decimalPlaces = 5 then raw.tv_usec * 10 else raw.tv_usec }
  if absolute then
    spec_normalize { tv_sec := sessionDate.tv_sec + scaled.tv_sec,
                     tv_usec := sessionDate.tv_usec + scaled.tv_usec }
  else
    let origin :=
      if accumulator = ⟨0, 0⟩ ∧ sessionDate ≠ ⟨0, 0⟩ then sessionDate else accumulator
    spec_normalize { tv_sec := origin.tv_sec + scaled.tv_sec,
                     tv_usec := origin.tv_usec + scaled.tv_usec }

/-! ## C library: character classes and numeric conversion -/

/-- The `isspace` class of the "C" locale: space, `\t`, `\n`, `\v`, `\f`, `\r`. -/
def isspace (c : Char) : Bool :=
  c.toNat = 32 || (9 ≤ c.toNat && c.toNat ≤ 13)

/-- Value of a character as a digit of the base (letters in either case), as
`strtoul` and the integer conversions of `sscanf` read it. -/
def digitVal (base : Nat) (c : Char) : Option Nat :=
  let n := c.toNat
  let v : Option Nat :=
    if 48 ≤ n ∧ n ≤ 57 then some (n - 48)
    else if 97 ≤ n ∧ n ≤ 122 then some (n - 87)
    else if 65 ≤ n ∧ n ≤ 90 then some (n - 55)
    else none
  match v with
  | some d => if d < base then some d else none
  | none => none

/-- Consume the longest run of digits of the base, accumulating their value. -/
def readDigits (base : Nat) : List Char → Nat → Nat × List Char
  | [], acc => (acc, [])
  | c :: cs, acc =>
    match digitVal base c with
    | some d => readDigits base cs (acc * base + d)
    | none => (acc, c :: cs)

/-- Whether the input starts with a digit of the base. -/
def startsWithDigit (base : Nat) : List Char → Bool
  | [] => false
  | c :: _ => (digitVal base c).isSome

/-- Skip an optional `0x` / `0X` that is followed by a hexadecimal digit (base 16 only). -/
def skipHexMark (base : Nat) (s : List Char) : List Char :=
  match s with
  | z :: x :: rest =>
    if base = 16 ∧ z = '0' ∧ (x = 'x' ∨ x = 'X') ∧ startsWithDigit 16 rest then rest else s
  | _ => s

/-- Largest `unsigned long` (LP64). -/
def ULONG_MAX : Nat := 2 ^ 64 - 1

/-- The call `strtoul(s, NULL, base)` for base 10 or 16: leading white space, an
optional sign, an optional `0x` in base 16, then digits; no digits gives 0, a value
above `ULONG_MAX` gives `ULONG_MAX`, a minus sign negates modulo `2^64`. -/
def strtoul (s : List Char) (base : Nat) : Nat :=
  let s := s.dropWhile isspace
  let neg := s.head? = some '-'
  let s := if s.head? = some '-' ∨ s.head? = some '+' then s.tail else s
  let s := skipHexMark base s
  let v := (readDigits base s 0).1
  if v > ULONG_MAX then ULONG_MAX
  else if neg then (2 ^ 64 - v) % 2 ^ 64 else v

/-! ## CAN identifiers and the message table -/

/-- Flag bits and error-frame constants of `<linux/can.h>` and `<linux/can/error.h>`. -/
def CAN_EFF_FLAG : Nat := 0x80000000
/-- Remote transmission request flag. -/
def CAN_RTR_FLAG : Nat := 0x40000000
/-- Error message frame flag. -/
def CAN_ERR_FLAG : Nat := 0x20000000
/-- Bus error class of an error message frame. -/
def CAN_ERR_BUSERROR : Nat := 0x00000080
/-- Length of an error message frame. -/
def CAN_ERR_DLC : Nat := 8

/-- An entry `msg_t` of the message list: name and identifier. -/
structure msg_t where
  name : List Char
  id : Nat
deriving DecidableEq, Repr

/-- Lines 107-114 of `get_can_id`: the identifier of the first entry, in index
order, whose name is `strcmp`-equal to `idstring`. -/
def find_msg (idstring : List Char) : List msg_t → Option Nat
  | [] => none
  | m :: ms => if idstring = m.name then some m.id else find_msg idstring ms

/-- The function `get_can_id(cf, idstring, base, msg_list)`. The result is the
`can_id` written to the frame and the `idstring` buffer after the call (a trailing
`x` is cut off in place). `idstring` comes from a `%s` conversion and is not empty. -/
def get_can_id (idstring : List Char) (base : Nat) (msg_list : List msg_t) :
    Nat × List Char :=
  match find_msg idstring msg_list with
  | some id => (id, idstring)
  | none =>
    if idstring.getLast? = some 'x' then
      ((CAN_EFF_FLAG ||| strtoul idstring.dropLast base) % 2 ^ 32, idstring.dropLast)
    else
      ((0 ||| strtoul idstring base) % 2 ^ 32, idstring)

/-! ## The `sscanf` conversions used by the program -/

/-- A directive of a `sscanf` format. -/
inductive Directive where
  | space
  | lit (c : Char)
  | int (base : Nat)
  | long
  | str
  | chr
  | skipInt
  | skipStr
deriving DecidableEq, Repr

/-- An item stored by an assigning conversion. -/
inductive Val where
  | num (v : Int)
  | str (s : List Char)
  | chr (c : Char)
deriving DecidableEq, Repr

/-- Outcome of one conversion: the item and the remaining input, a matching
failure, or an input failure (end of input before any character of the item). -/
inductive Item (α : Type) where
  | ok (v : α) (rest : List Char)
  | matchFail
  | inputFail

/-- The `0x` / `0X` that may precede the digits of a `%x` item (base 16 only). -/
def scanHexMark (base : Nat) (s : List Char) : List Char :=
  match s with
  | z :: x :: rest => if base = 16 ∧ z = '0' ∧ (x = 'x' ∨ x = 'X') then rest else s
  | _ => s

/-- The text of an integer conversion (`%d`, `%ld` in base 10, `%x` in base 16):
white space is skipped, then an optional sign, an optional `0x` in base 16, and at
least one digit. The value is the signed numeral read, before it is stored. -/
def scanInt (base : Nat) (inp : List Char) : Item Int :=
  match inp.dropWhile isspace with
  | [] => .inputFail
  | c :: cs =>
    let s := if c = '-' ∨ c = '+' then cs else c :: cs
    let s := scanHexMark base s
    if startsWithDigit base s then
      let r := readDigits base s 0
      .ok (if c = '-' then - (r.1 : Int) else (r.1 : Int)) r.2
    else .matchFail

/-- Largest value of a `long` (LP64). -/
def LONG_MAX : Int := 2 ^ 63 - 1

/-- Smallest value of a `long` (LP64). -/
def LONG_MIN : Int := - 2 ^ 63

/-- The result of `strtol` for a numeral of value `v`: saturated at the bounds of
`long`. -/
def sat_long (v : Int) : Int :=
  if v > LONG_MAX then LONG_MAX else if v < LONG_MIN then LONG_MIN else v

/-- The result of `strtoul` for a signed numeral of value `v`: a magnitude above
`ULONG_MAX` gives `ULONG_MAX`, and a negative value is negated modulo `2^64`. -/
def sat_ulong (v : Int) : Int :=
  if v.natAbs > ULONG_MAX then (ULONG_MAX : Int) else v % 2 ^ 64

/-- Conversion to `int`: the low 32 bits, read in two's complement. -/
def to_int (v : Int) : Int := (v + 2 ^ 31) % 2 ^ 32 - 2 ^ 31

/-- The value a `long` object holds after `%ld` read a numeral of value `v`. -/
def store_long (v : Int) : Int := sat_long v

/-- The value an `int` object holds after `%d` (base 10, through `strtol`) or `%x`
(base 16, through `strtoul`) read a numeral of value `v`. -/
def store_int (base : Nat) (v : Int) : Int :=
  to_int (if base = 16 then sat_ulong v else sat_long v)

/-- The `%s` conversion: white space is skipped, then the longest run of
characters that are not white space. -/
def scanStr (inp : List Char) : Item (List Char) :=
  match inp.dropWhile isspace with
  | [] => .inputFail
  | c :: cs => .ok ((c :: cs).takeWhile (fun x => !isspace x))
                   ((c :: cs).dropWhile (fun x => !isspace x))

/-- Run the directives of a format over the input, collecting the assigned items.
The flag of the result tells whether the scan ended in an input failure. -/
def scan : List Directive → List Char → List Val → List Val × Bool
  | [], _, acc => (acc, false)
  | .space :: fs, inp, acc => scan fs (inp.dropWhile isspace) acc
  | .lit c :: fs, inp, acc =>
    match inp with
    | [] => (acc, true)
    | x :: rest => if x = c then scan fs rest acc else (acc, false)
  | .int base :: fs, inp, acc =>
    match scanInt base inp with
    | .ok v rest => scan fs rest (acc ++ [.num (store_int base v)])
    | .matchFail => (acc, false)
    | .inputFail => (acc, true)
  | .long :: fs, inp, acc =>
    match scanInt 10 inp with
    | .ok v rest => scan fs rest (acc ++ [.num (store_long v)])
    | .matchFail => (acc, false)
    | .inputFail => (acc, true)
  | .str :: fs, inp, acc =>
    match scanStr inp with
    | .ok v rest => scan fs rest (acc ++ [.str v])
    | .matchFail => (acc, false)
    | .inputFail => (acc, true)
  | .chr :: fs, inp, acc =>
    match inp with
    | [] => (acc, true)
    | x :: rest => scan fs rest (acc ++ [.chr x])
  | .skipInt :: fs, inp, acc =>
    match scanInt 10 inp with
    | .ok _ rest => scan fs rest acc
    | .matchFail => (acc, false)
    | .inputFail => (acc, true)
  | .skipStr :: fs, inp, acc =>
    match scanStr inp with
    | .ok _ rest => scan fs rest acc
    | .matchFail => (acc, false)
    | .inputFail => (acc, true)

/-- Read a format string: white space, the conversions `%ld`, `%d`, `%x`, `%s`,
`%c`, `%*d`, `%*s`, and ordinary characters. -/
def parseFormat : List Char → List Directive
  | [] => []
  | c :: r =>
    if c = '%' then
      match r with
      | 'l' :: 'd' :: r2 => .long :: parseFormat r2
      | 'd' :: r2 => .int 10 :: parseFormat r2
      | 'x' :: r2 => .int 16 :: parseFormat r2
      | 's' :: r2 => .str :: parseFormat r2
      | 'c' :: r2 => .chr :: parseFormat r2
      | '*' :: 'd' :: r2 => .skipInt :: parseFormat r2
      | '*' :: 's' :: r2 => .skipStr :: parseFormat r2
      | _ => []
    else if isspace c then .space :: parseFormat r
    else .lit c :: parseFormat r

/-- The call `sscanf(buf, format, ...)`: the items assigned, in the order of the
pointer arguments, and the input-failure flag. -/
def sscanf (buf : List Char) (format : String) : List Val × Bool :=
  scan (parseFormat format.toList) buf []

/-- The value `sscanf` returns: the number of items assigned, or `EOF` (-1) when
the input ended before the first item was assigned. -/
def scanCount (r : List Val × Bool) : Int :=
  if r.2 = true ∧ r.1 = [] then -1 else (r.1.length : Int)

/-- The object behind the `i`-th pointer argument after the call, for a `long` or
`int` object holding `old` before: the item if one was assigned. -/
def numArg (r : List Val × Bool) (i : Nat) (old : Int) : Int :=
  match r.1.get? i with
  | some (.num v) => v
  | _ => old

/-- The same for a character array. -/
def strArg (r : List Val × Bool) (i : Nat) (old : List Char) : List Char :=
  match r.1.get? i with
  | some (.str v) => v
  | _ => old

/-- The same for a `char` object. -/
def chrArg (r : List Val × Bool) (i : Nat) (old : Char) : Char :=
  match r.1.get? i with
  | some (.chr v) => v
  | _ => old

/-! ## The message database -/

/-- Lines 223-231 of `process_dbc`, one buffer read by `fgets`: on
`sscanf(buf, "BO_ %d %s %*d %*s", &m_id, m_name) == 2` the last character of the
name is cut off and the entry is made; `m_id` is an `unsigned int`. -/
def dbc_entry (buf : List Char) : Option msg_t :=
  let r := sscanf buf "BO_ %d %s %*d %*s"
  if scanCount r = 2 then
    some { name := (strArg r 1 []).dropLast, id := (numArg r 0 0 % 2 ^ 32).toNat }
  else none

/-- Lines 226-231: the entry of a matching line is appended to the list. -/
def dbc_line (msg_list : List msg_t) (buf : List Char) : List msg_t :=
  match dbc_entry buf with
  | some m => msg_list ++ [m]
  | none => msg_list

/-- The function `process_dbc(dbcfile)`: `none` is the null file pointer, otherwise
the buffers `fgets` reads from the file, in order. -/
def process_dbc (dbcfile : Option (List (List Char))) : List msg_t :=
  match dbcfile with
  | none => []
  | some lines => lines.foldl dbc_line []

/-! ## The conversion loop of `main` -/

/-- The fields of `struct can_frame` the program writes; `data` has eight bytes. -/
structure can_frame where
  can_id : Nat
  can_dlc : Nat
  data : List Nat
deriving DecidableEq, Repr

/-- One call `prframe(outfile, tv, dev, cf)`: the record handed to the output. -/
structure Record where
  tv : timeval
  dev : Int
  cf : can_frame
deriving DecidableEq, Repr

/-- What the loop takes from outside: the `-r` option, the message list built by
`process_dbc`, and the library calls behind the date line. `get_date text` is
`some sec` when `get_date` returns 0 having stored `sec` in `tv_sec`, and `none`
when it returns 1; `gettimeofday` is the time then stored instead. -/
structure Env where
  raw_time : Bool
  msg_list : List msg_t
  get_date : List Char → Option Int
  gettimeofday : timeval

/-- The variables of `main` that live across iterations of the line loop. -/
structure State where
  tv : timeval
  read_tv : timeval
  date_tv : timeval
  dplace : Nat
  base : Char
  timestamps : Char
  tmp1 : List Char
  interface : Int
  rtr : Char
  dlc : Int
  data : List Int
  cf : can_frame
deriving DecidableEq, Repr

/-- The state on entry to the loop: the `static` objects are zero, `dlc` is
initialised to 0, and the other automatic objects hold what `u` gives them. -/
def State.start (u : State) : State :=
  { u with tv := ⟨0, 0⟩, read_tv := ⟨0, 0⟩, date_tv := ⟨0, 0⟩, dplace := 0,
           base := Char.ofNat 0, timestamps := Char.ofNat 0, dlc := 0 }

/-- An all-zero state, used as the unspecified content of automatic objects. -/
def State.zero : State :=
  { tv := ⟨0, 0⟩, read_tv := ⟨0, 0⟩, date_tv := ⟨0, 0⟩, dplace := 0,
    base := Char.ofNat 0, timestamps := Char.ofNat 0, tmp1 := [], interface := 0,
    rtr := Char.ofNat 0, dlc := 0, data := List.replicate 8 0,
    cf := ⟨0, 0, List.replicate 8 0⟩ }

/-- How one iteration of the loop ends: with the next iteration (`continue` or the
end of the body), having printed at most one record, or with `return 1`. -/
inductive Outcome where
  | next (s : State) (out : Option Record)
  | exit (s : State)
deriving DecidableEq, Repr

/-- Lines 421-430 and 446-455: print the frame with the raw or the calculated time. -/
def emit (env : Env) (s : State) : Outcome :=
  if env.raw_time then
    .next s (some ⟨s.read_tv, s.interface, s.cf⟩)
  else
    let r := calc_tv s.tv s.read_tv s.date_tv s.timestamps s.dplace
    .next { s with tv := r.1, read_tv := r.2 } (some ⟨r.1, s.interface, s.cf⟩)

/-- The frame format of line 388 (hexadecimal data) or line 401 (decimal data). -/
def frameFormat (base : Char) : String :=
  if base = 'h' then "%ld.%ld %d %s %*s %c %d %x %x %x %x %x %x %x %x"
  else "%ld.%ld %d %s %*s %c %d %d %d %d %d %d %d %d %d"

/-- Lines 417-419: `can_dlc = dlc & 0x0F` and `data[i] & 0xFF` for `i < dlc`. -/
def fill_frame (cf : can_frame) (dlc : Int) (data : List Int) : can_frame :=
  { cf with
    can_dlc := (dlc % 16).toNat,
    data := (List.range 8).map (fun (i : Nat) =>
      if (i : Int) < dlc then (data.getD i 0 % 256).toNat else cf.data.getD i 0) }

/-- Lines 388-393 and 401-406: the frame `sscanf`. The result is the state after
the assignments through the pointer arguments and the value the call returns. The
items are the values the objects hold: `long`s for `read_tv` (`store_long`), `int`s
for `interface`, `dlc` and `data[i]` (`store_int`). -/
def scan_frame (s : State) (buf : List Char) : State × Int :=
  let r := sscanf buf (frameFormat s.base)
  ({ s with
     read_tv := ⟨numArg r 0 s.read_tv.tv_sec, numArg r 1 s.read_tv.tv_usec⟩,
     interface := numArg r 2 s.interface,
     tmp1 := strArg r 3 s.tmp1,
     rtr := chrArg r 4 s.rtr,
     dlc := numArg r 5 s.dlc,
     data := (List.range 8).map (fun i => numArg r (6 + i) (s.data.getD i 0)) },
   scanCount r)

/-- The test `sscanf(...) == dlc + 6` that sets `found`; the value of `dlc` is the
one after the call. -/
def found (s : State) (buf : List Char) : Bool :=
  (scan_frame s buf).2 = (scan_frame s buf).1.dlc + 6

/-- Lines 396, 409 and 413-431: a found frame is completed and printed. -/
def data_frame (env : Env) (s : State) : Outcome :=
  let g := get_can_id s.tmp1 (if s.base = 'h' then 16 else 10) env.msg_list
  let id := if s.rtr = 'r' then g.1 ||| CAN_RTR_FLAG else g.1
  emit env { s with tmp1 := g.2, cf := fill_frame { s.cf with can_id := id } s.dlc s.data }

/-- Lines 434-457: the error-frame scan of a line in which no frame was found. -/
def error_frame (env : Env) (s : State) (buf : List Char) : Outcome :=
  let r := sscanf buf "%ld.%ld %d %s"
  let s := { s with
    read_tv := ⟨numArg r 0 s.read_tv.tv_sec, numArg r 1 s.read_tv.tv_usec⟩,
    interface := numArg r 2 s.interface,
    tmp1 := strArg r 3 s.tmp1 }
  if scanCount r = 4 then
    if "ErrorFrame".toList.isPrefixOf s.tmp1 then
      emit env { s with cf := ⟨CAN_ERR_FLAG ||| CAN_ERR_BUSERROR, CAN_ERR_DLC,
                                List.replicate 8 0⟩ }
    else .next s none
  else .next s none

/-- Lines 384-457: the frame scan, and if it does not find a frame the error-frame
scan. -/
def frames (env : Env) (s : State) (buf : List Char) : Outcome :=
  if found s buf then data_frame env (scan_frame s buf).1
  else error_frame env (scan_frame s buf).1 buf

/-- The body of the loop at lines 323-458 for one buffer `buf` read by `fgets`. -/
def body (env : Env) (s : State) (buf : List Char) : Outcome :=
  if s.dplace = 0 then
    let r := sscanf buf "base %s timestamps %s"
    let s1 := if s.base = Char.ofNat 0 then { s with tmp1 := strArg r 0 s.tmp1 } else s
    if s.base = Char.ofNat 0 ∧ scanCount r = 2 then
      let base := s1.tmp1.headD (Char.ofNat 0)
      let timestamps := (strArg r 1 []).headD (Char.ofNat 0)
      let s2 := { s1 with base := base, timestamps := timestamps }
      if base ≠ 'h' ∧ base ≠ 'd' then .exit s2
      else if timestamps ≠ 'a' ∧ timestamps ≠ 'r' then .exit s2
      else .next s2 none
    else if s1.date_tv.tv_sec = 0 ∧ buf.take 4 = "date".toList then
      let date_tv := match env.get_date (buf.drop 9) with
        | some sec => { s1.date_tv with tv_sec := sec }
        | none => env.gettimeofday
      .next { s1 with date_tv := date_tv } none
    else
      let r := sscanf buf "%ld.%s %d "
      let s3 := { s1 with tv := { s1.tv with tv_sec := numArg r 0 s1.tv.tv_sec } }
      if scanCount r = 3 then
        let dplace := (strArg r 1 []).length
        if dplace < 4 ∨ dplace > 6 then .exit { s3 with dplace := dplace }
        else frames env { s3 with dplace := dplace } buf
      else .next s3 none
  else frames env s buf

/-- The result of the loop: the records printed in order, the exit status of
`main` (0 at the end of the input, 1 on `return 1`), and the last state. -/
structure Run where
  out : List Record
  status : Nat
  final : State
deriving DecidableEq, Repr

/-- The loop `while (fgets(buf, 99, infile))` over the buffers read from the file. -/
def run (env : Env) : State → List (List Char) → Run
  | s, [] => ⟨[], 0, s⟩
  | s, buf :: rest =>
    match body env s buf with
    | .next s1 out =>
      let r := run env s1 rest
      ⟨out.toList ++ r.out, r.status, r.final⟩
    | .exit s1 => ⟨[], 1, s1⟩

/-! ## Numerals -/

/-- A non-empty string of digits of the base. -/
def IsNumeral (base : Nat) (s : List Char) : Prop :=
  s ≠ [] ∧ ∀ c ∈ s, (digitVal base c).isSome = true

/-- The integer a string of digits denotes in the base. -/
def numeralValue (base : Nat) (s : List Char) : Nat :=
  s.foldl (fun a c => a * base + (digitVal base c).getD 0) 0

/-! ## Lines of the frame shape -/

/-- A token: not empty and free of white space. -/
def IsToken (s : List Char) : Prop :=
  s ≠ [] ∧ ∀ c ∈ s, isspace c = false

/-- The byte fields of a frame line, each after one space, and the end of the line. -/
def byteFields (bytes : List (List Char)) (tail : List Char) : List Char :=
  bytes.foldr (fun b rest => ' ' :: (b ++ rest)) tail

/-- The fields of a line `secs.frac iface idtok dir flag len byte*`: the text of
each field, the byte fields in order, and the white space that ends the line. -/
structure FrameText where
  secs : List Char
  frac : List Char
  iface : List Char
  idtok : List Char
  dir : List Char
  flag : Char
  len : List Char
  bytes : List (List Char)
  tail : List Char

/-- The line: the fields separated by single spaces. -/
def FrameText.line (f : FrameText) : List Char :=
  f.secs ++ '.' :: (f.frac ++ ' ' :: (f.iface ++ ' ' :: (f.idtok ++ ' ' :: (f.dir ++
    ' ' :: f.flag :: ' ' :: (f.len ++ byteFields f.bytes f.tail)))))

/-- The fields have the frame shape when seconds, fraction, interface and length are
decimal numerals, the id and direction fields are tokens, the flag is one character
that is not white space, and every byte field is a numeral of the data base. -/
def FrameText.Shaped (radix : Nat) (f : FrameText) : Prop :=
  IsNumeral 10 f.secs ∧ IsNumeral 10 f.frac ∧ IsNumeral 10 f.iface ∧ IsToken f.idtok ∧
  IsToken f.dir ∧ isspace f.flag = false ∧ IsNumeral 10 f.len ∧
  (∀ b ∈ f.bytes, IsNumeral radix b) ∧ (∀ c ∈ f.tail, isspace c = true)

/-- The radix of the data bytes and of numeric ids for a calibrated base character. -/
def dataBase (base : Char) : Nat := if base = 'h' then 16 else 10

/-- Input that is empty or starts with white space: the place after a field. -/
def AtGap (rest : List Char) : Prop := ∀ c r, rest = c :: r → isspace c = true

instance (base : Nat) (s : List Char) : Decidable (IsNumeral base s) :=
  inferInstanceAs (Decidable (_ ∧ _))

instance (s : List Char) : Decidable (IsToken s) :=
  inferInstanceAs (Decidable (_ ∧ _))

instance (radix : Nat) (f : FrameText) : Decidable (f.Shaped radix) :=
  inferInstanceAs (Decidable (_ ∧ _ ∧ _ ∧ _ ∧ _ ∧ _ ∧ _ ∧ _ ∧ _))

/-- The record an iteration printed, if any. -/
def Outcome.record : Outcome → Option Record
  | .next _ out => out
  | .exit _ => none

/-- A calibrated state: the all-zero state with base, timestamp mode and decimal
places set. -/
def calibrated (base timestamps : Char) (dplace : Nat) : State :=
  { State.zero with base := base, timestamps := timestamps, dplace := dplace }

/-- An environment without message list and without `-r`. -/
def plainEnv : Env := ⟨false, [], fun _ => none, ⟨0, 0⟩⟩

/-- The fields of `0.002367 1 390x Rx d 8 17 00 14 00 C0 00 08 00`, the sample line
at line 382 of the source. -/
def sampleFrame : FrameText :=
  ⟨"0".toList, "002367".toList, "1".toList, "390x".toList, "Rx".toList, 'd', "8".toList,
   ["17".toList, "00".toList, "14".toList, "00".toList, "C0".toList, "00".toList,
    "08".toList, "00".toList], "\n".toList⟩

/-- The sample line with a ninth byte field `FF`. -/
def nineByteFrame : FrameText :=
  { sampleFrame with bytes := sampleFrame.bytes ++ ["FF".toList] }

/-! ## Vocabulary of the loop properties -/

/-- The state an iteration of the loop ends in. -/
def Outcome.state : Outcome → State
  | .next s _ => s
  | .exit s => s

/-- Whether an iteration ended the run with `return 1`. -/
def Outcome.halted : Outcome → Bool
  | .next _ _ => false
  | .exit _ => true

/-- The header test of line 329: the line matches `base %s timestamps %s`. -/
def baseLine (buf : List Char) : Prop :=
  scanCount (sscanf buf "base %s timestamps %s") = 2

/-- The date test of line 349: the line begins with `date`. -/
def dateLine (buf : List Char) : Prop :=
  buf.take 4 = "date".toList

/-- The decimal-place test of line 367: the line matches `%ld.%s %d `. -/
def fractionLine (buf : List Char) : Prop :=
  scanCount (sscanf buf "%ld.%s %d ") = 3

instance (buf : List Char) : Decidable (baseLine buf) :=
  inferInstanceAs (Decidable (_ = _))

instance (buf : List Char) : Decidable (dateLine buf) :=
  inferInstanceAs (Decidable (_ = _))

instance (buf : List Char) : Decidable (fractionLine buf) :=
  inferInstanceAs (Decidable (_ = _))

/-- The fraction token of a line, as the scan of line 367 stores it in `tmp2`. -/
def fractionToken (buf : List Char) : List Char :=
  strArg (sscanf buf "%ld.%s %d ") 1 []

/-- The header sets base and timestamp mode together: while the base is unset the
timestamp mode is unset. It holds in the state on entry to the loop. -/
def State.Paired (s : State) : Prop :=
  s.base = Char.ofNat 0 → s.timestamps = Char.ofNat 0

/-- A header line `base <tok1> timestamps <tok2>` followed by `rest`. -/
def headerLine (tok1 tok2 rest : List Char) : List Char :=
  'b' :: 'a' :: 's' :: 'e' :: ' ' :: (tok1 ++ ' ' :: 't' :: 'i' :: 'm' :: 'e' :: 's' :: 't' ::
    'a' :: 'm' :: 'p' :: 's' :: ' ' :: (tok2 ++ rest))

/-- A line of the shape `<seconds>.<fraction> <integer> ...`. -/
def fractionText (secs frac int rest : List Char) : List Char :=
  secs ++ '.' :: (frac ++ ' ' :: (int ++ rest))

/-- Whether a directive stores an item. -/
def Directive.assigns : Directive → Bool
  | .int _ => true
  | .long => true
  | .str => true
  | .chr => true
  | _ => false

/-- An environment with the `-r` option (raw timestamps) and no message list. -/
def rawEnv : Env := ⟨true, [], fun _ => none, ⟨0, 0⟩⟩

/-- A timestamp as a time value in microseconds. -/
def timeval.micros (t : timeval) : Int := t.tv_sec * 1000000 + t.tv_usec

/-- The test of lines 141-142: the accumulator is zero and the session date is not,
so the call seeds the accumulator from the session date. -/
def seeds (tv date_tv : timeval) : Bool :=
  decide ((tv.tv_sec = 0 ∧ tv.tv_usec = 0) ∧ (date_tv.tv_sec ≠ 0 ∨ date_tv.tv_usec ≠ 0))

/-- A result of `long` arithmetic as an LP64 machine keeps it: the low 64 bits, read
in two's complement. -/
def wrap_long (x : Int) : Int := (x + 2 ^ 63) % 2 ^ 64 - 2 ^ 63

/-- Lines 128-132 of `calc_tv` with the products kept in a 64-bit `long`. -/
def scale_usec_long (dplace : Int) (usec : Int) : Int :=
  let u := if dplace = 4 then wrap_long (usec * 100) else usec
  if dplace = 5 then wrap_long (u * 10) else u

/-- Lines 151-154 of `calc_tv` with the results kept in 64-bit `long`s. -/
def carry_long (tv : timeval) : timeval :=
  if tv.tv_usec > 1000000 then
    { tv_sec := wrap_long (tv.tv_sec + 1), tv_usec := wrap_long (tv.tv_usec - 1000000) }
  else tv

/-- The function `calc_tv` with every sum and product kept in a 64-bit `long`, as the
compiled program computes it; it is `calc_tv` wherever no result leaves the range of
`long`. -/
def calc_tv_long (tv read_tv date_tv : timeval) (timestamps : Char) (dplace : Int) :
    timeval × timeval :=
  let read_tv := { read_tv with tv_usec := scale_usec_long dplace read_tv.tv_usec }
  let tv :=
    if timestamps = 'a' then
      { tv_sec := wrap_long (date_tv.tv_sec + read_tv.tv_sec),
        tv_usec := wrap_long (date_tv.tv_usec + read_tv.tv_usec) }
    else
      let tv :=
        if (tv.tv_sec = 0 ∧ tv.tv_usec = 0) ∧ (date_tv.tv_sec ≠ 0 ∨ date_tv.tv_usec ≠ 0) then
          { tv_sec := date_tv.tv_sec, tv_usec := date_tv.tv_usec }
        else tv
      { tv_sec := wrap_long (tv.tv_sec + read_tv.tv_sec),
        tv_usec := wrap_long (tv.tv_usec + read_tv.tv_usec) }
  (carry_long tv, read_tv)

/-- The timestamps successive calls of `calc_tv` in relative mode produce for the raw
timestamps of a list, each call taking the result of the one before as accumulator,
with the arithmetic of 64-bit `long`s. -/
def relative_results (tv date_tv : timeval) (dplace : Int) : List timeval → List timeval
  | [] => []
  | r :: rs =>
    (calc_tv_long tv r date_tv 'r' dplace).1 ::
      relative_results (calc_tv_long tv r date_tv 'r' dplace).1 date_tv dplace rs

/-- The number of those calls that seed the accumulator from the session date. -/
def seed_count (tv date_tv : timeval) (dplace : Int) : List timeval → Nat
  | [] => 0
  | r :: rs =>
    (if seeds tv date_tv then 1 else 0) +
      seed_count (calc_tv_long tv r date_tv 'r' dplace).1 date_tv dplace rs

/-- The seconds a sequence of calls can add to the accumulator: the raw seconds and
one carry for each call. -/
def seconds_added (raws : List timeval) : Int :=
  (raws.map (fun r => r.tv_sec + 1)).sum

/-- The size `MSG_NAME_MAX` of the name arrays `m_name` and `msg_t.name`. A name token
of that many characters or more overruns the array; the embedding reads tokens as
they are, so statements about entries are for tokens that fit. -/
def MSG_NAME_MAX : Nat := 64

/-! # Properties -/

/-! ## Timestamp calculation -/

/-- Away from a microsecond sum of exactly 1_000_000 the carry step of `calc_tv`
is the normalisation rule of the specification. -/
theorem carry_eq_spec_normalize (t : timeval) (h : t.tv_usec ≠ 1000000) :
    carry t = spec_normalize t := by
  unfold carry spec_normalize
  by_cases h1 : t.tv_usec > 1000000
  · have h2 : t.tv_usec ≥ 1000000 := by omega
    simp [h1, h2]
  · have h2 : ¬ t.tv_usec ≥ 1000000 := by omega
    simp [h1, h2]

/-- The scaling of `calc_tv` is the scaling the specification words. -/
theorem scale_usec_eq (dplace usec : Int) :
    scale_usec dplace usec =
      if dplace = 4 then usec * 100 else if dplace = 5 then usec * 10 else usec := by
  unfold scale_usec
  by_cases h4 : dplace = 4
  · subst h4; simp
  · simp [h4]

/-- In absolute mode `calc_tv` is the session date plus the scaled raw timestamp
followed by its carry step, whatever the accumulator holds. -/
theorem calc_tv_absolute (tv read_tv date_tv : timeval) (dplace : Int) :
    (calc_tv tv read_tv date_tv 'a' dplace).1 =
      carry ⟨date_tv.tv_sec + read_tv.tv_sec,
             date_tv.tv_usec + scale_usec dplace read_tv.tv_usec⟩ := by
  simp [calc_tv]

/-- In relative mode `calc_tv` adds the scaled raw timestamp to the accumulator, or
to the session date when the accumulator is zero and the session date is not, and
applies its carry step. -/
theorem calc_tv_relative (tv read_tv date_tv : timeval) (dplace : Int) :
    (calc_tv tv read_tv date_tv 'r' dplace).1 =
      let origin := if tv = ⟨0, 0⟩ ∧ date_tv ≠ ⟨0, 0⟩ then date_tv else tv
      carry ⟨origin.tv_sec + read_tv.tv_sec,
             origin.tv_usec + scale_usec dplace read_tv.tv_usec⟩ := by
  obtain ⟨a, b⟩ := tv
  obtain ⟨c, d⟩ := date_tv
  have hr : ¬ ('r' = 'a') := by decide
  simp only [calc_tv, hr, if_false, timeval.mk.injEq, ne_eq, not_and]
  by_cases h : (a = 0 ∧ b = 0) ∧ (¬ c = 0 ∨ ¬ d = 0)
  · have h2 : (a = 0 ∧ b = 0) ∧ (c = 0 → ¬ d = 0) := ⟨h.1, by tauto⟩
    rw [if_pos h, if_pos h2]
  · have h2 : ¬ ((a = 0 ∧ b = 0) ∧ (c = 0 → ¬ d = 0)) := by tauto
    rw [if_neg h, if_neg h2]

/-- Wherever the microsecond sum is not exactly 1_000_000, `calc_tv` computes the
timestamp of the specification in both modes. -/
theorem calc_tv_eq_spec_compute (tv read_tv date_tv : timeval) (absolute : Bool)
    (dplace : Int)
    (h : ∀ origin : timeval, origin = tv ∨ origin = date_tv →
      origin.tv_usec + scale_usec dplace read_tv.tv_usec ≠ 1000000) :
    (calc_tv tv read_tv date_tv (if absolute then 'a' else 'r') dplace).1 =
      spec_compute tv read_tv date_tv absolute dplace := by
  cases absolute
  · simp only [Bool.false_eq_true, if_false, calc_tv_relative, spec_compute, ← scale_usec_eq]
    by_cases hs : tv = ⟨0, 0⟩ ∧ date_tv ≠ ⟨0, 0⟩
    · simp only [hs, ne_eq, not_false_eq_true, and_self, if_true]
      exact carry_eq_spec_normalize _ (h date_tv (Or.inr rfl))
    · simp only [hs, if_false]
      exact carry_eq_spec_normalize _ (h tv (Or.inl rfl))
  · simp only [if_true, calc_tv_absolute, spec_compute, ← scale_usec_eq]
    exact carry_eq_spec_normalize _ (h date_tv (Or.inr rfl))

/-- For every mode character other than `a`, `calc_tv` takes the relative branch. -/
theorem calc_tv_not_absolute (tv read_tv date_tv : timeval) (timestamps : Char)
    (dplace : Int) (hm : timestamps ≠ 'a') :
    (calc_tv tv read_tv date_tv timestamps dplace).1 =
      carry ⟨(if tv = ⟨0, 0⟩ ∧ date_tv ≠ ⟨0, 0⟩ then date_tv else tv).tv_sec + read_tv.tv_sec,
             (if tv = ⟨0, 0⟩ ∧ date_tv ≠ ⟨0, 0⟩ then date_tv else tv).tv_usec +
               scale_usec dplace read_tv.tv_usec⟩ := by
  obtain ⟨a, b⟩ := tv
  obtain ⟨c, d⟩ := date_tv
  simp only [calc_tv, hm, if_false, timeval.mk.injEq, ne_eq, not_and]
  by_cases h : (a = 0 ∧ b = 0) ∧ (¬ c = 0 ∨ ¬ d = 0)
  · have h2 : (a = 0 ∧ b = 0) ∧ (c = 0 → ¬ d = 0) := ⟨h.1, by tauto⟩
    rw [if_pos h, if_pos h2]
  · have h2 : ¬ ((a = 0 ∧ b = 0) ∧ (c = 0 → ¬ d = 0)) := by tauto
    rw [if_neg h, if_neg h2]

/-- The carry step keeps a microsecond value of [0, 2_000_000) within [0, 1_000_000]. -/
theorem carry_usec_le (t : timeval) (h0 : 0 ≤ t.tv_usec) (h1 : t.tv_usec < 2000000) :
    0 ≤ (carry t).tv_usec ∧ (carry t).tv_usec ≤ 1000000 := by
  unfold carry
  by_cases h : t.tv_usec > 1000000
  · rw [if_pos h]
    dsimp only
    omega
  · rw [if_neg h]
    omega

/-- With 4, 5 or 6 decimal places a raw fraction in [0, 10^dplace) scales into
[0, 1_000_000). -/
theorem scale_usec_range (dplace : Nat) (usec : Int)
    (hd : dplace = 4 ∨ dplace = 5 ∨ dplace = 6) (h0 : 0 ≤ usec)
    (h1 : usec < 10 ^ dplace) :
    0 ≤ scale_usec dplace usec ∧ scale_usec dplace usec < 1000000 := by
  rcases hd with rfl | rfl | rfl
  · norm_num [scale_usec] at h1 ⊢
    omega
  · norm_num [scale_usec] at h1 ⊢
    omega
  · norm_num [scale_usec] at h1 ⊢
    omega

/-- Under the ranges of the specification (decimal places 4, 5 or 6, accumulator and
session date microseconds in [0, 1_000_000), raw fraction in [0, 10^dplace)) the
microseconds of the result lie in [0, 1_000_000]; the upper end is attained when
the sum is exactly 1_000_000. -/
theorem calc_tv_usec_le (tv read_tv date_tv : timeval) (timestamps : Char) (dplace : Nat)
    (hd : dplace = 4 ∨ dplace = 5 ∨ dplace = 6)
    (htv : 0 ≤ tv.tv_usec ∧ tv.tv_usec < 1000000)
    (hdate : 0 ≤ date_tv.tv_usec ∧ date_tv.tv_usec < 1000000)
    (hr : 0 ≤ read_tv.tv_usec ∧ read_tv.tv_usec < 10 ^ dplace) :
    0 ≤ (calc_tv tv read_tv date_tv timestamps dplace).1.tv_usec ∧
    (calc_tv tv read_tv date_tv timestamps dplace).1.tv_usec ≤ 1000000 := by
  have hs := scale_usec_range dplace read_tv.tv_usec hd hr.1 hr.2
  by_cases hm : timestamps = 'a'
  · subst hm
    rw [calc_tv_absolute]
    apply carry_usec_le
    · dsimp only; omega
    · dsimp only; omega
  · rw [calc_tv_not_absolute _ _ _ _ _ hm]
    by_cases hseed : tv = ⟨0, 0⟩ ∧ date_tv ≠ ⟨0, 0⟩
    · rw [if_pos hseed]
      apply carry_usec_le
      · dsimp only; omega
      · dsimp only; omega
    · rw [if_neg hseed]
      apply carry_usec_le
      · dsimp only; omega
      · dsimp only; omega

/-- The relative-mode example of the specification: session date (1000, 0), six
decimal places, raw 0.500000 gives (1000, 500000), then raw 0.600000 gives
(1001, 100000). -/
theorem calc_tv_relative_example :
    (calc_tv ⟨0, 0⟩ ⟨0, 500000⟩ ⟨1000, 0⟩ 'r' 6).1 = ⟨1000, 500000⟩ ∧
    (calc_tv ⟨1000, 500000⟩ ⟨0, 600000⟩ ⟨1000, 0⟩ 'r' 6).1 = ⟨1001, 100000⟩ := by
  decide

/-- The absolute-mode example of the specification: session date (1000, 0) and raw
5.250000 give (1005, 250000) for every accumulator. -/
theorem calc_tv_absolute_example (tv : timeval) :
    (calc_tv tv ⟨5, 250000⟩ ⟨1000, 0⟩ 'a' 6).1 = ⟨1005, 250000⟩ := by
  rw [calc_tv_absolute]
  decide

/-- C1 (the code at the boundary): in relative mode with accumulator (1000, 500000),
raw timestamp 0.500000 and six decimal places, every input of the claim is in range
and the microsecond sum is exactly 1_000_000; `calc_tv` does not carry it and returns
(1000, 1000000), whose microseconds are not below 1_000_000. -/
theorem calc_tv_boundary_not_normalized :
    (calc_tv ⟨1000, 500000⟩ ⟨0, 500000⟩ ⟨1000, 0⟩ 'r' 6).1 = ⟨1000, 1000000⟩ ∧
    ¬ (calc_tv ⟨1000, 500000⟩ ⟨0, 500000⟩ ⟨1000, 0⟩ 'r' 6).1.tv_usec < 1000000 := by
  decide

/-- C2 (the code at the boundary): in relative mode with the non-zero accumulator
(1000, 500000) and raw timestamp 0.500000, `calc_tv` returns (1000, 1000000) where
accumulator plus raw timestamp with the carry normalised is (1001, 0); with the zero
accumulator and session date (1000, 500000) it does the same. -/
theorem calc_tv_relative_boundary :
    (calc_tv ⟨1000, 500000⟩ ⟨0, 500000⟩ ⟨1000, 0⟩ 'r' 6).1 = ⟨1000, 1000000⟩ ∧
    spec_compute ⟨1000, 500000⟩ ⟨0, 500000⟩ ⟨1000, 0⟩ false 6 = ⟨1001, 0⟩ ∧
    (calc_tv ⟨0, 0⟩ ⟨0, 500000⟩ ⟨1000, 500000⟩ 'r' 6).1 = ⟨1000, 1000000⟩ ∧
    spec_compute ⟨0, 0⟩ ⟨0, 500000⟩ ⟨1000, 500000⟩ false 6 = ⟨1001, 0⟩ := by
  decide

/-- C3 (the code at the boundary): in absolute mode with session date
(1000, 500000) and raw timestamp 0.500000, `calc_tv` returns (1000, 1000000) where
session date plus raw timestamp after one carry normalisation is (1001, 0). -/
theorem calc_tv_absolute_boundary :
    (calc_tv ⟨0, 0⟩ ⟨0, 500000⟩ ⟨1000, 500000⟩ 'a' 6).1 = ⟨1000, 1000000⟩ ∧
    spec_compute ⟨0, 0⟩ ⟨0, 500000⟩ ⟨1000, 500000⟩ true 6 = ⟨1001, 0⟩ := by
  decide

/-! ## Identifier resolution -/

/-- A digit of a base is a decimal digit or a letter whose value is below the base. -/
theorem digitVal_some_range (base : Nat) (c : Char) (h : (digitVal base c).isSome = true) :
    (48 ≤ c.toNat ∧ c.toNat ≤ 57 ∧ c.toNat - 48 < base) ∨
    (97 ≤ c.toNat ∧ c.toNat ≤ 122 ∧ c.toNat - 87 < base) ∨
    (65 ≤ c.toNat ∧ c.toNat ≤ 90 ∧ c.toNat - 55 < base) := by
  unfold digitVal at h
  simp only at h
  split at h
  · rename_i d hd
    split at hd
    · rename_i h1
      simp only [Option.some.injEq] at hd
      split at h
      · rename_i h2; left; omega
      · simp at h
    · split at hd
      · rename_i h1
        simp only [Option.some.injEq] at hd
        split at h
        · rename_i h2; right; left; omega
        · simp at h
      · split at hd
        · rename_i h1
          simp only [Option.some.injEq] at hd
          split at h
          · rename_i h2; right; right; omega
          · simp at h
        · simp at hd
  · simp at h

/-- A digit is not white space. -/
theorem digit_not_space (base : Nat) (c : Char) (h : (digitVal base c).isSome = true) :
    isspace c = false := by
  have := digitVal_some_range base c h
  simp only [isspace, Bool.or_eq_false_iff, decide_eq_false_iff_not, Bool.and_eq_false_imp,
    decide_eq_true_eq]
  omega

/-- A digit is not a sign character. -/
theorem digit_not_sign (base : Nat) (c : Char) (h : (digitVal base c).isSome = true) :
    ¬ (c = '-' ∨ c = '+') := by
  have := digitVal_some_range base c h
  rintro (rfl | rfl)
  · simp at this
  · simp at this

/-- In a base up to 16 the letter x is not a digit. -/
theorem digit_not_x (base : Nat) (hb : base ≤ 16) (c : Char)
    (h : (digitVal base c).isSome = true) : ¬ (c = 'x' ∨ c = 'X') := by
  have := digitVal_some_range base c h
  rintro (rfl | rfl)
  · simp at this; omega
  · simp at this; omega

/-- Reading digits consumes a whole run of digits and stops at the first other character. -/
theorem readDigits_append (base : Nat) (s rest : List Char) (acc : Nat)
    (hs : ∀ c ∈ s, (digitVal base c).isSome = true) (hr : startsWithDigit base rest = false) :
    readDigits base (s ++ rest) acc =
      (s.foldl (fun a c => a * base + (digitVal base c).getD 0) acc, rest) := by
  induction s generalizing acc with
  | nil =>
    cases rest with
    | nil => rfl
    | cons c cs =>
      simp only [startsWithDigit] at hr
      cases hd : digitVal base c with
      | none => simp [readDigits, hd]
      | some d => simp [hd] at hr
  | cons c cs ih =>
    have hc := hs c (List.mem_cons_self _ _)
    cases hd : digitVal base c with
    | none => simp [hd] at hc
    | some d =>
      simp only [List.cons_append, readDigits, hd, List.foldl_cons, Option.getD_some]
      exact ih _ (fun x hx => hs x (List.mem_cons_of_mem _ hx))

/-- Reading a string of digits yields the integer it denotes. -/
theorem readDigits_numeral (base : Nat) (s : List Char)
    (hs : ∀ c ∈ s, (digitVal base c).isSome = true) :
    readDigits base s 0 = (numeralValue base s, []) := by
  have := readDigits_append base s [] 0 hs rfl
  simpa [numeralValue] using this

/-- A string of digits carries no `0x` mark. -/
theorem skipHexMark_numeral (base : Nat) (hb : base ≤ 16) (s : List Char)
    (hs : ∀ c ∈ s, (digitVal base c).isSome = true) : skipHexMark base s = s := by
  match s with
  | [] => rfl
  | [_] => rfl
  | z :: x :: rest =>
    have hx := digit_not_x base hb x (hs x (by simp))
    simp only [skipHexMark]
    rw [if_neg]
    tauto

/-- On a string of digits that fits an `unsigned long`, `strtoul` is the integer it denotes. -/
theorem strtoul_numeral (base : Nat) (hb : base ≤ 16) (s : List Char) (hs : IsNumeral base s)
    (hv : numeralValue base s ≤ ULONG_MAX) : strtoul s base = numeralValue base s := by
  obtain ⟨hne, hd⟩ := hs
  match s, hne, hd, hv with
  | c :: cs, _, hd, hv =>
    have hc := hd c (List.mem_cons_self _ _)
    have h1 : isspace c = false := digit_not_space base c hc
    have h2 := digit_not_sign base c hc
    have h3 : ¬ (c = '-') := fun h => h2 (Or.inl h)
    have h4 : ¬ (c = '+') := fun h => h2 (Or.inr h)
    have h5 : ¬ numeralValue base (c :: cs) > ULONG_MAX := by omega
    simp only [strtoul, List.dropWhile_cons, h1, Bool.false_eq_true, if_false, List.head?_cons,
      Option.some.injEq, h3, h4, or_self, skipHexMark_numeral base hb (c :: cs) hd,
      readDigits_numeral base (c :: cs) hd, h5, decide_False]

/-- Setting the extended flag on a value below `2^31` adds `2^31`. -/
theorem or_eff_of_lt (v : Nat) (h : v < 2 ^ 31) :
    (CAN_EFF_FLAG ||| v) % 2 ^ 32 = CAN_EFF_FLAG + v := by
  have h1 : CAN_EFF_FLAG ||| v = CAN_EFF_FLAG + v := by
    have := Nat.mul_add_lt_is_or h 1
    simp only [CAN_EFF_FLAG]
    norm_num at this
    omega
  rw [h1]
  simp only [CAN_EFF_FLAG]
  omega

/-- The lookup returns the identifier of the first entry carrying the name. -/
theorem find_msg_first (idstring : List Char) (pre post : List msg_t) (e : msg_t)
    (he : e.name = idstring) (hpre : ∀ p ∈ pre, p.name ≠ idstring) :
    find_msg idstring (pre ++ e :: post) = some e.id := by
  induction pre with
  | nil => simp [find_msg, he]
  | cons p ps ih =>
    have hp : ¬ idstring = p.name := fun h => hpre p (List.mem_cons_self _ _) h.symm
    simp only [List.cons_append, find_msg, hp, if_false]
    exact ih (fun q hq => hpre q (List.mem_cons_of_mem _ hq))

/-- The lookup finds nothing when no entry carries the name. -/
theorem find_msg_none (idstring : List Char) (l : List msg_t)
    (h : ∀ p ∈ l, p.name ≠ idstring) : find_msg idstring l = none := by
  induction l with
  | nil => rfl
  | cons p ps ih =>
    have hp : ¬ idstring = p.name := fun e => h p (List.mem_cons_self _ _) e.symm
    simp only [find_msg, hp, if_false]
    exact ih (fun q hq => h q (List.mem_cons_of_mem _ hq))

/-- An identifier the lookup returns is that of an entry carrying the name. -/
theorem find_msg_some_mem (idstring : List Char) (l : List msg_t) (id : Nat)
    (h : find_msg idstring l = some id) : ∃ e ∈ l, e.name = idstring ∧ e.id = id := by
  induction l with
  | nil => simp [find_msg] at h
  | cons p ps ih =>
    by_cases hp : idstring = p.name
    · simp only [find_msg, hp, if_true, Option.some.injEq] at h
      exact ⟨p, List.mem_cons_self _ _, hp.symm, h⟩
    · simp only [find_msg, hp, if_false] at h
      obtain ⟨e, he, h1, h2⟩ := ih h
      exact ⟨e, List.mem_cons_of_mem _ he, h1, h2⟩

/-- The lookup succeeds when some entry carries the name. -/
theorem find_msg_isSome (idstring : List Char) (l : List msg_t) (m : msg_t)
    (hm : m ∈ l) (hn : m.name = idstring) : ∃ id, find_msg idstring l = some id := by
  cases h : find_msg idstring l with
  | some id => exact ⟨id, rfl⟩
  | none =>
    exfalso
    induction l with
    | nil => simp at hm
    | cons p ps ih =>
      by_cases hp : idstring = p.name
      · simp [find_msg, hp] at h
      · simp only [find_msg, hp, if_false] at h
        rcases List.mem_cons.mp hm with rfl | hm2
        · exact hp hn.symm
        · exact ih hm2 h

/-- A successful lookup decides `get_can_id`, whatever the base. -/
theorem get_can_id_of_find (idstring : List Char) (base : Nat) (l : List msg_t) (id : Nat)
    (h : find_msg idstring l = some id) : (get_can_id idstring base l).1 = id := by
  simp [get_can_id, h]

/-- A list with an entry of a name splits at the first entry of that name. -/
theorem first_entry_split (idstring : List Char) (l : List msg_t) (m : msg_t) (hm : m ∈ l)
    (hn : m.name = idstring) :
    ∃ pre e post, l = pre ++ e :: post ∧ e.name = idstring ∧
      ∀ p ∈ pre, p.name ≠ idstring := by
  induction l with
  | nil => simp at hm
  | cons a as ih =>
    by_cases ha : a.name = idstring
    · exact ⟨[], a, as, rfl, ha, by simp⟩
    · have hmas : m ∈ as := by
        rcases List.mem_cons.mp hm with rfl | h
        · exact absurd hn ha
        · exact h
      obtain ⟨pre, e, post, hl, he, hpre⟩ := ih hmas
      refine ⟨a :: pre, e, post, by rw [hl]; rfl, he, ?_⟩
      intro p hp
      rcases List.mem_cons.mp hp with rfl | h
      · exact ha
      · exact hpre p h

/-- C5 as stated fails: the table [("A", 1), ("A", 2)], which `process_dbc` builds from
the lines `BO_ 1 A:` and `BO_ 2 A:`, contains the entry ("A", 2) whose name equals
the token `A`, yet the token resolves to 1 in both bases, not to that entry's id. -/
theorem get_can_id_later_entry_not_returned :
    process_dbc (some ["BO_ 1 A: 8 Vector__XXX\n".toList,
      "BO_ 2 A: 8 Vector__XXX\n".toList]) = [⟨"A".toList, 1⟩, ⟨"A".toList, 2⟩] ∧
    (⟨"A".toList, 2⟩ : msg_t) ∈ [(⟨"A".toList, 1⟩ : msg_t), ⟨"A".toList, 2⟩] ∧
    (⟨"A".toList, 2⟩ : msg_t).name = "A".toList ∧
    (get_can_id "A".toList 10 [⟨"A".toList, 1⟩, ⟨"A".toList, 2⟩]).1 = 1 ∧
    (get_can_id "A".toList 16 [⟨"A".toList, 1⟩, ⟨"A".toList, 2⟩]).1 = 1 ∧
    (get_can_id "A".toList 10 [⟨"A".toList, 1⟩, ⟨"A".toList, 2⟩]).1 ≠
      (⟨"A".toList, 2⟩ : msg_t).id := by
  decide

/-- C5 amended (the first entry of the name is the one returned): if the message list
has an entry whose name equals the id token, the list splits at the first entry of
that name, and `get_can_id` resolves the token to the identifier of that first entry,
the same in base 10 and in base 16, whatever characters the token is made of; so an
entry that no entry of the same name precedes is resolved to its own identifier. -/
theorem get_can_id_first_entry (msg_list : List msg_t) (idstring : List Char)
    (m : msg_t) (hm : m ∈ msg_list) (hn : m.name = idstring) :
    (∃ pre e post, msg_list = pre ++ e :: post ∧ e.name = idstring ∧
      (∀ p ∈ pre, p.name ≠ idstring) ∧
      (get_can_id idstring 10 msg_list).1 = e.id ∧
      (get_can_id idstring 16 msg_list).1 = e.id) ∧
    (∀ pre post, msg_list = pre ++ m :: post → (∀ p ∈ pre, p.name ≠ idstring) →
      (get_can_id idstring 10 msg_list).1 = m.id ∧
      (get_can_id idstring 16 msg_list).1 = m.id) := by
  constructor
  · obtain ⟨pre, e, post, hl, he, hpre⟩ := first_entry_split idstring msg_list m hm hn
    have hf := find_msg_first idstring pre post e he hpre
    rw [← hl] at hf
    exact ⟨pre, e, post, hl, he, hpre, get_can_id_of_find idstring 10 msg_list e.id hf,
      get_can_id_of_find idstring 16 msg_list e.id hf⟩
  · intro pre post hl hpre
    have hf := find_msg_first idstring pre post m hn hpre
    rw [← hl] at hf
    exact ⟨get_can_id_of_find idstring 10 msg_list m.id hf,
      get_can_id_of_find idstring 16 msg_list m.id hf⟩

/-- C5 amended, at the table holding ("390", 0x123) and the token "390". -/
theorem get_can_id_first_entry_witness :
    (⟨"390".toList, 0x123⟩ : msg_t) ∈ [(⟨"390".toList, 0x123⟩ : msg_t)] ∧
    (get_can_id "390".toList 10 [⟨"390".toList, 0x123⟩]).1 = 0x123 ∧
    (get_can_id "390".toList 16 [⟨"390".toList, 0x123⟩]).1 = 0x123 :=
  ⟨by simp,
   (get_can_id_first_entry [⟨"390".toList, 0x123⟩] "390".toList ⟨"390".toList, 0x123⟩
     (by simp) rfl).2 [] [] rfl (by simp)⟩

/-- The loop of `process_dbc` appends the entries of the matching lines in order. -/
theorem foldl_dbc_line (lines : List (List Char)) (acc : List msg_t) :
    lines.foldl dbc_line acc = acc ++ lines.filterMap dbc_entry := by
  induction lines generalizing acc with
  | nil => simp
  | cons l ls ih =>
    rw [List.foldl_cons, ih]
    cases h : dbc_entry l with
    | none => simp [dbc_line, h, List.filterMap_cons]
    | some m => simp [dbc_line, h, List.filterMap_cons]

/-- The message list is the list of entries of the matching lines, in file order. -/
theorem process_dbc_eq (lines : List (List Char)) :
    process_dbc (some lines) = lines.filterMap dbc_entry := by
  simp [process_dbc, foldl_dbc_line]

/-- C6 as stated fails: of two lines `BO_ 100 Msg:` and `BO_ 200 Msg:` in this order,
the name `Msg` resolves to 100, the identifier of the first line, not to 200. -/
theorem process_dbc_last_does_not_win :
    dbc_entry "BO_ 100 Msg: 8 Vector__XXX\n".toList = some ⟨"Msg".toList, 100⟩ ∧
    dbc_entry "BO_ 200 Msg: 8 Vector__XXX\n".toList = some ⟨"Msg".toList, 200⟩ ∧
    (get_can_id "Msg".toList 16
      (process_dbc (some ["BO_ 100 Msg: 8 Vector__XXX\n".toList,
                          "BO_ 200 Msg: 8 Vector__XXX\n".toList]))).1 = 100 ∧
    (get_can_id "Msg".toList 16
      (process_dbc (some ["BO_ 100 Msg: 8 Vector__XXX\n".toList,
                          "BO_ 200 Msg: 8 Vector__XXX\n".toList]))).1 ≠ 200 := by
  decide

/-- C7 as stated fails: the token `80000000` does not end in `x` and is a numeral of
base 16, yet the resolved identifier has the extended flag (bit 31) set. -/
theorem get_can_id_large_value_sets_extended :
    "80000000".toList.getLast? ≠ some 'x' ∧
    IsNumeral 16 "80000000".toList ∧
    (get_can_id "80000000".toList 16 []).1 = 0x80000000 ∧
    (get_can_id "80000000".toList 16 []).1.testBit 31 = true := by
  refine ⟨by decide, ⟨by decide, by decide⟩, by decide, by decide⟩

/-- C7 amended (values below `2^31`): with no entry of the token's name in the
table and base 10 or 16, a token `r ++ "x"` whose `r` is a numeral of the base with
value below `2^31` resolves to that value with the extended flag (bit 31) set, and a
numeral token with value below `2^31` resolves to its value with the flag unset. -/
theorem get_can_id_numeric (msg_list : List msg_t) (base : Nat) (tok : List Char)
    (hb : base = 10 ∨ base = 16) (hmiss : ∀ m ∈ msg_list, m.name ≠ tok) :
    (∀ r, tok = r ++ ['x'] → IsNumeral base r → numeralValue base r < 2 ^ 31 →
      (get_can_id tok base msg_list).1 = CAN_EFF_FLAG + numeralValue base r ∧
      (get_can_id tok base msg_list).1.testBit 31 = true) ∧
    (IsNumeral base tok → numeralValue base tok < 2 ^ 31 →
      (get_can_id tok base msg_list).1 = numeralValue base tok ∧
      (get_can_id tok base msg_list).1.testBit 31 = false) := by
  have hb16 : base ≤ 16 := by omega
  have hnone := find_msg_none tok msg_list hmiss
  constructor
  · intro r hr hnum hv
    subst hr
    have hU : numeralValue base r ≤ ULONG_MAX := by simp only [ULONG_MAX]; omega
    have hid : (get_can_id (r ++ ['x']) base msg_list).1 = CAN_EFF_FLAG + numeralValue base r := by
      simp only [get_can_id, hnone, List.getLast?_concat, if_true, List.dropLast_concat,
        strtoul_numeral base hb16 r hnum hU, or_eff_of_lt _ hv]
    refine ⟨hid, ?_⟩
    rw [hid]
    have := Nat.testBit_two_pow_add_eq (numeralValue base r) 31
    simp only [CAN_EFF_FLAG]
    norm_num at this ⊢
    rw [this]
    simp [Nat.testBit_lt_two_pow hv]
  · intro hnum hv
    have hU : numeralValue base tok ≤ ULONG_MAX := by simp only [ULONG_MAX]; omega
    have hlast : ¬ tok.getLast? = some 'x' := by
      intro h
      exact digit_not_x base hb16 _ (hnum.2 _ (List.mem_of_getLast?_eq_some h)) (Or.inl rfl)
    have hid : (get_can_id tok base msg_list).1 = numeralValue base tok := by
      simp only [get_can_id, hnone, hlast, if_false, Nat.zero_or,
        strtoul_numeral base hb16 tok hnum hU]
      omega
    refine ⟨hid, ?_⟩
    rw [hid]
    exact Nat.testBit_lt_two_pow hv

/-- C7 amended, at the tokens `123x` and `123`. -/
theorem get_can_id_numeric_witness :
    (get_can_id "123x".toList 16 []).1 = CAN_EFF_FLAG + 0x123 ∧
    (get_can_id "123".toList 16 []).1 = 0x123 ∧
    (get_can_id "123".toList 16 []).1.testBit 31 = false ∧
    (get_can_id "123".toList 10 []).1 = 123 :=
  ⟨((get_can_id_numeric [] 16 "123x".toList (Or.inr rfl) (by simp)).1 "123".toList rfl
      ⟨by decide, by decide⟩ (by decide)).1,
   ((get_can_id_numeric [] 16 "123".toList (Or.inr rfl) (by simp)).2
      ⟨by decide, by decide⟩ (by decide)).1,
   ((get_can_id_numeric [] 16 "123".toList (Or.inr rfl) (by simp)).2
      ⟨by decide, by decide⟩ (by decide)).2,
   ((get_can_id_numeric [] 10 "123".toList (Or.inl rfl) (by simp)).2
      ⟨by decide, by decide⟩ (by decide)).1⟩

/-! ## The line loop -/

/-- C4 (the code on a first frame line with non-zero seconds): relative mode, session
date (1000, 0) from the date line, first frame line `5.250000 1 123 Rx d 2 AA BB`.
The calibration scan of line 367 stores the line's seconds in the accumulator
`tv.tv_sec`, so `calc_tv` finds it non-zero, does not seed from the session date and
adds the seconds again: the first record carries (10, 250000), where session date
plus the line's timestamp is (1005, 250000). With seconds 0 the record carries
session date plus timestamp, (1000, 250000). -/
theorem first_frame_seconds_counted_twice :
    (run ⟨false, [], fun _ => some 1000, ⟨0, 0⟩⟩ State.zero.start
      ["base hex timestamps relative\n".toList,
       "date Thu Jan 1 00:16:40 1970\n".toList,
       "5.250000 1 123 Rx d 2 AA BB\n".toList]).out =
      [⟨⟨10, 250000⟩, 1, ⟨0x123, 2, [0xAA, 0xBB, 0, 0, 0, 0, 0, 0]⟩⟩] ∧
    (run ⟨false, [], fun _ => some 1000, ⟨0, 0⟩⟩ State.zero.start
      ["base hex timestamps relative\n".toList,
       "date Thu Jan 1 00:16:40 1970\n".toList,
       "0.250000 1 123 Rx d 2 AA BB\n".toList]).out =
      [⟨⟨1000, 250000⟩, 1, ⟨0x123, 2, [0xAA, 0xBB, 0, 0, 0, 0, 0, 0]⟩⟩] := by
  decide

/-! ## Scanning numerals and tokens -/

theorem atGap_nil : AtGap [] := by
  intro c r h; cases h

/-- Input starting with a space is at a gap. -/
theorem atGap_cons_space (r : List Char) : AtGap (' ' :: r) := by
  intro c r2 h
  cases h
  decide

/-- Input made of white space is at a gap. -/
theorem atGap_of_all_space (t : List Char) (h : ∀ c ∈ t, isspace c = true) : AtGap t := by
  intro c r e
  subst e
  exact h c (List.mem_cons_self _ _)

/-- The byte fields, and the end of the line after them, start at a gap. -/
theorem atGap_byteFields (bytes : List (List Char)) (tail : List Char)
    (h : ∀ c ∈ tail, isspace c = true) : AtGap (byteFields bytes tail) := by
  cases bytes with
  | nil => exact atGap_of_all_space tail h
  | cons b bs => exact atGap_cons_space _

/-- White space is not a digit. -/
theorem space_not_digit (base : Nat) (c : Char) (h : isspace c = true) :
    digitVal base c = none := by
  cases hd : digitVal base c with
  | none => rfl
  | some d =>
    have := digit_not_space base c (by simp [hd])
    simp [h] at this

/-- Input at a gap does not start with a digit. -/
theorem atGap_not_digit (base : Nat) (rest : List Char) (h : AtGap rest) :
    startsWithDigit base rest = false := by
  cases rest with
  | nil => rfl
  | cons c r => simp [startsWithDigit, space_not_digit base c (h c r rfl)]

/-- Input at a gap does not start with the letter x. -/
theorem atGap_not_x (rest : List Char) (h : AtGap rest) :
    ∀ c r, rest = c :: r → ¬ (c = 'x' ∨ c = 'X') := by
  intro c r e hx
  have := h c r e
  rcases hx with rfl | rfl
  · simp [isspace] at this
  · simp [isspace] at this

/-- Skipping white space consumes input made of white space. -/
theorem dropWhile_space_all (t : List Char) (h : ∀ c ∈ t, isspace c = true) :
    t.dropWhile isspace = [] := by
  induction t with
  | nil => rfl
  | cons c cs ih =>
    simp only [List.dropWhile_cons, h c (List.mem_cons_self _ _), if_true]
    exact ih (fun x hx => h x (List.mem_cons_of_mem _ hx))

/-- Skipping white space stops at a numeral. -/
theorem dropWhile_space_numeral (base : Nat) (ds rest : List Char) (hd : IsNumeral base ds) :
    (ds ++ rest).dropWhile isspace = ds ++ rest := by
  obtain ⟨hne, hall⟩ := hd
  cases ds with
  | nil => exact absurd rfl hne
  | cons c cs =>
    simp [List.dropWhile_cons, digit_not_space base c (hall c (List.mem_cons_self _ _))]

/-- Skipping white space stops at a token. -/
theorem dropWhile_space_token (tok rest : List Char) (ht : IsToken tok) :
    (tok ++ rest).dropWhile isspace = tok ++ rest := by
  obtain ⟨hne, hall⟩ := ht
  cases tok with
  | nil => exact absurd rfl hne
  | cons c cs => simp [List.dropWhile_cons, hall c (List.mem_cons_self _ _)]

/-- A numeral followed by other than the letter x carries no `0x` mark. -/
theorem scanHexMark_numeral (base : Nat) (hb : base ≤ 16) (ds rest : List Char)
    (hd : IsNumeral base ds) (hx : ∀ c r, rest = c :: r → ¬ (c = 'x' ∨ c = 'X')) :
    scanHexMark base (ds ++ rest) = ds ++ rest := by
  obtain ⟨hne, hall⟩ := hd
  match ds, hne, hall with
  | [z], _, _ =>
    cases rest with
    | nil => rfl
    | cons x r =>
      have := hx x r rfl
      simp only [List.singleton_append, scanHexMark]
      rw [if_neg]; tauto
  | z :: x :: more, _, hall =>
    have := digit_not_x base hb x (hall x (by simp))
    simp only [List.cons_append, scanHexMark]
    rw [if_neg]; tauto

/-- An integer conversion reads a numeral up to the first character that is not a
digit and yields its value. -/
theorem scanInt_numeral (base : Nat) (hb : base ≤ 16) (ds rest : List Char)
    (hd : IsNumeral base ds) (hr : startsWithDigit base rest = false)
    (hx : ∀ c r, rest = c :: r → ¬ (c = 'x' ∨ c = 'X')) :
    scanInt base (ds ++ rest) = .ok (numeralValue base ds : Int) rest := by
  have hdrop := dropWhile_space_numeral base ds rest hd
  have hmark := scanHexMark_numeral base hb ds rest hd hx
  obtain ⟨hne, hall⟩ := hd
  match ds, hne, hall, hdrop, hmark with
  | c :: cs, _, hall, hdrop, hmark =>
    have hc := hall c (List.mem_cons_self _ _)
    have hsign := digit_not_sign base c hc
    have hminus : ¬ c = '-' := fun h => hsign (Or.inl h)
    have hplus : ¬ c = '+' := fun h => hsign (Or.inr h)
    have hread := readDigits_append base (c :: cs) rest 0 hall hr
    unfold scanInt
    rw [hdrop]
    simp only [List.cons_append] at hmark hread ⊢
    simp only [hminus, hplus, or_self, if_false, hmark, startsWithDigit, hc, if_true, hread,
      numeralValue]

/-- The `%s` conversion reads a token up to the gap after it. -/
theorem scanStr_token (tok rest : List Char) (ht : IsToken tok) (hr : AtGap rest) :
    scanStr (tok ++ rest) = .ok tok rest := by
  have hdrop := dropWhile_space_token tok rest ht
  obtain ⟨hne, hall⟩ := ht
  have h1 : (tok ++ rest).takeWhile (fun x => !isspace x) = tok := by
    rw [List.takeWhile_append_of_pos (by intro a ha; simp [hall a ha])]
    cases rest with
    | nil => simp
    | cons c r => simp [List.takeWhile_cons, hr c r rfl]
  have h2 : (tok ++ rest).dropWhile (fun x => !isspace x) = rest := by
    rw [List.dropWhile_append_of_pos (by intro a ha; simp [hall a ha])]
    cases rest with
    | nil => simp
    | cons c r => simp [List.dropWhile_cons, hr c r rfl]
  unfold scanStr
  rw [hdrop]
  match tok, hne, h1, h2 with
  | c :: cs, _, h1, h2 =>
    simp only [List.cons_append] at h1 h2 ⊢
    rw [h1, h2]

/-! ## Values stored by the integer conversions -/

/-- A value in the range of `long` is what `strtol` returns. -/
theorem sat_long_of_range (v : Int) (h0 : - 2 ^ 63 ≤ v) (h1 : v < 2 ^ 63) : sat_long v = v := by
  unfold sat_long LONG_MAX LONG_MIN
  rw [if_neg (by omega), if_neg (by omega)]

/-- A value below `2^64` is what `strtoul` returns. -/
theorem sat_ulong_of_range (v : Int) (h0 : 0 ≤ v) (h1 : v < 2 ^ 64) : sat_ulong v = v := by
  unfold sat_ulong ULONG_MAX
  rw [if_neg (by omega)]
  exact Int.emod_eq_of_lt h0 h1

/-- A value in the range of `int` is kept by the conversion to `int`. -/
theorem to_int_of_range (v : Int) (h0 : - 2 ^ 31 ≤ v) (h1 : v < 2 ^ 31) : to_int v = v := by
  unfold to_int
  omega

/-- The conversion to `int` keeps the low eight bits. -/
theorem to_int_mod_256 (v : Int) : to_int v % 256 = v % 256 := by
  unfold to_int
  omega

/-- The conversion to `int` keeps the low 32 bits. -/
theorem to_int_mod_32 (v : Int) : to_int v % 2 ^ 32 = v % 2 ^ 32 := by
  unfold to_int
  omega

/-- The conversion to `int` gives a value in the range of `int`. -/
theorem to_int_range (v : Int) : - 2 ^ 31 ≤ to_int v ∧ to_int v < 2 ^ 31 := by
  unfold to_int
  omega

/-- A `long` object holds the numeral `%ld` read when it is below `2^63`. -/
theorem store_long_of_lt (v : Nat) (h : v < 2 ^ 63) : store_long (v : Int) = v := by
  unfold store_long
  exact sat_long_of_range _ (by omega) (by omega)

/-- An `int` object holds the numeral `%d` or `%x` read when it is below `2^31`. -/
theorem store_int_of_lt (base : Nat) (v : Nat) (h : v < 2 ^ 31) :
    store_int base (v : Int) = v := by
  unfold store_int
  by_cases hb : base = 16
  · rw [if_pos hb, sat_ulong_of_range _ (by omega) (by omega)]
    exact to_int_of_range _ (by omega) (by omega)
  · rw [if_neg hb, sat_long_of_range _ (by omega) (by omega)]
    exact to_int_of_range _ (by omega) (by omega)

/-- The low eight bits of an `int` object are those of the numeral read, for a
numeral below `2^63`. -/
theorem store_int_byte (base : Nat) (v : Nat) (h : v < 2 ^ 63) :
    (store_int base (v : Int) % 256).toNat = v % 256 := by
  unfold store_int
  by_cases hb : base = 16
  · rw [if_pos hb, sat_ulong_of_range _ (by omega) (by omega), to_int_mod_256]
    omega
  · rw [if_neg hb, sat_long_of_range _ (by omega) (by omega), to_int_mod_256]
    omega

/-- Read as an `unsigned int`, an `int` object holds the numeral `%d` read when it
is below `2^32`. -/
theorem store_int_unsigned (v : Nat) (h : v < 2 ^ 32) :
    (store_int 10 (v : Int) % 2 ^ 32).toNat = v := by
  unfold store_int
  rw [if_neg (by omega), sat_long_of_range _ (by omega) (by omega), to_int_mod_32]
  omega
/-! ## Scanning with a format -/

theorem scan_int (base : Nat) (hb : base ≤ 16) (fs : List Directive) (ds rest : List Char)
    (acc : List Val) (hd : IsNumeral base ds) (hr : startsWithDigit base rest = false)
    (hx : ∀ c r, rest = c :: r → ¬ (c = 'x' ∨ c = 'X')) :
    scan (.int base :: fs) (ds ++ rest) acc =
      scan fs rest (acc ++ [.num (store_int base (numeralValue base ds : Int))]) := by
  simp only [scan, scanInt_numeral base hb ds rest hd hr hx]

/-- Step of the scan: `%ld` on a numeral. -/
theorem scan_long (fs : List Directive) (ds rest : List Char)
    (acc : List Val) (hd : IsNumeral 10 ds) (hr : startsWithDigit 10 rest = false)
    (hx : ∀ c r, rest = c :: r → ¬ (c = 'x' ∨ c = 'X')) :
    scan (.long :: fs) (ds ++ rest) acc =
      scan fs rest (acc ++ [.num (store_long (numeralValue 10 ds : Int))]) := by
  simp only [scan, scanInt_numeral 10 (by omega) ds rest hd hr hx]

/-- Step of the scan: `%ld` on a numeral followed by a gap. -/
theorem scan_long_gap (fs : List Directive) (ds rest : List Char)
    (acc : List Val) (hd : IsNumeral 10 ds) (hr : AtGap rest) :
    scan (.long :: fs) (ds ++ rest) acc =
      scan fs rest (acc ++ [.num (store_long (numeralValue 10 ds : Int))]) :=
  scan_long fs ds rest acc hd (atGap_not_digit 10 rest hr) (atGap_not_x rest hr)

/-- Step of the scan: an integer directive on a numeral followed by a gap. -/
theorem scan_int_gap (base : Nat) (hb : base ≤ 16) (fs : List Directive) (ds rest : List Char)
    (acc : List Val) (hd : IsNumeral base ds) (hr : AtGap rest) :
    scan (.int base :: fs) (ds ++ rest) acc =
      scan fs rest (acc ++ [.num (store_int base (numeralValue base ds : Int))]) :=
  scan_int base hb fs ds rest acc hd (atGap_not_digit base rest hr) (atGap_not_x rest hr)

/-- Step of the scan: `%s` on a token. -/
theorem scan_str (fs : List Directive) (tok rest : List Char) (acc : List Val)
    (ht : IsToken tok) (hr : AtGap rest) :
    scan (.str :: fs) (tok ++ rest) acc = scan fs rest (acc ++ [.str tok]) := by
  simp only [scan, scanStr_token tok rest ht hr]

/-- Step of the scan: `%*s` on a token assigns nothing. -/
theorem scan_skipStr (fs : List Directive) (tok rest : List Char) (acc : List Val)
    (ht : IsToken tok) (hr : AtGap rest) :
    scan (.skipStr :: fs) (tok ++ rest) acc = scan fs rest acc := by
  simp only [scan, scanStr_token tok rest ht hr]

/-- Step of the scan: white space in the format before a numeral. -/
theorem scan_space_numeral (base : Nat) (fs : List Directive) (ds rest : List Char)
    (acc : List Val) (hd : IsNumeral base ds) :
    scan (.space :: fs) (' ' :: (ds ++ rest)) acc = scan fs (ds ++ rest) acc := by
  have h : isspace ' ' = true := by decide
  simp only [scan, List.dropWhile_cons, h, if_true, dropWhile_space_numeral base ds rest hd]

/-- Step of the scan: white space in the format before a token. -/
theorem scan_space_token (fs : List Directive) (tok rest : List Char) (acc : List Val)
    (ht : IsToken tok) :
    scan (.space :: fs) (' ' :: (tok ++ rest)) acc = scan fs (tok ++ rest) acc := by
  have h : isspace ' ' = true := by decide
  simp only [scan, List.dropWhile_cons, h, if_true, dropWhile_space_token tok rest ht]

/-- Step of the scan: white space in the format before a character. -/
theorem scan_space_char (fs : List Directive) (c : Char) (rest : List Char) (acc : List Val)
    (hc : isspace c = false) :
    scan (.space :: fs) (' ' :: c :: rest) acc = scan fs (c :: rest) acc := by
  have h : isspace ' ' = true := by decide
  simp [scan, List.dropWhile_cons, h, hc]

/-- The byte conversions of a frame format: `k` times white space and an integer. -/
theorem scan_bytes (b : Nat) (hb : b ≤ 16) (k : Nat) (bytes : List (List Char))
    (tail : List Char) (acc : List Val) (hbytes : ∀ x ∈ bytes, IsNumeral b x)
    (htail : ∀ c ∈ tail, isspace c = true) :
    (scan (List.replicate k [Directive.space, Directive.int b]).flatten
      (byteFields bytes tail) acc).1 =
      acc ++ (bytes.take k).map (fun x => Val.num (store_int b (numeralValue b x : Int))) := by
  induction k generalizing bytes acc with
  | zero => simp [scan]
  | succ k ih =>
    simp only [List.replicate_succ, List.flatten_cons, List.cons_append, List.nil_append]
    cases bytes with
    | nil =>
      simp only [byteFields, List.foldr_nil, scan, dropWhile_space_all tail htail, scanInt,
        List.dropWhile_nil, List.take_nil, List.map_nil, List.append_nil]
    | cons x xs =>
      have hx := hbytes x (List.mem_cons_self _ _)
      have hxs : ∀ y ∈ xs, IsNumeral b y := fun y hy => hbytes y (List.mem_cons_of_mem _ hy)
      have hfold : byteFields (x :: xs) tail = ' ' :: (x ++ byteFields xs tail) := rfl
      rw [hfold, scan_space_numeral b _ x _ acc hx,
        scan_int_gap b hb _ x _ acc hx (atGap_byteFields xs tail htail), ih xs _ hxs]
      simp

/-- Once an item is assigned, the value returned is the number of items. -/
theorem scanCount_of_ne_nil (r : List Val × Bool) (h : r.1 ≠ []) :
    scanCount r = (r.1.length : Int) := by
  simp [scanCount, h]

/-- Step of the scan: an ordinary character that matches. -/
theorem scan_lit (fs : List Directive) (c : Char) (rest : List Char) (acc : List Val) :
    scan (.lit c :: fs) (c :: rest) acc = scan fs rest acc := by
  simp [scan]

/-- Step of the scan: `%c` takes the next character. -/
theorem scan_chr (fs : List Directive) (c : Char) (rest : List Char) (acc : List Val) :
    scan (.chr :: fs) (c :: rest) acc = scan fs rest (acc ++ [.chr c]) := by
  simp [scan]

/-- The directives of the two frame formats: thirteen for the head of the line, then
eight times white space and an integer of the data base. -/
theorem parseFormat_frame (base : Char) :
    parseFormat (frameFormat base).toList =
      [.long, .lit '.', .long, .space, .int 10, .space, .str, .space, .skipStr, .space,
       .chr, .space, .int 10] ++
      (List.replicate 8 [Directive.space, Directive.int (dataBase base)]).flatten := by
  by_cases h : base = 'h'
  · simp only [frameFormat, dataBase, h, if_true]
    decide
  · simp only [frameFormat, dataBase, h, if_false]
    decide

/-- The data base is 10 or 16. -/
theorem dataBase_le (base : Char) : dataBase base ≤ 16 := by
  unfold dataBase
  split <;> omega

/-- The items the frame `sscanf` assigns on a line of the frame shape. -/
theorem sscanf_frame_line (base : Char) (f : FrameText) (hf : f.Shaped (dataBase base)) :
    (sscanf f.line (frameFormat base)).1 =
      [.num (store_long (numeralValue 10 f.secs : Int)),
       .num (store_long (numeralValue 10 f.frac : Int)),
       .num (store_int 10 (numeralValue 10 f.iface : Int)), .str f.idtok, .chr f.flag,
       .num (store_int 10 (numeralValue 10 f.len : Int))] ++
      (f.bytes.take 8).map
        (fun x => Val.num (store_int (dataBase base) (numeralValue (dataBase base) x : Int))) := by
  obtain ⟨hsecs, hfrac, hiface, hid, hdir, hflag, hlen, hbytes, htail⟩ := hf
  have hdot : startsWithDigit 10 ('.' :: (f.frac ++ ' ' :: (f.iface ++ ' ' :: (f.idtok ++
      ' ' :: (f.dir ++ ' ' :: f.flag :: ' ' :: (f.len ++ byteFields f.bytes f.tail)))))) =
      false := by
    simp only [startsWithDigit]; decide
  have hdotx : ∀ c r, ('.' :: (f.frac ++ ' ' :: (f.iface ++ ' ' :: (f.idtok ++
      ' ' :: (f.dir ++ ' ' :: f.flag :: ' ' :: (f.len ++ byteFields f.bytes f.tail)))))) =
      c :: r → ¬ (c = 'x' ∨ c = 'X') := by
    intro c r h
    cases h
    decide
  unfold sscanf FrameText.line
  rw [parseFormat_frame]
  simp only [List.cons_append, List.nil_append]
  rw [scan_long _ _ _ _ hsecs hdot hdotx, scan_lit,
    scan_long_gap _ _ _ _ hfrac (atGap_cons_space _),
    scan_space_numeral 10 _ _ _ _ hiface,
    scan_int_gap 10 (by omega) _ _ _ _ hiface (atGap_cons_space _),
    scan_space_token _ _ _ _ hid, scan_str _ _ _ _ hid (atGap_cons_space _),
    scan_space_token _ _ _ _ hdir, scan_skipStr _ _ _ _ hdir (atGap_cons_space _),
    scan_space_char _ _ _ _ hflag, scan_chr,
    scan_space_numeral 10 _ _ _ _ hlen,
    scan_int_gap 10 (by omega) _ _ _ _ hlen (atGap_byteFields _ _ htail),
    scan_bytes _ (dataBase_le base) 8 _ _ _ hbytes htail]
  simp

/-! ## The frame scan on a line of the frame shape -/

theorem numArg_eq (r : List Val × Bool) (l : List Val) (h : r.1 = l) (i : Nat) (old : Int) :
    numArg r i old = match l.get? i with
      | some (.num v) => v
      | _ => old := by
  simp only [numArg, h]

/-- The character array behind pointer `i` in terms of the list of items. -/
theorem strArg_eq (r : List Val × Bool) (l : List Val) (h : r.1 = l) (i : Nat)
    (old : List Char) :
    strArg r i old = match l.get? i with
      | some (.str v) => v
      | _ => old := by
  simp only [strArg, h]

/-- The `char` object behind pointer `i` in terms of the list of items. -/
theorem chrArg_eq (r : List Val × Bool) (l : List Val) (h : r.1 = l) (i : Nat) (old : Char) :
    chrArg r i old = match l.get? i with
      | some (.chr v) => v
      | _ => old := by
  simp only [chrArg, h]

/-- On a line of the frame shape the frame scan returns 6 plus the number of byte
fields, at most 14. -/
theorem scan_frame_count (s : State) (f : FrameText) (hf : f.Shaped (dataBase s.base)) :
    (scan_frame s f.line).2 = 6 + (min f.bytes.length 8 : Nat) := by
  have h := sscanf_frame_line s.base f hf
  have hne : (sscanf f.line (frameFormat s.base)).1 ≠ [] := by rw [h]; simp
  simp only [scan_frame, scanCount_of_ne_nil _ hne, h]
  simp [List.length_take]
  omega

/-- On a line of the frame shape `dlc` is the declared length as an `int` holds it. -/
theorem scan_frame_dlc (s : State) (f : FrameText) (hf : f.Shaped (dataBase s.base)) :
    (scan_frame s f.line).1.dlc = store_int 10 (numeralValue 10 f.len) := by
  have h := sscanf_frame_line s.base f hf
  simp [scan_frame, numArg_eq _ _ h]

/-- On a line of the frame shape `interface` is the interface field as an `int`
holds it. -/
theorem scan_frame_interface (s : State) (f : FrameText) (hf : f.Shaped (dataBase s.base)) :
    (scan_frame s f.line).1.interface = store_int 10 (numeralValue 10 f.iface) := by
  have h := sscanf_frame_line s.base f hf
  simp [scan_frame, numArg_eq _ _ h]

/-- On a line of the frame shape `rtr` is the flag character. -/
theorem scan_frame_rtr (s : State) (f : FrameText) (hf : f.Shaped (dataBase s.base)) :
    (scan_frame s f.line).1.rtr = f.flag := by
  have h := sscanf_frame_line s.base f hf
  simp [scan_frame, chrArg_eq _ _ h]

/-- On a line of the frame shape `tmp1` is the id token. -/
theorem scan_frame_tmp1 (s : State) (f : FrameText) (hf : f.Shaped (dataBase s.base)) :
    (scan_frame s f.line).1.tmp1 = f.idtok := by
  have h := sscanf_frame_line s.base f hf
  simp [scan_frame, strArg_eq _ _ h]

/-- On a line of the frame shape `read_tv` holds seconds and fraction. -/
theorem scan_frame_read_tv (s : State) (f : FrameText) (hf : f.Shaped (dataBase s.base)) :
    (scan_frame s f.line).1.read_tv =
      ⟨store_long (numeralValue 10 f.secs), store_long (numeralValue 10 f.frac)⟩ := by
  have h := sscanf_frame_line s.base f hf
  simp [scan_frame, numArg_eq _ _ h]

/-- The frame scan leaves base, decimal places and the frame object alone. -/
theorem scan_frame_base (s : State) (buf : List Char) :
    (scan_frame s buf).1.base = s.base ∧ (scan_frame s buf).1.dplace = s.dplace ∧
    (scan_frame s buf).1.cf = s.cf := by
  simp [scan_frame]

/-- On a line of the frame shape `data[i]` is the value of byte field `i` as an `int`
holds it, for the first eight fields. -/
theorem scan_frame_data (s : State) (f : FrameText) (hf : f.Shaped (dataBase s.base))
    (i : Nat) (x : List Char) (hi : i < 8) (hx : f.bytes.get? i = some x) :
    (scan_frame s f.line).1.data.getD i 0 =
      store_int (dataBase s.base) (numeralValue (dataBase s.base) x) := by
  have h := sscanf_frame_line s.base f hf
  have hget : ((List.range 8).map (fun j =>
      numArg (sscanf f.line (frameFormat s.base)) (6 + j) (s.data.getD j 0))).getD i 0 =
      numArg (sscanf f.line (frameFormat s.base)) (6 + i) (s.data.getD i 0) := by
    simp [List.getD_eq_getElem?_getD, List.getElem?_map, List.getElem?_range hi]
  simp only [scan_frame]
  rw [hget, numArg_eq _ _ h]
  have : ([Val.num (store_long (numeralValue 10 f.secs : Int)),
       .num (store_long (numeralValue 10 f.frac : Int)),
       .num (store_int 10 (numeralValue 10 f.iface : Int)), .str f.idtok, .chr f.flag,
       .num (store_int 10 (numeralValue 10 f.len : Int))] ++
      (f.bytes.take 8).map (fun x =>
        Val.num (store_int (dataBase s.base) (numeralValue (dataBase s.base) x : Int)))).get?
        (6 + i) =
      some (.num (store_int (dataBase s.base) (numeralValue (dataBase s.base) x : Int))) := by
    rw [List.get?_eq_getElem?, List.getElem?_append_right (by simp)]
    simp only [List.length_cons, List.length_nil, Nat.zero_add, Nat.reduceAdd,
      Nat.add_sub_cancel_left]
    rw [List.getElem?_map, List.getElem?_take,
      if_pos hi, ← List.get?_eq_getElem?, hx]
    rfl
  rw [this]

/-- Printing always hands one record to the output, with the interface and frame
of the state. -/
theorem emit_record (env : Env) (s : State) :
    ∃ s2 tv, emit env s = .next s2 (some ⟨tv, s.interface, s.cf⟩) := by
  unfold emit
  cases env.raw_time with
  | true => exact ⟨_, _, rfl⟩
  | false => exact ⟨_, _, rfl⟩

/-- With the decimal places known, the body of the loop is the frame processing. -/
theorem body_ready (env : Env) (s : State) (buf : List Char) (h : s.dplace ≠ 0) :
    body env s buf = frames env s buf := by
  simp [body, h]

/-- On a line of the frame shape the frame is found exactly when the number of byte
fields read, at most eight, is the declared length as `dlc` holds it. -/
theorem found_line_iff (s : State) (f : FrameText) (hf : f.Shaped (dataBase s.base)) :
    found s f.line = true ↔
      ((min f.bytes.length 8 : Nat) : Int) = store_int 10 (numeralValue 10 f.len) := by
  simp only [found, decide_eq_true_eq, scan_frame_count s f hf, scan_frame_dlc s f hf]
  omega

/-- The same for a declared length below `2^31`, which `dlc` holds unchanged. -/
theorem found_line_iff_of_lt (s : State) (f : FrameText) (hf : f.Shaped (dataBase s.base))
    (hlen : numeralValue 10 f.len < 2 ^ 31) :
    found s f.line = true ↔ min f.bytes.length 8 = numeralValue 10 f.len := by
  rw [found_line_iff s f hf, store_int_of_lt 10 _ hlen]
  omega

/-- A record printed by the error-frame scan is the error frame. -/
theorem error_frame_record (env : Env) (s : State) (buf : List Char) (s2 : State)
    (rec : Record) (h : error_frame env s buf = .next s2 (some rec)) :
    rec.cf = ⟨0x20000080, 8, List.replicate 8 0⟩ := by
  unfold error_frame at h
  simp only at h
  split at h
  · split at h
    · obtain ⟨s3, tv, he⟩ := emit_record env
        { s with
          read_tv := ⟨numArg (sscanf buf "%ld.%ld %d %s") 0 s.read_tv.tv_sec,
                      numArg (sscanf buf "%ld.%ld %d %s") 1 s.read_tv.tv_usec⟩,
          interface := numArg (sscanf buf "%ld.%ld %d %s") 2 s.interface,
          tmp1 := strArg (sscanf buf "%ld.%ld %d %s") 3 s.tmp1,
          cf := ⟨CAN_ERR_FLAG ||| CAN_ERR_BUSERROR, CAN_ERR_DLC, List.replicate 8 0⟩ }
      rw [he] at h
      simp only [Outcome.next.injEq, Option.some.injEq] at h
      rw [← h.2]
      show (⟨CAN_ERR_FLAG ||| CAN_ERR_BUSERROR, CAN_ERR_DLC, List.replicate 8 0⟩ : can_frame) = _
      have hid : CAN_ERR_FLAG ||| CAN_ERR_BUSERROR = 0x20000080 := by decide
      rw [hid]
      rfl
    · simp at h
  · simp at h

/-- A found frame is always printed: with the interface of the scan, the resolved
identifier with the remote flag added for the flag character `r`, and the length
and bytes filled in by lines 417-419. -/
theorem data_frame_record (env : Env) (st : State) :
    ∃ s2 tv, data_frame env st = .next s2 (some ⟨tv, st.interface,
      fill_frame { st.cf with can_id :=
        if st.rtr = 'r' then
          (get_can_id st.tmp1 (if st.base = 'h' then 16 else 10) env.msg_list).1 |||
            CAN_RTR_FLAG
        else (get_can_id st.tmp1 (if st.base = 'h' then 16 else 10) env.msg_list).1 }
        st.dlc st.data⟩) := by
  unfold data_frame emit
  cases env.raw_time with
  | true => exact ⟨_, _, rfl⟩
  | false => exact ⟨_, _, rfl⟩

/-! ## Frame and error lines -/

/-- Numerals beyond the range of `int` are stored reduced: the length `4294967296`
is held as 0, so the line with no byte field is found and printed with length 0; the
interface `4294967297` is printed as 1; and the hexadecimal byte field
`10000000000000000` (`2^64`), saturated by `strtoul`, is printed as 255. -/
theorem oversized_numerals_stored :
    found (calibrated 'h' 'a' 6) "0.100000 1 123 Rx d 4294967296\n".toList = true ∧
    (body plainEnv (calibrated 'h' 'a' 6) "0.100000 1 123 Rx d 4294967296\n".toList).record =
      some ⟨⟨0, 100000⟩, 1, ⟨0x123, 0, [0, 0, 0, 0, 0, 0, 0, 0]⟩⟩ ∧
    (body plainEnv (calibrated 'h' 'a' 6)
      "0.100000 4294967297 123 Rx d 1 10000000000000000\n".toList).record =
      some ⟨⟨0, 100000⟩, 1, ⟨0x123, 1, [255, 0, 0, 0, 0, 0, 0, 0]⟩⟩ := by
  decide

/-- C8 as stated fails: the line `0.002367 1 390x Rx d 8 17 00 14 00 C0 00 08 00 FF`
has the frame shape with declared length 8 and nine byte fields, yet in a calibrated
state it is found as a frame and printed as a data frame with the first eight bytes. -/
theorem nine_byte_fields_accepted :
    nineByteFrame.Shaped 16 ∧
    nineByteFrame.line = "0.002367 1 390x Rx d 8 17 00 14 00 C0 00 08 00 FF\n".toList ∧
    numeralValue 10 nineByteFrame.len = 8 ∧ nineByteFrame.bytes.length = 9 ∧
    found (calibrated 'h' 'a' 6) nineByteFrame.line = true ∧
    (body plainEnv (calibrated 'h' 'a' 6) nineByteFrame.line).record =
      some ⟨⟨0, 2367⟩, 1, ⟨0x80000390, 8, [0x17, 0, 0x14, 0, 0xC0, 0, 8, 0]⟩⟩ := by
  decide

/-- C8 amended (at most eight byte fields are read, and `len` is compared as the
`int` object `dlc` holds it): in a calibrated state a line of the frame shape is found
as a data frame if and only if the number of byte fields the scan reads after `len`,
all of them but at most eight, equals the value `dlc` holds after the scan of `len`;
for `len` below `2^31` that value is `len` itself, so the line is found if and only if
that number equals `len`; a found line is printed as a data frame; a line not found
goes to the error-frame scan, and a record it prints there is the error frame, not a
data frame. -/
theorem frame_line_found_iff (env : Env) (s : State) (f : FrameText)
    (hready : s.dplace ≠ 0) (hf : f.Shaped (dataBase s.base)) :
    (found s f.line = true ↔
      ((min f.bytes.length 8 : Nat) : Int) = store_int 10 (numeralValue 10 f.len)) ∧
    (numeralValue 10 f.len < 2 ^ 31 →
      (found s f.line = true ↔ min f.bytes.length 8 = numeralValue 10 f.len)) ∧
    (found s f.line = true →
      body env s f.line = data_frame env (scan_frame s f.line).1 ∧
      ∃ rec, (body env s f.line).record = some rec) ∧
    (found s f.line = false →
      body env s f.line = error_frame env (scan_frame s f.line).1 f.line ∧
      ∀ rec, (body env s f.line).record = some rec →
        rec.cf = ⟨0x20000080, 8, List.replicate 8 0⟩) := by
  refine ⟨found_line_iff s f hf, found_line_iff_of_lt s f hf, ?_, ?_⟩
  · intro h
    have hb : body env s f.line = data_frame env (scan_frame s f.line).1 := by
      rw [body_ready env s f.line hready]
      simp [frames, h]
    refine ⟨hb, ?_⟩
    rw [hb]
    obtain ⟨s2, tv, he⟩ := data_frame_record env (scan_frame s f.line).1
    exact ⟨_, by rw [he]; rfl⟩
  · intro h
    have hb : body env s f.line = error_frame env (scan_frame s f.line).1 f.line := by
      rw [body_ready env s f.line hready]
      simp [frames, h]
    refine ⟨hb, ?_⟩
    intro rec hrec
    rw [hb] at hrec
    cases hout : error_frame env (scan_frame s f.line).1 f.line with
    | next s2 out =>
      rw [hout] at hrec
      simp only [Outcome.record] at hrec
      subst hrec
      exact error_frame_record env _ _ _ _ hout
    | exit s2 =>
      rw [hout] at hrec
      simp [Outcome.record] at hrec

/-- C8 amended, at the sample line with nine byte fields: its declared length 8 is
below `2^31`, eight of its nine byte fields are read, and it is found. -/
theorem frame_line_found_iff_witness :
    (calibrated 'h' 'a' 6).dplace ≠ 0 ∧
    nineByteFrame.Shaped (dataBase (calibrated 'h' 'a' 6).base) ∧
    numeralValue 10 nineByteFrame.len < 2 ^ 31 ∧
    (found (calibrated 'h' 'a' 6) nineByteFrame.line = true ↔
      min nineByteFrame.bytes.length 8 = numeralValue 10 nineByteFrame.len) :=
  ⟨by decide, by decide, by decide,
   (frame_line_found_iff plainEnv (calibrated 'h' 'a' 6) nineByteFrame (by decide)
     (by decide)).2.1 (by decide)⟩

/-- A length up to 8 is stored unchanged by `dlc & 0x0F`. -/
theorem fill_frame_dlc (cf : can_frame) (n : Nat) (data : List Int) (hn : n ≤ 8) :
    (fill_frame cf (n : Int) data).can_dlc = n := by
  simp only [fill_frame]
  omega

/-- Below the length, the stored byte is the low eight bits of the scanned `int`. -/
theorem fill_frame_data (cf : can_frame) (dlc : Int) (data : List Int) (i : Nat)
    (hi : i < 8) (hd : (i : Int) < dlc) :
    (fill_frame cf dlc data).data.get? i = some (data.getD i 0 % 256).toNat := by
  simp only [fill_frame, List.get?_eq_getElem?, List.getElem?_map, List.getElem?_range hi,
    Option.map_some', hd, if_true]

/-- Filling length and bytes leaves the identifier alone. -/
theorem fill_frame_id (cf : can_frame) (dlc : Int) (data : List Int) :
    (fill_frame cf dlc data).can_id = cf.can_id := rfl

/-- With bit 30 of the resolved id clear, bit 30 of the printed id is the flag `r`. -/
theorem rtr_bit (g : Nat) (flag : Char) (hg : g.testBit 30 = false) :
    (if flag = 'r' then g ||| CAN_RTR_FLAG else g).testBit 30 = true ↔ flag = 'r' := by
  by_cases h : flag = 'r'
  · have h30 : CAN_RTR_FLAG.testBit 30 = true := by decide
    simp [h, Nat.testBit_or, h30]
  · simp [h, hg]

/-- C9: in a calibrated state, a well-formed frame line, that is a line of the frame
shape whose declared length is the number of its byte fields, at most eight, whose
interface field fits an `int` (below `2^31`) and whose byte fields fit a `long`
(below `2^63`), is printed as one frame whose `can_dlc` is that length, whose data
byte `i` below the length is the value of the `i`-th byte field in the data base (16
for base `h`, 10 otherwise) modulo 256, whose interface is the value of the interface
field, and whose identifier is the resolved id with the remote flag or-ed in for the
flag character `r`; when bit 30 of the resolved id is clear (as for every id below
`2^29`, with or without the extended flag) the remote flag is set exactly when the
flag character is `r`. -/
theorem frame_line_decoded (env : Env) (s : State) (f : FrameText)
    (hready : s.dplace ≠ 0) (hf : f.Shaped (dataBase s.base))
    (hlen : numeralValue 10 f.len = f.bytes.length) (hmax : f.bytes.length ≤ 8)
    (hiface : numeralValue 10 f.iface < 2 ^ 31)
    (hbytes : ∀ b ∈ f.bytes, numeralValue (dataBase s.base) b < 2 ^ 63) :
    ∃ rec, (body env s f.line).record = some rec ∧
      rec.cf.can_dlc = f.bytes.length ∧
      (∀ i b, f.bytes.get? i = some b →
        rec.cf.data.get? i = some (numeralValue (dataBase s.base) b % 256)) ∧
      rec.dev = numeralValue 10 f.iface ∧
      rec.cf.can_id =
        (if f.flag = 'r' then
          (get_can_id f.idtok (dataBase s.base) env.msg_list).1 ||| CAN_RTR_FLAG
         else (get_can_id f.idtok (dataBase s.base) env.msg_list).1) ∧
      ((get_can_id f.idtok (dataBase s.base) env.msg_list).1.testBit 30 = false →
        (rec.cf.can_id.testBit 30 = true ↔ f.flag = 'r')) ∧
      ((get_can_id f.idtok (dataBase s.base) env.msg_list).1 < 2 ^ 29 →
        (rec.cf.can_id.testBit 30 = true ↔ f.flag = 'r')) := by
  have hlen31 : numeralValue 10 f.len < 2 ^ 31 := by rw [hlen]; omega
  have hfound : found s f.line = true :=
    (found_line_iff_of_lt s f hf hlen31).mpr (by rw [hlen]; exact Nat.min_eq_left hmax)
  have hbody : body env s f.line = data_frame env (scan_frame s f.line).1 := by
    rw [body_ready env s f.line hready]
    simp [frames, hfound]
  obtain ⟨s2, tv, he⟩ := data_frame_record env (scan_frame s f.line).1
  have hbase : (if (scan_frame s f.line).1.base = 'h' then 16 else 10) = dataBase s.base := by
    rw [(scan_frame_base s f.line).1]; rfl
  rw [hbase, scan_frame_tmp1 s f hf, scan_frame_rtr s f hf, scan_frame_dlc s f hf,
    scan_frame_interface s f hf, store_int_of_lt 10 _ hlen31, store_int_of_lt 10 _ hiface,
    hlen] at he
  refine ⟨_, by rw [hbody, he]; rfl, ?_, ?_, rfl, ?_, ?_, ?_⟩
  · exact fill_frame_dlc _ _ _ hmax
  · intro i b hb
    have hi : i < f.bytes.length := by
      rw [List.get?_eq_getElem?] at hb
      exact (List.getElem?_eq_some_iff.mp hb).1
    have hmem : b ∈ f.bytes := List.get?_mem hb
    show (fill_frame _ _ _).data.get? i = _
    rw [fill_frame_data _ _ _ i (by omega) (by exact_mod_cast hi),
      scan_frame_data s f hf i b (by omega) hb, store_int_byte _ _ (hbytes b hmem)]
  · rfl
  · intro hg
    exact rtr_bit _ _ hg
  · intro hg
    exact rtr_bit _ _ (Nat.testBit_lt_two_pow (by omega))

/-- C9 at the sample line `0.002367 1 390x Rx d 8 17 00 14 00 C0 00 08 00`. -/
theorem frame_line_decoded_witness :
    (calibrated 'h' 'a' 6).dplace ≠ 0 ∧
    sampleFrame.Shaped (dataBase (calibrated 'h' 'a' 6).base) ∧
    numeralValue 10 sampleFrame.len = sampleFrame.bytes.length ∧
    sampleFrame.bytes.length ≤ 8 ∧
    numeralValue 10 sampleFrame.iface < 2 ^ 31 ∧
    (∀ b ∈ sampleFrame.bytes,
      numeralValue (dataBase (calibrated 'h' 'a' 6).base) b < 2 ^ 63) ∧
    ∃ rec, (body plainEnv (calibrated 'h' 'a' 6) sampleFrame.line).record = some rec ∧
      rec.cf.can_dlc = 8 ∧ rec.dev = 1 := by
  refine ⟨by decide, by decide, by decide, by decide, by decide, by decide, ?_⟩
  obtain ⟨rec, h1, h2, _, h4, _⟩ :=
    frame_line_decoded plainEnv (calibrated 'h' 'a' 6) sampleFrame (by decide) (by decide)
      (by decide) (by decide) (by decide) (by decide)
  exact ⟨rec, h1, h2, h4⟩

/-- C10: in a calibrated state, a line in which no frame is found and on which the
error scan assigns seconds, fraction, interface and a token prints, when the token
starts with `ErrorFrame`, exactly one record, with id 0x20000080
(`CAN_ERR_FLAG | CAN_ERR_BUSERROR`), length 8, eight zero data bytes and the
interface of the line; when the token does not start with `ErrorFrame` it prints no
record and the loop goes on to the next line. -/
theorem error_line_record (env : Env) (s : State) (buf : List Char) (sec frac iface : Int)
    (token : List Char) (hready : s.dplace ≠ 0) (hnot : found s buf = false)
    (hscan : (sscanf buf "%ld.%ld %d %s").1 =
      [.num sec, .num frac, .num iface, .str token]) :
    ("ErrorFrame".toList.isPrefixOf token = true →
      ∃ s2 tv, body env s buf =
        .next s2 (some ⟨tv, iface, ⟨0x20000080, 8, [0, 0, 0, 0, 0, 0, 0, 0]⟩⟩)) ∧
    ("ErrorFrame".toList.isPrefixOf token = false →
      ∃ s2, body env s buf = .next s2 none) := by
  have hbody : body env s buf = error_frame env (scan_frame s buf).1 buf := by
    rw [body_ready env s buf hready]
    simp [frames, hnot]
  have hne : (sscanf buf "%ld.%ld %d %s").1 ≠ [] := by rw [hscan]; simp
  have hcount : scanCount (sscanf buf "%ld.%ld %d %s") = 4 := by
    rw [scanCount_of_ne_nil _ hne, hscan]; rfl
  have htok : ∀ old, strArg (sscanf buf "%ld.%ld %d %s") 3 old = token := by
    intro old; rw [strArg_eq _ _ hscan]; rfl
  have hif : ∀ old, numArg (sscanf buf "%ld.%ld %d %s") 2 old = iface := by
    intro old; rw [numArg_eq _ _ hscan]; rfl
  rw [hbody]
  unfold error_frame
  simp only [hcount, if_true, htok, hif]
  constructor
  · intro hp
    simp only [hp, if_true]
    obtain ⟨s2, tv, he⟩ := emit_record env
      { (scan_frame s buf).1 with
        read_tv := ⟨numArg (sscanf buf "%ld.%ld %d %s") 0 (scan_frame s buf).1.read_tv.tv_sec,
                    numArg (sscanf buf "%ld.%ld %d %s") 1 (scan_frame s buf).1.read_tv.tv_usec⟩,
        interface := iface, tmp1 := token,
        cf := ⟨CAN_ERR_FLAG ||| CAN_ERR_BUSERROR, CAN_ERR_DLC, List.replicate 8 0⟩ }
    exact ⟨s2, tv, he⟩
  · intro hp
    simp only [hp, Bool.false_eq_true, if_false]
    exact ⟨_, rfl⟩

/-- C10 at the line `0.002367 1 ErrorFrame`. -/
theorem error_line_record_witness :
    (calibrated 'h' 'a' 6).dplace ≠ 0 ∧
    found (calibrated 'h' 'a' 6) "0.002367 1 ErrorFrame\n".toList = false ∧
    (sscanf "0.002367 1 ErrorFrame\n".toList "%ld.%ld %d %s").1 =
      [.num 0, .num 2367, .num 1, .str "ErrorFrame".toList] ∧
    ∃ s2 tv, body plainEnv (calibrated 'h' 'a' 6) "0.002367 1 ErrorFrame\n".toList =
      .next s2 (some ⟨tv, 1, ⟨0x20000080, 8, [0, 0, 0, 0, 0, 0, 0, 0]⟩⟩) :=
  ⟨by decide, by decide, by decide,
   (error_line_record plainEnv (calibrated 'h' 'a' 6) "0.002367 1 ErrorFrame\n".toList
     0 2367 1 "ErrorFrame".toList (by decide) (by decide) (by decide)).1 (by decide)⟩

/-! ## Database lines -/

/-- Directives that assign nothing leave the list of items as it is. -/
theorem scan_no_assign (fs : List Directive) (inp : List Char) (acc : List Val)
    (h : ∀ d ∈ fs, d = .space ∨ d = .skipInt ∨ d = .skipStr) :
    (scan fs inp acc).1 = acc := by
  induction fs generalizing inp with
  | nil => rfl
  | cons d ds ih =>
    have hds : ∀ e ∈ ds, e = .space ∨ e = .skipInt ∨ e = .skipStr :=
      fun e he => h e (List.mem_cons_of_mem _ he)
    rcases h d (List.mem_cons_self _ _) with rfl | rfl | rfl
    · simp only [scan]
      exact ih _ hds
    · simp only [scan]
      cases scanInt 10 inp with
      | ok v rest => exact ih _ hds
      | matchFail => rfl
      | inputFail => rfl
    · simp only [scan]
      cases scanStr inp with
      | ok v rest => exact ih _ hds
      | matchFail => rfl
      | inputFail => rfl

/-- A database line `BO_ <id> <token> ...` with a decimal id below `2^32` yields the
entry of that id whose name is the token with its last character cut off, whatever
that character is. -/
theorem dbc_entry_token (id tok rest : List Char) (hid : IsNumeral 10 id)
    (htok : IsToken tok) (hrest : AtGap rest) (hlt : numeralValue 10 id < 2 ^ 32) :
    dbc_entry ('B' :: 'O' :: '_' :: ' ' :: (id ++ ' ' :: (tok ++ rest))) =
      some ⟨tok.dropLast, numeralValue 10 id⟩ := by
  have hfmt : parseFormat "BO_ %d %s %*d %*s".toList =
      [.lit 'B', .lit 'O', .lit '_', .space, .int 10, .space, .str, .space, .skipInt,
       .space, .skipStr] := by decide
  have hscan : (sscanf ('B' :: 'O' :: '_' :: ' ' :: (id ++ ' ' :: (tok ++ rest)))
      "BO_ %d %s %*d %*s").1 =
      [.num (store_int 10 (numeralValue 10 id : Int)), .str tok] := by
    unfold sscanf
    rw [hfmt, scan_lit, scan_lit, scan_lit, scan_space_numeral 10 _ _ _ _ hid,
      scan_int_gap 10 (by omega) _ _ _ _ hid (atGap_cons_space _),
      scan_space_token _ _ _ _ htok, scan_str _ _ _ _ htok hrest,
      scan_no_assign _ _ _ (by simp)]
    rfl
  have hne : (sscanf ('B' :: 'O' :: '_' :: ' ' :: (id ++ ' ' :: (tok ++ rest)))
      "BO_ %d %s %*d %*s").1 ≠ [] := by rw [hscan]; simp
  have hcount : scanCount (sscanf ('B' :: 'O' :: '_' :: ' ' ::
      (id ++ ' ' :: (tok ++ rest))) "BO_ %d %s %*d %*s") = 2 := by
    rw [scanCount_of_ne_nil _ hne, hscan]; rfl
  unfold dbc_entry
  simp only [hcount, if_true, strArg_eq _ _ hscan, numArg_eq _ _ hscan]
  simp only [List.get?_cons_succ, List.get?_cons_zero]
  rw [store_int_unsigned _ hlt]

/-- A database line `BO_ <id> <name>: ...` with a decimal id below `2^32` yields the
entry of that name (the colon cut off) and that id. -/
theorem dbc_entry_line (id name rest : List Char) (hid : IsNumeral 10 id)
    (hname : IsToken (name ++ [':'])) (hrest : AtGap rest)
    (hlt : numeralValue 10 id < 2 ^ 32) :
    dbc_entry ('B' :: 'O' :: '_' :: ' ' :: (id ++ ' ' :: ((name ++ [':']) ++ rest))) =
      some ⟨name, numeralValue 10 id⟩ := by
  rw [dbc_entry_token id (name ++ [':']) rest hid hname hrest hlt, List.dropLast_concat]

/-! ## The loop before and after calibration -/

/-- Printing leaves the calibration and the session date alone, and with raw
timestamps the accumulator as well. -/
theorem emit_state (env : Env) (s : State) :
    ∃ s2 rec, emit env s = .next s2 (some rec) ∧ s2.dplace = s.dplace ∧ s2.base = s.base ∧
      s2.timestamps = s.timestamps ∧ s2.date_tv = s.date_tv ∧ s2.dlc = s.dlc ∧
      (env.raw_time = true → s2.tv = s.tv ∧ rec.tv = s.read_tv) := by
  unfold emit
  cases h : env.raw_time with
  | true => exact ⟨_, _, rfl, rfl, rfl, rfl, rfl, rfl, fun _ => ⟨rfl, rfl⟩⟩
  | false => exact ⟨_, _, rfl, rfl, rfl, rfl, rfl, rfl, fun h2 => by cases h2⟩

/-- The frame processing always goes on to the next line and leaves decimal places,
base, timestamp mode and session date as they are. -/
theorem frames_state (env : Env) (s : State) (buf : List Char) :
    ∃ s2 out, frames env s buf = .next s2 out ∧ s2.dplace = s.dplace ∧ s2.base = s.base ∧
      s2.timestamps = s.timestamps ∧ s2.date_tv = s.date_tv ∧
      (env.raw_time = true → s2.tv = s.tv) := by
  unfold frames
  split
  · unfold data_frame
    obtain ⟨s2, rec, he, h1, h2, h3, h4, _, h6⟩ := emit_state env
      { (scan_frame s buf).1 with
        tmp1 := (get_can_id (scan_frame s buf).1.tmp1
          (if (scan_frame s buf).1.base = 'h' then 16 else 10) env.msg_list).2,
        cf := fill_frame { (scan_frame s buf).1.cf with
          can_id := if (scan_frame s buf).1.rtr = 'r' then
            (get_can_id (scan_frame s buf).1.tmp1
              (if (scan_frame s buf).1.base = 'h' then 16 else 10) env.msg_list).1 |||
              CAN_RTR_FLAG
            else (get_can_id (scan_frame s buf).1.tmp1
              (if (scan_frame s buf).1.base = 'h' then 16 else 10) env.msg_list).1 }
          (scan_frame s buf).1.dlc (scan_frame s buf).1.data }
    exact ⟨s2, some rec, he, h1, h2, h3, h4, fun h => (h6 h).1⟩
  · unfold error_frame
    simp only
    split
    · split
      · obtain ⟨s2, rec, he, h1, h2, h3, h4, _, h6⟩ := emit_state env
          { (scan_frame s buf).1 with
            read_tv := ⟨numArg (sscanf buf "%ld.%ld %d %s") 0 (scan_frame s buf).1.read_tv.tv_sec,
                        numArg (sscanf buf "%ld.%ld %d %s") 1
                          (scan_frame s buf).1.read_tv.tv_usec⟩,
            interface := numArg (sscanf buf "%ld.%ld %d %s") 2 (scan_frame s buf).1.interface,
            tmp1 := strArg (sscanf buf "%ld.%ld %d %s") 3 (scan_frame s buf).1.tmp1,
            cf := ⟨CAN_ERR_FLAG ||| CAN_ERR_BUSERROR, CAN_ERR_DLC, List.replicate 8 0⟩ }
        exact ⟨s2, some rec, he, h1, h2, h3, h4, fun h => (h6 h).1⟩
      · exact ⟨_, none, rfl, rfl, rfl, rfl, rfl, fun _ => rfl⟩
    · exact ⟨_, none, rfl, rfl, rfl, rfl, rfl, fun _ => rfl⟩

/-- What one iteration does while the decimal places are unknown: it ends the run, or
it goes on without a record and with the decimal places still unknown, or the line
matches the scan of line 367 with a fraction token of 4 to 6 characters and the same
line is handed to the frame processing with the decimal places set to that count. -/
theorem body_uncalibrated (env : Env) (s : State) (buf : List Char) (h : s.dplace = 0) :
    (∃ s2, body env s buf = .exit s2 ∧ (s2.dplace = 0 ∨ fractionLine buf)) ∨
    (∃ s2, body env s buf = .next s2 none ∧ s2.dplace = 0) ∨
    (fractionLine buf ∧ 4 ≤ (fractionToken buf).length ∧ (fractionToken buf).length ≤ 6 ∧
      ∃ s3, s3.dplace = (fractionToken buf).length ∧ s3.base = s.base ∧
        s3.timestamps = s.timestamps ∧ body env s buf = frames env s3 buf) := by
  unfold body
  rw [if_pos h]
  dsimp only
  generalize hs1 : (if s.base = Char.ofNat 0 then
    ({ s with tmp1 := strArg (sscanf buf "base %s timestamps %s") 0 s.tmp1 } : State)
    else s) = s1
  have h1 : s1.dplace = 0 ∧ s1.base = s.base ∧ s1.timestamps = s.timestamps := by
    subst hs1
    split <;> exact ⟨h, rfl, rfl⟩
  by_cases hb : s.base = Char.ofNat 0 ∧ scanCount (sscanf buf "base %s timestamps %s") = 2
  · rw [if_pos hb]
    split
    · exact Or.inl ⟨_, rfl, Or.inl h1.1⟩
    · split
      · exact Or.inl ⟨_, rfl, Or.inl h1.1⟩
      · exact Or.inr (Or.inl ⟨_, rfl, h1.1⟩)
  · rw [if_neg hb]
    by_cases hd : s1.date_tv.tv_sec = 0 ∧ List.take 4 buf = "date".toList
    · rw [if_pos hd]
      exact Or.inr (Or.inl ⟨_, rfl, h1.1⟩)
    · rw [if_neg hd]
      by_cases hf : scanCount (sscanf buf "%ld.%s %d ") = 3
      · rw [if_pos hf]
        split
        · exact Or.inl ⟨_, rfl, Or.inr hf⟩
        · rename_i hlen
          refine Or.inr (Or.inr ⟨hf, ?_, ?_,
            { s1 with
              tv := { s1.tv with tv_sec := numArg (sscanf buf "%ld.%s %d ") 0 s1.tv.tv_sec },
              dplace := (strArg (sscanf buf "%ld.%s %d ") 1 []).length },
            rfl, h1.2.1, h1.2.2, rfl⟩)
          · simp only [fractionToken]; omega
          · simp only [fractionToken]; omega
      · rw [if_neg hf]
        exact Or.inr (Or.inl ⟨_, rfl, h1.1⟩)

/-- A record is printed only by an iteration that ends with the decimal places known. -/
theorem body_record_dplace (env : Env) (s : State) (buf : List Char) (s2 : State)
    (rec : Record) (h : body env s buf = .next s2 (some rec)) : s2.dplace ≠ 0 := by
  by_cases hd : s.dplace = 0
  · rcases body_uncalibrated env s buf hd with ⟨s3, he, _⟩ | ⟨s3, he, _⟩ | ⟨_, h4, _, s3, h3, _, _, he⟩
    · rw [he] at h; cases h
    · rw [he] at h; cases h
    · obtain ⟨s4, out, hf, hdp, _⟩ := frames_state env s3 buf
      rw [he, hf] at h
      cases h
      omega
  · obtain ⟨s4, out, hf, hdp, _⟩ := frames_state env s buf
    rw [body_ready env s buf hd, hf] at h
    cases h
    omega

/-- Known decimal places are never changed by an iteration, and the iteration does
not end the run. -/
theorem body_calibrated (env : Env) (s : State) (buf : List Char) (h : s.dplace ≠ 0) :
    ∃ s2 out, body env s buf = .next s2 out ∧ s2.dplace = s.dplace ∧ s2.base = s.base ∧
      s2.timestamps = s.timestamps := by
  obtain ⟨s2, out, hf, h1, h2, h3, _⟩ := frames_state env s buf
  exact ⟨s2, out, by rw [body_ready env s buf h, hf], h1, h2, h3⟩

/-- The decimal places are unknown before an iteration that leaves them unknown. -/
theorem body_dplace_zero (env : Env) (s : State) (buf : List Char)
    (h : (body env s buf).state.dplace = 0) : s.dplace = 0 := by
  by_contra hd
  obtain ⟨s2, out, hb, h1, _⟩ := body_calibrated env s buf hd
  rw [hb] at h
  simp only [Outcome.state] at h
  omega

/-- The loop after an iteration that goes on. -/
theorem run_cons_next (env : Env) (s s1 : State) (buf : List Char) (rest : List (List Char))
    (out : Option Record) (h : body env s buf = .next s1 out) :
    run env s (buf :: rest) =
      ⟨out.toList ++ (run env s1 rest).out, (run env s1 rest).status,
       (run env s1 rest).final⟩ := by
  rw [run, h]

/-- The loop after an iteration that ends the run. -/
theorem run_cons_exit (env : Env) (s s1 : State) (buf : List Char) (rest : List (List Char))
    (h : body env s buf = .exit s1) : run env s (buf :: rest) = ⟨[], 1, s1⟩ := by
  rw [run, h]

/-- As long as the decimal places are unknown at the end of the lines read so far,
nothing has been printed and they were unknown at the start. -/
theorem run_dplace_zero (env : Env) (s : State) (lines : List (List Char))
    (h : (run env s lines).final.dplace = 0) :
    (run env s lines).out = [] ∧ s.dplace = 0 := by
  induction lines generalizing s with
  | nil => exact ⟨rfl, h⟩
  | cons buf rest ih =>
    cases hb : body env s buf with
    | exit s1 =>
      rw [run_cons_exit env s s1 buf rest hb] at h ⊢
      exact ⟨rfl, body_dplace_zero env s buf (by rw [hb]; exact h)⟩
    | next s1 out =>
      rw [run_cons_next env s s1 buf rest out hb] at h ⊢
      obtain ⟨hout, hs1⟩ := ih s1 h
      have hs : s.dplace = 0 := body_dplace_zero env s buf (by rw [hb]; exact hs1)
      cases out with
      | none => exact ⟨by simpa using hout, hs⟩
      | some rec => exact absurd hs1 (body_record_dplace env s buf s1 rec hb)

/-- Reading more lines after a run that ended with `return 1` changes nothing; after
a run that came to the end of its lines the loop goes on from the state reached. -/
theorem run_append (env : Env) (s : State) (pre post : List (List Char)) :
    run env s (pre ++ post) =
      if (run env s pre).status = 0 then
        ⟨(run env s pre).out ++ (run env (run env s pre).final post).out,
         (run env (run env s pre).final post).status,
         (run env (run env s pre).final post).final⟩
      else run env s pre := by
  induction pre generalizing s with
  | nil => simp [run]
  | cons buf rest ih =>
    rw [List.cons_append]
    cases hb : body env s buf with
    | exit s1 =>
      rw [run_cons_exit env s s1 buf _ hb, run_cons_exit env s s1 buf _ hb]
      simp
    | next s1 out =>
      rw [run_cons_next env s s1 buf _ out hb, run_cons_next env s s1 buf _ out hb, ih s1]
      split
      · simp
      · rfl

/-- Once the decimal places are known the loop never ends the run and never changes
them. -/
theorem run_calibrated (env : Env) (s : State) (lines : List (List Char))
    (h : s.dplace ≠ 0) :
    (run env s lines).final.dplace = s.dplace ∧ (run env s lines).status = 0 := by
  induction lines generalizing s with
  | nil => exact ⟨rfl, rfl⟩
  | cons buf rest ih =>
    obtain ⟨s2, out, hb, h1, _⟩ := body_calibrated env s buf h
    rw [run_cons_next env s s2 buf rest out hb]
    obtain ⟨j1, j2⟩ := ih s2 (by omega)
    exact ⟨by rw [← h1]; exact j1, j2⟩

/-- While no line passes the decimal-place test, nothing is printed and the decimal
places stay unknown. -/
theorem run_no_fraction (env : Env) (s : State) (lines : List (List Char))
    (hd : s.dplace = 0) (h : ∀ l ∈ lines, ¬ fractionLine l) :
    (run env s lines).out = [] ∧ (run env s lines).final.dplace = 0 := by
  induction lines generalizing s with
  | nil => exact ⟨rfl, hd⟩
  | cons buf rest ih =>
    have hbuf := h buf (List.mem_cons_self _ _)
    rcases body_uncalibrated env s buf hd with ⟨s2, he, h0 | hf⟩ | ⟨s2, he, h0⟩ | ⟨hf, _⟩
    · rw [run_cons_exit env s s2 buf rest he]
      exact ⟨rfl, h0⟩
    · exact absurd hf hbuf
    · rw [run_cons_next env s s2 buf rest none he]
      obtain ⟨j1, j2⟩ := ih s2 h0 (fun l hl => h l (List.mem_cons_of_mem _ hl))
      exact ⟨by simpa using j1, j2⟩
    · exact absurd hf hbuf

/-- One iteration changes none of base, timestamp mode and decimal places that is
set, and when the loop goes on base and timestamp mode are still set together. -/
theorem body_keeps (env : Env) (s : State) (buf : List Char) (hinv : s.Paired) :
    (s.base ≠ Char.ofNat 0 → (body env s buf).state.base = s.base) ∧
    (s.timestamps ≠ Char.ofNat 0 → (body env s buf).state.timestamps = s.timestamps) ∧
    (s.dplace ≠ 0 → (body env s buf).state.dplace = s.dplace) ∧
    ((body env s buf).halted = false → (body env s buf).state.Paired) := by
  by_cases h : s.dplace = 0
  · unfold body
    rw [if_pos h]
    dsimp only
    generalize hs1 : (if s.base = Char.ofNat 0 then
      ({ s with tmp1 := strArg (sscanf buf "base %s timestamps %s") 0 s.tmp1 } : State)
      else s) = s1
    have h1 : s1.dplace = 0 ∧ s1.base = s.base ∧ s1.timestamps = s.timestamps := by
      subst hs1
      split <;> exact ⟨h, rfl, rfl⟩
    have hp1 : s1.Paired := by
      intro hb
      rw [h1.2.2]
      exact hinv (h1.2.1 ▸ hb)
    by_cases hb : s.base = Char.ofNat 0 ∧ scanCount (sscanf buf "base %s timestamps %s") = 2
    · rw [if_pos hb]
      have ht := hinv hb.1
      refine ⟨fun hn => absurd hb.1 hn, fun hn => absurd ht hn, fun hn => absurd h hn, ?_⟩
      split
      · intro hh; simp [Outcome.halted] at hh
      · rename_i hbase
        split
        · intro hh; simp [Outcome.halted] at hh
        · intro _ hz
          simp only [Outcome.state] at hz
          exfalso
          apply hbase
          rw [hz]
          decide
    · rw [if_neg hb]
      by_cases hd : s1.date_tv.tv_sec = 0 ∧ List.take 4 buf = "date".toList
      · rw [if_pos hd]
        exact ⟨fun _ => h1.2.1, fun _ => h1.2.2, fun hn => absurd h hn, fun _ => hp1⟩
      · rw [if_neg hd]
        by_cases hf : scanCount (sscanf buf "%ld.%s %d ") = 3
        · rw [if_pos hf]
          split
          · exact ⟨fun _ => h1.2.1, fun _ => h1.2.2, fun hn => absurd h hn,
              fun hh => by simp [Outcome.halted] at hh⟩
          · obtain ⟨s4, out, hfr, _, h5, h6, _⟩ := frames_state env
              { s1 with
                tv := { s1.tv with tv_sec := numArg (sscanf buf "%ld.%s %d ") 0 s1.tv.tv_sec },
                dplace := (strArg (sscanf buf "%ld.%s %d ") 1 []).length } buf
            rw [hfr]
            simp only [Outcome.state]
            refine ⟨fun _ => by rw [h5]; exact h1.2.1, fun _ => by rw [h6]; exact h1.2.2,
              fun hn => absurd h hn, fun _ => ?_⟩
            intro hz
            rw [h6]
            rw [h5] at hz
            exact hp1 hz
        · rw [if_neg hf]
          exact ⟨fun _ => h1.2.1, fun _ => h1.2.2, fun hn => absurd h hn, fun _ => hp1⟩
  · obtain ⟨s2, out, hb, h1, h2, h3⟩ := body_calibrated env s buf h
    rw [hb]
    simp only [Outcome.state]
    refine ⟨fun _ => h2, fun _ => h3, fun _ => h1, fun _ => ?_⟩
    intro hz
    rw [h3]
    rw [h2] at hz
    exact hinv hz

/-- Over any further lines, none of base, timestamp mode and decimal places that is
set is changed. -/
theorem run_keeps (env : Env) (s : State) (lines : List (List Char)) (hinv : s.Paired) :
    (s.base ≠ Char.ofNat 0 → (run env s lines).final.base = s.base) ∧
    (s.timestamps ≠ Char.ofNat 0 → (run env s lines).final.timestamps = s.timestamps) ∧
    (s.dplace ≠ 0 → (run env s lines).final.dplace = s.dplace) ∧
    ((run env s lines).status = 0 → (run env s lines).final.Paired) := by
  induction lines generalizing s with
  | nil => exact ⟨fun _ => rfl, fun _ => rfl, fun _ => rfl, fun _ => hinv⟩
  | cons buf rest ih =>
    obtain ⟨k1, k2, k3, k4⟩ := body_keeps env s buf hinv
    cases hb : body env s buf with
    | exit s1 =>
      rw [hb] at k1 k2 k3
      rw [run_cons_exit env s s1 buf rest hb]
      exact ⟨k1, k2, k3, fun hh => by simp at hh⟩
    | next s1 out =>
      rw [hb] at k1 k2 k3 k4
      simp only [Outcome.state] at k1 k2 k3 k4
      rw [run_cons_next env s s1 buf rest out hb]
      obtain ⟨j1, j2, j3, j4⟩ := ih s1 (k4 rfl)
      refine ⟨fun hn => ?_, fun hn => ?_, fun hn => ?_, j4⟩
      · have := k1 hn
        rw [j1 (by rw [this]; exact hn), this]
      · have := k2 hn
        rw [j2 (by rw [this]; exact hn), this]
      · have := k3 hn
        rw [j3 (by rw [this]; exact hn), this]

/-! ## Header lines and the decimal-place line -/

/-- The header scan assigns the two tokens of a header line. -/
theorem sscanf_headerLine (tok1 tok2 rest : List Char) (h1 : IsToken tok1)
    (h2 : IsToken tok2) (hr : AtGap rest) :
    (sscanf (headerLine tok1 tok2 rest) "base %s timestamps %s").1 =
      [.str tok1, .str tok2] := by
  have hfmt : parseFormat "base %s timestamps %s".toList =
      [.lit 'b', .lit 'a', .lit 's', .lit 'e', .space, .str, .space, .lit 't', .lit 'i',
       .lit 'm', .lit 'e', .lit 's', .lit 't', .lit 'a', .lit 'm', .lit 'p', .lit 's',
       .space, .str] := by decide
  have ht : isspace 't' = false := by decide
  unfold sscanf headerLine
  rw [hfmt, scan_lit, scan_lit, scan_lit, scan_lit, scan_space_token _ _ _ _ h1,
    scan_str _ _ _ _ h1 (atGap_cons_space _), scan_space_char _ _ _ _ ht,
    scan_lit, scan_lit, scan_lit, scan_lit, scan_lit, scan_lit, scan_lit, scan_lit,
    scan_lit, scan_lit, scan_space_token _ _ _ _ h2, scan_str _ _ _ _ h2 hr]
  rfl

/-- A header line passes the header test. -/
theorem baseLine_headerLine (tok1 tok2 rest : List Char) (h1 : IsToken tok1)
    (h2 : IsToken tok2) (hr : AtGap rest) : baseLine (headerLine tok1 tok2 rest) := by
  have h := sscanf_headerLine tok1 tok2 rest h1 h2 hr
  have hne : (sscanf (headerLine tok1 tok2 rest) "base %s timestamps %s").1 ≠ [] := by
    rw [h]; simp
  unfold baseLine
  rw [scanCount_of_ne_nil _ hne, h]
  rfl

/-- The decimal-place scan assigns seconds, fraction token and integer of a line of
the shape `<seconds>.<fraction> <integer> ...`. -/
theorem sscanf_fractionText (secs frac int rest : List Char) (hs : IsNumeral 10 secs)
    (hf : IsToken frac) (hi : IsNumeral 10 int) (hr : AtGap rest) :
    (sscanf (fractionText secs frac int rest) "%ld.%s %d ").1 =
      [.num (store_long (numeralValue 10 secs : Int)), .str frac,
       .num (store_int 10 (numeralValue 10 int : Int))] := by
  have hfmt : parseFormat "%ld.%s %d ".toList =
      [.long, .lit '.', .str, .space, .int 10, .space] := by decide
  have hdot : startsWithDigit 10 ('.' :: (frac ++ ' ' :: (int ++ rest))) = false := by
    simp only [startsWithDigit]; decide
  have hdotx : ∀ c r, ('.' :: (frac ++ ' ' :: (int ++ rest))) = c :: r →
      ¬ (c = 'x' ∨ c = 'X') := by
    intro c r h
    cases h
    decide
  unfold sscanf fractionText
  rw [hfmt, scan_long _ _ _ _ hs hdot hdotx, scan_lit,
    scan_str _ _ _ _ hf (atGap_cons_space _), scan_space_numeral 10 _ _ _ _ hi,
    scan_int_gap 10 (by omega) _ _ _ _ hi hr, scan_no_assign _ _ _ (by simp)]
  rfl

/-- A line of that shape passes the decimal-place test, and its fraction token is
the one scanned. -/
theorem fractionLine_fractionText (secs frac int rest : List Char) (hs : IsNumeral 10 secs)
    (hf : IsToken frac) (hi : IsNumeral 10 int) (hr : AtGap rest) :
    fractionLine (fractionText secs frac int rest) ∧
    fractionToken (fractionText secs frac int rest) = frac := by
  have h := sscanf_fractionText secs frac int rest hs hf hi hr
  have hne : (sscanf (fractionText secs frac int rest) "%ld.%s %d ").1 ≠ [] := by
    rw [h]; simp
  constructor
  · unfold fractionLine
    rw [scanCount_of_ne_nil _ hne, h]
    rfl
  · unfold fractionToken
    rw [strArg_eq _ _ h]
    rfl

/-- A decimal digit is one of the characters `0` to `9`. -/
theorem decimal_digit_range (c : Char) (h : (digitVal 10 c).isSome = true) :
    48 ≤ c.toNat ∧ c.toNat ≤ 57 := by
  have := digitVal_some_range 10 c h
  omega

/-- A line that starts with a decimal numeral is neither a base line nor a date line. -/
theorem numeral_line_not_header (secs rest : List Char) (hs : IsNumeral 10 secs) :
    ¬ baseLine (secs ++ rest) ∧ ¬ dateLine (secs ++ rest) := by
  obtain ⟨hne, hall⟩ := hs
  match secs, hne, hall with
  | c :: cs, _, hall =>
    have hc := decimal_digit_range c (hall c (List.mem_cons_self _ _))
    have hb : ¬ c = 'b' := by rintro rfl; simp at hc
    have hd : ¬ c = 'd' := by rintro rfl; simp at hc
    constructor
    · have hfmt : parseFormat "base %s timestamps %s".toList =
          [.lit 'b', .lit 'a', .lit 's', .lit 'e', .space, .str, .space, .lit 't', .lit 'i',
           .lit 'm', .lit 'e', .lit 's', .lit 't', .lit 'a', .lit 'm', .lit 'p', .lit 's',
           .space, .str] := by decide
      unfold baseLine sscanf
      rw [hfmt]
      simp [scan, hb, scanCount]
    · unfold dateLine
      intro h
      have : (c :: cs ++ rest).head? = some 'd' := by
        have h2 := congrArg List.head? h
        simpa using h2
      simp at this
      exact hd this

/-- The iteration on a base line while base and decimal places are unset: the first
characters of the two tokens are stored, and the run ends unless the base is `h` or
`d` and the timestamp mode is `a` or `r`. -/
theorem body_header (env : Env) (s : State) (buf : List Char) (tok1 tok2 : List Char)
    (hd : s.dplace = 0) (hb : s.base = Char.ofNat 0)
    (hscan : (sscanf buf "base %s timestamps %s").1 = [.str tok1, .str tok2]) :
    (((tok1.headD (Char.ofNat 0) ≠ 'h' ∧ tok1.headD (Char.ofNat 0) ≠ 'd') ∨
      (tok2.headD (Char.ofNat 0) ≠ 'a' ∧ tok2.headD (Char.ofNat 0) ≠ 'r')) →
      ∃ s2, body env s buf = .exit s2) ∧
    (((tok1.headD (Char.ofNat 0) = 'h' ∨ tok1.headD (Char.ofNat 0) = 'd') ∧
      (tok2.headD (Char.ofNat 0) = 'a' ∨ tok2.headD (Char.ofNat 0) = 'r')) →
      ∃ s2, body env s buf = .next s2 none ∧ s2.base = tok1.headD (Char.ofNat 0) ∧
        s2.timestamps = tok2.headD (Char.ofNat 0) ∧ s2.dplace = 0) := by
  have hne : (sscanf buf "base %s timestamps %s").1 ≠ [] := by rw [hscan]; simp
  have hcount : scanCount (sscanf buf "base %s timestamps %s") = 2 := by
    rw [scanCount_of_ne_nil _ hne, hscan]; rfl
  have ht1 : ∀ old, strArg (sscanf buf "base %s timestamps %s") 0 old = tok1 := by
    intro old; rw [strArg_eq _ _ hscan]; rfl
  have ht2 : ∀ old, strArg (sscanf buf "base %s timestamps %s") 1 old = tok2 := by
    intro old; rw [strArg_eq _ _ hscan]; rfl
  unfold body
  rw [if_pos hd]
  dsimp only
  rw [if_pos ⟨hb, hcount⟩, if_pos hb, ht1, ht2]
  dsimp only
  constructor
  · rintro (h | h)
    · rw [if_pos h]
      exact ⟨_, rfl⟩
    · by_cases hx : tok1.headD (Char.ofNat 0) ≠ 'h' ∧ tok1.headD (Char.ofNat 0) ≠ 'd'
      · rw [if_pos hx]
        exact ⟨_, rfl⟩
      · rw [if_neg hx, if_pos h]
        exact ⟨_, rfl⟩
  · rintro ⟨h1, h2⟩
    have n1 : ¬ (tok1.headD (Char.ofNat 0) ≠ 'h' ∧ tok1.headD (Char.ofNat 0) ≠ 'd') := by
      tauto
    have n2 : ¬ (tok2.headD (Char.ofNat 0) ≠ 'a' ∧ tok2.headD (Char.ofNat 0) ≠ 'r') := by
      tauto
    rw [if_neg n1, if_neg n2]
    exact ⟨_, rfl, rfl, rfl, hd⟩

/-- The iteration past the base and date tests, while the decimal places are
unknown: the decimal-place scan of line 367 and what follows from its result. -/
theorem body_past_header (env : Env) (s : State) (buf : List Char) (hd : s.dplace = 0)
    (hnb : ¬ (s.base = Char.ofNat 0 ∧ baseLine buf))
    (hnd : ¬ (s.date_tv.tv_sec = 0 ∧ dateLine buf)) :
    ∃ s1 : State, s1.dplace = 0 ∧ s1.base = s.base ∧ s1.timestamps = s.timestamps ∧
      body env s buf =
        if fractionLine buf then
          if (fractionToken buf).length < 4 ∨ (fractionToken buf).length > 6 then
            .exit { s1 with dplace := (fractionToken buf).length }
          else frames env { s1 with dplace := (fractionToken buf).length } buf
        else .next s1 none := by
  unfold body
  rw [if_pos hd]
  dsimp only
  generalize hs1 : (if s.base = Char.ofNat 0 then
    ({ s with tmp1 := strArg (sscanf buf "base %s timestamps %s") 0 s.tmp1 } : State)
    else s) = s1
  have h1 : s1.dplace = 0 ∧ s1.base = s.base ∧ s1.timestamps = s.timestamps ∧
      s1.date_tv = s.date_tv := by
    subst hs1
    split <;> exact ⟨hd, rfl, rfl, rfl⟩
  have hnb2 : ¬ (s.base = Char.ofNat 0 ∧
      scanCount (sscanf buf "base %s timestamps %s") = 2) := hnb
  have hnd2 : ¬ (s1.date_tv.tv_sec = 0 ∧ List.take 4 buf = "date".toList) := by
    rw [h1.2.2.2]; exact hnd
  rw [if_neg hnb2, if_neg hnd2]
  exact ⟨{ s1 with tv := { s1.tv with
      tv_sec := numArg (sscanf buf "%ld.%s %d ") 0 s1.tv.tv_sec } },
    h1.1, h1.2.1, h1.2.2.1, rfl⟩

/-- The iteration on a line that passes the decimal-place test and is neither a base
line nor a date line, while the decimal places are unknown: a fraction token of fewer
than 4 or more than 6 characters ends the run, one of 4 to 6 characters sets the
decimal places and hands the line to the frame processing. -/
theorem body_fraction (env : Env) (s : State) (buf : List Char) (hd : s.dplace = 0)
    (hnb : ¬ baseLine buf) (hnd : ¬ dateLine buf) (hf : fractionLine buf) :
    (((fractionToken buf).length < 4 ∨ 6 < (fractionToken buf).length) →
      ∃ s2, body env s buf = .exit s2) ∧
    ((4 ≤ (fractionToken buf).length ∧ (fractionToken buf).length ≤ 6) →
      ∃ s3, s3.dplace = (fractionToken buf).length ∧ s3.base = s.base ∧
        s3.timestamps = s.timestamps ∧ body env s buf = frames env s3 buf) := by
  obtain ⟨s1, h0, hb, ht, he⟩ := body_past_header env s buf hd (fun h => hnb h.2)
    (fun h => hnd h.2)
  rw [he, if_pos hf]
  constructor
  · intro hlen
    rw [if_pos (by omega)]
    exact ⟨_, rfl⟩
  · intro hlen
    rw [if_neg (by omega)]
    exact ⟨{ s1 with dplace := (fractionToken buf).length }, rfl, hb, ht, rfl⟩

/-- The iteration on a line that is neither a base line, nor a date line, nor passes
the decimal-place test, while the decimal places are unknown: the line is skipped. -/
theorem body_skip (env : Env) (s : State) (buf : List Char) (hd : s.dplace = 0)
    (hnb : ¬ baseLine buf) (hnd : ¬ dateLine buf) (hnf : ¬ fractionLine buf) :
    ∃ s2, body env s buf = .next s2 none ∧ s2.dplace = 0 := by
  obtain ⟨s1, h0, _, _, he⟩ := body_past_header env s buf hd (fun h => hnb h.2)
    (fun h => hnd h.2)
  rw [he, if_neg hnf]
  exact ⟨s1, rfl, h0⟩

/-- The first character of a token. -/
theorem token_head (tok : List Char) (h : IsToken tok) :
    tok.head? = some (tok.headD (Char.ofNat 0)) := by
  obtain ⟨hne, _⟩ := h
  cases tok with
  | nil => exact absurd rfl hne
  | cons c cs => rfl

/-- C11 as stated fails: after the header `base hex timestamps absolute` the decimal
places are still unknown, yet the header line `base foo timestamps bar` that follows
does not end the run; the run comes to the end of its input with status 0 and prints
the frame of the third line. -/
theorem second_header_line_ignored :
    (run plainEnv State.zero.start ["base hex timestamps absolute\n".toList]).final.dplace = 0 ∧
    headerLine "foo".toList "bar".toList "\n".toList = "base foo timestamps bar\n".toList ∧
    (run plainEnv State.zero.start
      ["base hex timestamps absolute\n".toList, "base foo timestamps bar\n".toList,
       "0.002367 1 390x Rx d 0\n".toList]).status = 0 ∧
    (run plainEnv State.zero.start
      ["base hex timestamps absolute\n".toList, "base foo timestamps bar\n".toList,
       "0.002367 1 390x Rx d 0\n".toList]).out =
      [⟨⟨0, 2367⟩, 1, ⟨0x80000390, 0, [0, 0, 0, 0, 0, 0, 0, 0]⟩⟩] := by
  decide

/-- C11 amended (while the base is unset): for every header line
`base <tok1> timestamps <tok2>` read while neither base nor decimal places are set,
if `tok1` does not begin with `h` or `d`, or `tok2` does not begin with `a` or `r`,
the run ends with status 1 and prints nothing for that line or any later line;
otherwise base and timestamp mode become the first characters of `tok1` and `tok2`,
no record is printed and the loop goes on with the next line. -/
theorem header_tokens_checked (env : Env) (s : State) (tok1 tok2 rest : List Char)
    (post : List (List Char)) (hd : s.dplace = 0) (hb : s.base = Char.ofNat 0)
    (h1 : IsToken tok1) (h2 : IsToken tok2) (hr : AtGap rest) :
    (((tok1.head? ≠ some 'h' ∧ tok1.head? ≠ some 'd') ∨
      (tok2.head? ≠ some 'a' ∧ tok2.head? ≠ some 'r')) →
      (run env s (headerLine tok1 tok2 rest :: post)).status = 1 ∧
      (run env s (headerLine tok1 tok2 rest :: post)).out = []) ∧
    (((tok1.head? = some 'h' ∨ tok1.head? = some 'd') ∧
      (tok2.head? = some 'a' ∨ tok2.head? = some 'r')) →
      ∃ s2, body env s (headerLine tok1 tok2 rest) = .next s2 none ∧
        some s2.base = tok1.head? ∧ some s2.timestamps = tok2.head? ∧
        run env s (headerLine tok1 tok2 rest :: post) = run env s2 post) := by
  have hscan := sscanf_headerLine tok1 tok2 rest h1 h2 hr
  obtain ⟨hbad, hgood⟩ := body_header env s (headerLine tok1 tok2 rest) tok1 tok2 hd hb hscan
  rw [token_head tok1 h1, token_head tok2 h2]
  simp only [ne_eq, Option.some.injEq]
  constructor
  · intro h
    obtain ⟨s2, he⟩ := hbad h
    rw [run_cons_exit env s s2 _ post he]
    exact ⟨rfl, rfl⟩
  · intro h
    obtain ⟨s2, he, hb2, ht2, _⟩ := hgood h
    refine ⟨s2, he, hb2, ht2, ?_⟩
    rw [run_cons_next env s s2 _ post none he]
    rfl

/-- C11 amended, at the header line `base foo timestamps bar` as first line. -/
theorem header_tokens_checked_witness :
    State.zero.start.dplace = 0 ∧ State.zero.start.base = Char.ofNat 0 ∧
    IsToken "foo".toList ∧ IsToken "bar".toList ∧ AtGap "\n".toList ∧
    (run plainEnv State.zero.start
      (headerLine "foo".toList "bar".toList "\n".toList ::
        ["0.002367 1 390x Rx d 0\n".toList])).status = 1 ∧
    (run plainEnv State.zero.start
      (headerLine "foo".toList "bar".toList "\n".toList ::
        ["0.002367 1 390x Rx d 0\n".toList])).out = [] :=
  ⟨rfl, rfl, by decide, by decide, atGap_of_all_space _ (by decide),
   (header_tokens_checked plainEnv State.zero.start "foo".toList "bar".toList "\n".toList
     ["0.002367 1 390x Rx d 0\n".toList] rfl rfl (by decide) (by decide)
     (atGap_of_all_space _ (by decide))).1 (Or.inl (by decide))⟩

/-- C12: while the decimal places are unknown, (1) a line of the shape
`<seconds>.<fraction> <integer> ...` whose fraction token has 4, 5 or 6 characters
sets the decimal places to that count and the loop goes on; (2) such a line with a
fraction token of any other length ends the run with status 1 without a record;
(3) a line that is neither a header line (base or date) nor matches the shape is
skipped without output and leaves the decimal places unknown; (4) before the first
line that matches the shape nothing is printed and the decimal places stay unknown;
(5) the count set by the first matching line after lines that did not end the run is
the value for the rest of the run. -/
theorem decimal_places_calibrated (env : Env) (s : State) (hd : s.dplace = 0) :
    (∀ secs frac int rest, IsNumeral 10 secs → IsToken frac → IsNumeral 10 int →
      AtGap rest →
      ((4 ≤ frac.length ∧ frac.length ≤ 6) →
        ∃ s2 out, body env s (fractionText secs frac int rest) = .next s2 out ∧
          s2.dplace = frac.length) ∧
      ((frac.length < 4 ∨ 6 < frac.length) → ∀ post,
        (run env s (fractionText secs frac int rest :: post)).status = 1 ∧
        (run env s (fractionText secs frac int rest :: post)).out = [])) ∧
    (∀ buf, ¬ baseLine buf → ¬ dateLine buf → ¬ fractionLine buf →
      ∃ s2, body env s buf = .next s2 none ∧ s2.dplace = 0) ∧
    (∀ pre, (∀ l ∈ pre, ¬ fractionLine l) →
      (run env s pre).out = [] ∧ (run env s pre).final.dplace = 0) ∧
    (∀ pre secs frac int rest post, (∀ l ∈ pre, ¬ fractionLine l) →
      (run env s pre).status = 0 → IsNumeral 10 secs → IsToken frac → IsNumeral 10 int →
      AtGap rest → 4 ≤ frac.length → frac.length ≤ 6 →
      (run env s (pre ++ fractionText secs frac int rest :: post)).final.dplace =
        frac.length) := by
  have key : ∀ (t : State), t.dplace = 0 → ∀ secs frac int rest, IsNumeral 10 secs →
      IsToken frac → IsNumeral 10 int → AtGap rest →
      ((4 ≤ frac.length ∧ frac.length ≤ 6) →
        ∃ s2 out, body env t (fractionText secs frac int rest) = .next s2 out ∧
          s2.dplace = frac.length) ∧
      ((frac.length < 4 ∨ 6 < frac.length) →
        ∃ s2, body env t (fractionText secs frac int rest) = .exit s2) := by
    intro t ht secs frac int rest hs hf hi hr
    obtain ⟨hfl, htok⟩ := fractionLine_fractionText secs frac int rest hs hf hi hr
    obtain ⟨hnb, hnd⟩ := numeral_line_not_header secs ('.' :: (frac ++ ' ' :: (int ++ rest))) hs
    obtain ⟨hexit, hcal⟩ := body_fraction env t (fractionText secs frac int rest) ht hnb hnd hfl
    rw [htok] at hexit hcal
    constructor
    · intro hlen
      obtain ⟨s3, h3, _, _, he⟩ := hcal hlen
      obtain ⟨s4, out, hfr, hdp, _⟩ := frames_state env s3 (fractionText secs frac int rest)
      exact ⟨s4, out, by rw [he, hfr], by rw [hdp, h3]⟩
    · intro hlen
      exact hexit hlen
  refine ⟨?_, ?_, ?_, ?_⟩
  · intro secs frac int rest hs hf hi hr
    obtain ⟨k1, k2⟩ := key s hd secs frac int rest hs hf hi hr
    refine ⟨k1, fun hlen post => ?_⟩
    obtain ⟨s2, he⟩ := k2 hlen
    rw [run_cons_exit env s s2 _ post he]
    exact ⟨rfl, rfl⟩
  · intro buf hnb hnd hnf
    exact body_skip env s buf hd hnb hnd hnf
  · intro pre hpre
    exact run_no_fraction env s pre hd hpre
  · intro pre secs frac int rest post hpre hstatus hs hf hi hr h4 h6
    obtain ⟨_, h0⟩ := run_no_fraction env s pre hd hpre
    obtain ⟨s2, out, he, hdp⟩ :=
      (key (run env s pre).final h0 secs frac int rest hs hf hi hr).1 ⟨h4, h6⟩
    rw [run_append, if_pos hstatus]
    simp only
    rw [run_cons_next env _ s2 _ post out he]
    simp only
    rw [(run_calibrated env s2 post (by omega)).1, hdp]

/-- C12 at the first lines of a trace: a comment line is skipped, then
`0.002367 1 390x Rx d 0` sets six decimal places. -/
theorem decimal_places_calibrated_witness :
    State.zero.start.dplace = 0 ∧
    (run plainEnv State.zero.start
      (["// trace\n".toList] ++
        fractionText "0".toList "002367".toList "1".toList " 390x Rx d 0\n".toList ::
          ["1.5 1 390x Rx d 0\n".toList])).final.dplace = 6 :=
  ⟨rfl,
   (decimal_places_calibrated plainEnv State.zero.start rfl).2.2.2
     ["// trace\n".toList] "0".toList "002367".toList "1".toList " 390x Rx d 0\n".toList
     ["1.5 1 390x Rx d 0\n".toList]
     (by
       intro l hl
       rw [List.mem_singleton.mp hl]
       decide)
     (by decide) (by decide) (by decide) (by decide) (atGap_cons_space _) (by decide)
     (by decide)⟩

/-! ## Scaling, the calibration gate and immutability -/

/-- C13: `calc_tv` leaves in `read_tv` the raw fraction times 100 for four decimal
places, times 10 for five, unchanged for six, and uses that value for the result; for
4, 5 or 6 decimal places a raw fraction in [0, 10^dplace) scales into [0, 1_000_000). -/
theorem calc_tv_scaling (tv read_tv date_tv : timeval) (timestamps : Char) (r : Int) :
    (calc_tv tv read_tv date_tv timestamps 4).2.tv_usec = read_tv.tv_usec * 100 ∧
    (calc_tv tv read_tv date_tv timestamps 5).2.tv_usec = read_tv.tv_usec * 10 ∧
    (calc_tv tv read_tv date_tv timestamps 6).2.tv_usec = read_tv.tv_usec ∧
    (calc_tv tv read_tv date_tv 'a' 4).1 =
      carry ⟨date_tv.tv_sec + read_tv.tv_sec, date_tv.tv_usec + read_tv.tv_usec * 100⟩ ∧
    (calc_tv tv read_tv date_tv 'a' 5).1 =
      carry ⟨date_tv.tv_sec + read_tv.tv_sec, date_tv.tv_usec + read_tv.tv_usec * 10⟩ ∧
    (calc_tv tv read_tv date_tv 'a' 6).1 =
      carry ⟨date_tv.tv_sec + read_tv.tv_sec, date_tv.tv_usec + read_tv.tv_usec⟩ ∧
    (∀ dplace : Nat, dplace = 4 ∨ dplace = 5 ∨ dplace = 6 → 0 ≤ r → r < 10 ^ dplace →
      0 ≤ (calc_tv tv ⟨read_tv.tv_sec, r⟩ date_tv timestamps dplace).2.tv_usec ∧
      (calc_tv tv ⟨read_tv.tv_sec, r⟩ date_tv timestamps dplace).2.tv_usec < 1000000) := by
  refine ⟨?_, ?_, ?_, ?_, ?_, ?_, ?_⟩
  · simp [calc_tv, scale_usec]
  · simp [calc_tv, scale_usec]
  · simp [calc_tv, scale_usec]
  · rw [calc_tv_absolute]; simp [scale_usec]
  · rw [calc_tv_absolute]; simp [scale_usec]
  · rw [calc_tv_absolute]; simp [scale_usec]
  · intro dplace hd h0 h1
    have := scale_usec_range dplace r hd h0 h1
    simpa [calc_tv] using this

/-- C13 at five decimal places and the raw fraction 99999. -/
theorem calc_tv_scaling_witness :
    (5 = 4 ∨ 5 = 5 ∨ 5 = 6) ∧ (0 : Int) ≤ 99999 ∧ (99999 : Int) < 10 ^ 5 ∧
    0 ≤ (calc_tv ⟨0, 0⟩ ⟨0, 99999⟩ ⟨0, 0⟩ 'r' (5 : Nat)).2.tv_usec ∧
    (calc_tv ⟨0, 0⟩ ⟨0, 99999⟩ ⟨0, 0⟩ 'r' (5 : Nat)).2.tv_usec < 1000000 :=
  ⟨by decide, by decide, by decide,
   (calc_tv_scaling ⟨0, 0⟩ ⟨0, 99999⟩ ⟨0, 0⟩ 'r' 99999).2.2.2.2.2.2 5 (by decide) (by decide)
     (by decide)⟩

/-- C16 as stated fails: a trace without a `base ... timestamps ...` line whose first
line is `0.002367 1 390 Rx d 1 255` prints a record, decoded as decimal, while base
and timestamp mode are still unset at the end of the run. -/
theorem record_without_header :
    (run plainEnv State.zero.start ["0.002367 1 390 Rx d 1 255\n".toList]).out =
      [⟨⟨0, 2367⟩, 1, ⟨390, 1, [255, 0, 0, 0, 0, 0, 0, 0]⟩⟩] ∧
    (run plainEnv State.zero.start ["0.002367 1 390 Rx d 1 255\n".toList]).final.base =
      Char.ofNat 0 ∧
    (run plainEnv State.zero.start ["0.002367 1 390 Rx d 1 255\n".toList]).final.timestamps =
      Char.ofNat 0 := by
  decide

/-- C16 amended (the gate is the decimal places): for every sequence of lines, as long
as the decimal places are unset at the end of the lines read so far no record has been
printed; a record is printed only by an iteration that ends with the decimal places
set. -/
theorem no_record_before_decimal_places (env : Env) (s : State)
    (lines : List (List Char)) :
    ((run env s lines).final.dplace = 0 → (run env s lines).out = []) ∧
    (∀ buf s2 rec, body env s buf = .next s2 (some rec) → s2.dplace ≠ 0) := by
  exact ⟨fun h => (run_dplace_zero env s lines h).1,
    fun buf s2 rec h => body_record_dplace env s buf s2 rec h⟩

/-- C16 amended, at a trace of a header line and a comment line. -/
theorem no_record_before_decimal_places_witness :
    (run plainEnv State.zero.start
      ["base hex timestamps absolute\n".toList, "// comment\n".toList]).final.dplace = 0 ∧
    (run plainEnv State.zero.start
      ["base hex timestamps absolute\n".toList, "// comment\n".toList]).out = [] :=
  ⟨by decide,
   (no_record_before_decimal_places plainEnv State.zero.start
     ["base hex timestamps absolute\n".toList, "// comment\n".toList]).1 (by decide)⟩

/-- C18 as stated fails: after the header the decimal places are unknown, and the
sample frame line, which completes the decimal-place calibration, is itself printed
as a frame in the same iteration. -/
theorem calibrating_line_prints :
    (run plainEnv State.zero.start ["base hex timestamps absolute\n".toList]).final.dplace = 0 ∧
    (body plainEnv
      (run plainEnv State.zero.start ["base hex timestamps absolute\n".toList]).final
      sampleFrame.line).state.dplace = 6 ∧
    (body plainEnv
      (run plainEnv State.zero.start ["base hex timestamps absolute\n".toList]).final
      sampleFrame.line).record =
      some ⟨⟨0, 2367⟩, 1, ⟨0x80000390, 8, [0x17, 0, 0x14, 0, 0xC0, 0, 8, 0]⟩⟩ := by
  decide

/-- C18 amended (the calibrating line is parsed): while the decimal places are unknown,
an iteration that leaves them unknown or ends the run prints no record; the iteration
that sets them hands the same line to the frame processing, with the decimal places
set to the length of its fraction token, so that line can print a record. -/
theorem calibrating_line_parsed (env : Env) (s : State) (buf : List Char)
    (hd : s.dplace = 0) :
    ((body env s buf).state.dplace = 0 → (body env s buf).record = none) ∧
    ((body env s buf).halted = true → (body env s buf).record = none) ∧
    ((body env s buf).halted = false → (body env s buf).state.dplace ≠ 0 →
      ∃ s3, s3.dplace = (fractionToken buf).length ∧ 4 ≤ s3.dplace ∧ s3.dplace ≤ 6 ∧
        body env s buf = frames env s3 buf) := by
  rcases body_uncalibrated env s buf hd with ⟨s2, he, _⟩ | ⟨s2, he, h0⟩ | ⟨_, h4, h6, s3, h3, _, _, he⟩
  · rw [he]
    exact ⟨fun _ => rfl, fun _ => rfl, fun h => by simp [Outcome.halted] at h⟩
  · rw [he]
    exact ⟨fun _ => rfl, fun _ => rfl, fun _ h => absurd h0 h⟩
  · obtain ⟨s4, out, hfr, hdp, _⟩ := frames_state env s3 buf
    refine ⟨fun h => ?_, fun h => ?_, fun _ _ => ⟨s3, h3, by omega, by omega, he⟩⟩
    · rw [he, hfr] at h
      simp only [Outcome.state] at h
      omega
    · rw [he, hfr] at h
      simp [Outcome.halted] at h

/-- C18 amended, at the sample frame line read as first line. -/
theorem calibrating_line_parsed_witness :
    State.zero.start.dplace = 0 ∧
    ∃ s3, s3.dplace = (fractionToken sampleFrame.line).length ∧ 4 ≤ s3.dplace ∧
      s3.dplace ≤ 6 ∧
      body plainEnv State.zero.start sampleFrame.line = frames plainEnv s3 sampleFrame.line :=
  ⟨rfl, (calibrating_line_parsed plainEnv State.zero.start sampleFrame.line rfl).2.2
    (by decide) (by decide)⟩

/-- C19: from the state on entry to the loop and for every sequence of lines, a
base, timestamp mode or decimal-place count that is set after the lines `pre` has the
same value after any further lines `post`; once the decimal places are set they stay
set and, unless that line ended the run, the run does not end with status 1. -/
theorem calibration_immutable (env : Env) (u : State) (pre post : List (List Char)) :
    ((run env u.start pre).final.base ≠ Char.ofNat 0 →
      (run env u.start (pre ++ post)).final.base = (run env u.start pre).final.base) ∧
    ((run env u.start pre).final.timestamps ≠ Char.ofNat 0 →
      (run env u.start (pre ++ post)).final.timestamps =
        (run env u.start pre).final.timestamps) ∧
    ((run env u.start pre).final.dplace ≠ 0 →
      (run env u.start (pre ++ post)).final.dplace = (run env u.start pre).final.dplace ∧
      (run env u.start (pre ++ post)).final.dplace ≠ 0 ∧
      ((run env u.start pre).status = 0 → (run env u.start (pre ++ post)).status = 0)) := by
  have hstart : u.start.Paired := fun _ => rfl
  obtain ⟨_, _, _, k4⟩ := run_keeps env u.start pre hstart
  rw [run_append]
  by_cases hst : (run env u.start pre).status = 0
  · rw [if_pos hst]
    simp only
    obtain ⟨j1, j2, j3, _⟩ := run_keeps env (run env u.start pre).final post (k4 hst)
    refine ⟨j1, j2, fun hn => ⟨j3 hn, by rw [j3 hn]; exact hn, fun _ => ?_⟩⟩
    exact (run_calibrated env _ post hn).2
  · rw [if_neg hst]
    exact ⟨fun _ => rfl, fun _ => rfl, fun hn => ⟨rfl, hn, fun h => absurd h hst⟩⟩

/-- C19 at a trace in which a second header line and a line with five fraction
digits follow the calibration: base `h`, mode `a` and six decimal places stay. -/
theorem calibration_immutable_witness :
    (run plainEnv State.zero.start
      ["base hex timestamps absolute\n".toList, "0.002367 1 390x Rx d 0\n".toList]).final.dplace
      ≠ 0 ∧
    (run plainEnv State.zero.start
      (["base hex timestamps absolute\n".toList, "0.002367 1 390x Rx d 0\n".toList] ++
       ["base dec timestamps relative\n".toList, "0.12345 1 390x Rx d 0\n".toList])).final.dplace
      = 6 :=
  ⟨by decide,
   ((calibration_immutable plainEnv State.zero
      ["base hex timestamps absolute\n".toList, "0.002367 1 390x Rx d 0\n".toList]
      ["base dec timestamps relative\n".toList, "0.12345 1 390x Rx d 0\n".toList]).2.2
      (by decide)).1.trans (by decide)⟩

/-! ## Values kept from earlier lines -/

/-- A scan assigns at most as many items as the format has assigning directives. -/
theorem scan_length_le (fs : List Directive) (inp : List Char) (acc : List Val) :
    (scan fs inp acc).1.length ≤ acc.length + (fs.filter Directive.assigns).length := by
  induction fs generalizing inp acc with
  | nil => simp [scan]
  | cons d ds ih =>
    cases d with
    | space =>
      simp only [scan, List.filter_cons, Directive.assigns, Bool.false_eq_true, if_false]
      exact ih _ _
    | lit c =>
      simp only [scan, List.filter_cons, Directive.assigns, Bool.false_eq_true, if_false]
      cases inp with
      | nil => simp
      | cons x rest =>
        simp only
        split
        · exact ih _ _
        · simp
    | int b =>
      simp only [scan, List.filter_cons, Directive.assigns, if_true, List.length_cons]
      cases scanInt b inp with
      | ok v rest =>
        have := ih rest (acc ++ [.num (store_int b v)])
        simp only [List.length_append, List.length_singleton] at this
        simp only
        omega
      | matchFail => simp only; omega
      | inputFail => simp only; omega
    | long =>
      simp only [scan, List.filter_cons, Directive.assigns, if_true, List.length_cons]
      cases scanInt 10 inp with
      | ok v rest =>
        have := ih rest (acc ++ [.num (store_long v)])
        simp only [List.length_append, List.length_singleton] at this
        simp only
        omega
      | matchFail => simp only; omega
      | inputFail => simp only; omega
    | str =>
      simp only [scan, List.filter_cons, Directive.assigns, if_true, List.length_cons]
      cases scanStr inp with
      | ok v rest =>
        have := ih rest (acc ++ [.str v])
        simp only [List.length_append, List.length_singleton] at this
        simp only
        omega
      | matchFail => simp only; omega
      | inputFail => simp only; omega
    | chr =>
      simp only [scan, List.filter_cons, Directive.assigns, if_true, List.length_cons]
      cases inp with
      | nil => simp only; omega
      | cons x rest =>
        have := ih rest (acc ++ [.chr x])
        simp only [List.length_append, List.length_singleton] at this
        simp only
        omega
    | skipInt =>
      simp only [scan, List.filter_cons, Directive.assigns, Bool.false_eq_true, if_false]
      cases scanInt 10 inp with
      | ok v rest => exact ih _ _
      | matchFail => simp
      | inputFail => simp
    | skipStr =>
      simp only [scan, List.filter_cons, Directive.assigns, Bool.false_eq_true, if_false]
      cases scanStr inp with
      | ok v rest => exact ih _ _
      | matchFail => simp
      | inputFail => simp

/-- The frame scan returns at most 14. -/
theorem scan_frame_le (s : State) (buf : List Char) : (scan_frame s buf).2 ≤ 14 := by
  have h := scan_length_le (parseFormat (frameFormat s.base).toList) buf []
  have hn : ((parseFormat (frameFormat s.base).toList).filter Directive.assigns).length
      = 14 := by
    rw [parseFormat_frame]
    by_cases hb : s.base = 'h'
    · simp only [dataBase, hb, if_true]; decide
    · simp only [dataBase, hb, if_false]; decide
  rw [hn] at h
  simp only [scan_frame, scanCount, sscanf]
  split
  · omega
  · simp only [List.length_nil, Nat.zero_add] at h
    exact_mod_cast h

/-- When the frame scan reaches the length field of the line (it returns at least 6)
and the frame is found, the length read from that line is in 0..8 and the scan has
read exactly that many byte fields. -/
theorem found_with_length_read (s : State) (buf : List Char)
    (h6 : 6 ≤ (scan_frame s buf).2) (hf : found s buf = true) :
    0 ≤ (scan_frame s buf).1.dlc ∧ (scan_frame s buf).1.dlc ≤ 8 ∧
    (scan_frame s buf).2 - 6 = (scan_frame s buf).1.dlc := by
  have hle := scan_frame_le s buf
  simp only [found, decide_eq_true_eq] at hf
  omega

/-- C17 (the code on a line that ends before its length field): after the line
`0.100000 1 123 Rx d -1`, which is not found and leaves `dlc = -1`, the line
`0.200000 1 123 Rx d` makes `sscanf` return 5 = `dlc + 6` without reading a length,
so it is found and printed as a data frame with `can_dlc = 15`. -/
theorem stale_length_accepted :
    (run plainEnv State.zero.start
      ["base hex timestamps absolute\n".toList, "0.100000 1 123 Rx d -1\n".toList]).out = [] ∧
    (scan_frame (run plainEnv State.zero.start
      ["base hex timestamps absolute\n".toList, "0.100000 1 123 Rx d -1\n".toList]).final
      "0.200000 1 123 Rx d\n".toList).2 = 5 ∧
    (run plainEnv State.zero.start
      ["base hex timestamps absolute\n".toList, "0.100000 1 123 Rx d -1\n".toList,
       "0.200000 1 123 Rx d\n".toList]).out =
      [⟨⟨0, 200000⟩, 1, ⟨0x123, 15, [0, 0, 0, 0, 0, 0, 0, 0]⟩⟩] := by
  decide

/-- With raw timestamps, printing changes nothing in the state and the record carries
`read_tv` as it stands. -/
theorem emit_raw (env : Env) (s : State) (h : env.raw_time = true) :
    emit env s = .next s (some ⟨s.read_tv, s.interface, s.cf⟩) := by
  simp [emit, h]

/-- With raw timestamps, a record printed for a found frame carries the `read_tv` left
by the frame scan, and the accumulator `tv` is not changed. -/
theorem raw_data_frame (env : Env) (s : State) (h : env.raw_time = true) :
    ∃ s2 rec, data_frame env s = .next s2 (some rec) ∧ rec.tv = s.read_tv ∧ s2.tv = s.tv := by
  unfold data_frame
  rw [emit_raw env _ h]
  exact ⟨_, _, rfl, rfl, rfl⟩

/-- With raw timestamps, a record printed by the error-frame scan carries the seconds
and the fraction that scan read from the line, and the accumulator is not changed. -/
theorem raw_error_frame (env : Env) (s s2 : State) (buf : List Char) (rec : Record)
    (h : env.raw_time = true) (he : error_frame env s buf = .next s2 (some rec)) :
    ∃ sec frac rest, (sscanf buf "%ld.%ld %d %s").1 = .num sec :: .num frac :: rest ∧
      rec.tv = ⟨sec, frac⟩ ∧ s2.tv = s.tv := by
  unfold error_frame at he
  dsimp only at he
  by_cases hc : scanCount (sscanf buf "%ld.%ld %d %s") = 4
  · rw [if_pos hc] at he
    split at he
    · rw [emit_raw env _ h] at he
      simp only [Outcome.next.injEq, Option.some.injEq] at he
      obtain ⟨hs, hr⟩ := he
      have hfmt : parseFormat "%ld.%ld %d %s".toList =
          [.long, .lit '.', .long, .space, .int 10, .space, .str] := by decide
      -- the first two items are integers
      have hshape : ∀ l : List Val, (sscanf buf "%ld.%ld %d %s").1 = l → 2 ≤ l.length →
          ∃ sec frac rest, l = .num sec :: .num frac :: rest := by
        intro l hl hlen
        subst hl
        revert hlen
        unfold sscanf
        rw [hfmt]
        simp only [scan]
        cases scanInt 10 buf with
        | matchFail => simp
        | inputFail => simp
        | ok v1 r1 =>
          simp only [List.nil_append]
          cases r1 with
          | nil => simp
          | cons x r2 =>
            simp only
            split
            · cases scanInt 10 r2 with
              | matchFail => simp
              | inputFail => simp
              | ok v2 r3 =>
                simp only [List.cons_append, List.nil_append]
                intro _
                cases hi : scanInt 10 (List.dropWhile isspace r3) with
                | matchFail => exact ⟨_, _, [], rfl⟩
                | inputFail => exact ⟨_, _, [], rfl⟩
                | ok v3 r4 =>
                  simp only
                  cases scanStr (List.dropWhile isspace r4) with
                  | matchFail => exact ⟨_, _, _, rfl⟩
                  | inputFail => exact ⟨_, _, _, rfl⟩
                  | ok v4 r5 => exact ⟨_, _, _, rfl⟩
            · simp
      have hlen : 2 ≤ (sscanf buf "%ld.%ld %d %s").1.length := by
        simp only [scanCount] at hc
        split at hc
        · omega
        · omega
      obtain ⟨sec, frac, rest, hl⟩ := hshape _ rfl hlen
      refine ⟨sec, frac, rest, hl, ?_, ?_⟩
      · rw [← hr]
        simp only [numArg, hl, List.get?_cons_zero, List.get?_cons_succ]
      · rw [← hs]
    · cases he
  · rw [if_neg hc] at he
    cases he

/-- C14 (the code on a line without a fraction): with `-r`, after the line
`0.100000 1 123 Rx d -5`, which is not found and leaves `dlc = -5`, the line `7` makes
`sscanf` return 1 = `dlc + 6` having read the seconds only, so it is found and its
record carries the fraction of the earlier line, (7, 100000); after
`0.300000 1 123 Rx d -5` the same line carries (7, 300000). -/
theorem raw_record_with_stale_fraction :
    (run rawEnv State.zero.start
      ["base hex timestamps absolute\n".toList, "0.100000 1 123 Rx d -5\n".toList,
       "7\n".toList]).out =
      [⟨⟨7, 100000⟩, 1, ⟨0x123, 11, [0, 0, 0, 0, 0, 0, 0, 0]⟩⟩] ∧
    (run rawEnv State.zero.start
      ["base hex timestamps absolute\n".toList, "0.300000 1 123 Rx d -5\n".toList,
       "7\n".toList]).out =
      [⟨⟨7, 300000⟩, 1, ⟨0x123, 11, [0, 0, 0, 0, 0, 0, 0, 0]⟩⟩] := by
  decide

/-! ## The message table round trip -/

/-- With pairwise distinct names, the lookup of the name of an entry finds that entry. -/
theorem find_msg_nodup (l : List msg_t) (hn : (l.map msg_t.name).Nodup) (m : msg_t)
    (hm : m ∈ l) : find_msg m.name l = some m.id := by
  induction l with
  | nil => simp at hm
  | cons p ps ih =>
    rw [List.map_cons, List.nodup_cons] at hn
    rcases List.mem_cons.mp hm with rfl | hps
    · simp [find_msg]
    · have hne : ¬ m.name = p.name := by
        intro h
        exact hn.1 (h ▸ List.mem_map_of_mem msg_t.name hps)
      simp only [find_msg, hne, if_false]
      exact ih hn.2 hps

/-- A line that does not begin with `BO_` yields no entry. -/
theorem dbc_entry_other (buf : List Char) (h : buf.take 3 ≠ "BO_".toList) :
    dbc_entry buf = none := by
  have hfmt : parseFormat "BO_ %d %s %*d %*s".toList =
      [.lit 'B', .lit 'O', .lit '_', .space, .int 10, .space, .str, .space, .skipInt,
       .space, .skipStr] := by decide
  have hcount : scanCount (sscanf buf "BO_ %d %s %*d %*s") ≠ 2 := by
    unfold sscanf
    rw [hfmt]
    match buf, h with
    | [], _ => simp [scan, scanCount]
    | [a], _ =>
      simp only [scan]
      split <;> simp [scanCount]
    | [a, b], _ =>
      simp only [scan]
      split
      · split <;> simp [scanCount]
      · simp [scanCount]
    | a :: b :: c :: rest, h =>
      simp only [scan]
      split
      · split
        · split
          · rename_i h1 h2 h3
            subst h1 h2 h3
            exact absurd rfl h
          · simp [scanCount]
        · simp [scanCount]
      · simp [scanCount]
  unfold dbc_entry
  simp only [hcount, if_false]

/-- An earlier line that yields an entry of the name comes first even when it is not of
the shape `BO_ <id> <name>:`: before the lines `BO_ 100 Msg:` and `BO_ 200 Msg:`, the
line `BO_ 5 Msgs 8 X` yields the entry (`Msg`, 5), and `Msg` resolves to 5. -/
theorem earlier_entry_of_the_name_wins :
    dbc_entry "BO_ 5 Msgs 8 X\n".toList = some ⟨"Msg".toList, 5⟩ ∧
    (get_can_id "Msg".toList 16
      (process_dbc (some ["BO_ 5 Msgs 8 X\n".toList,
        "BO_ 100 Msg: 8 Vector__XXX\n".toList,
        "BO_ 200 Msg: 8 Vector__XXX\n".toList]))).1 = 5 := by
  decide

/-- C6 amended (the first entry of the name wins): in a database in which no line
before a given place yields an entry of the name `name` (an entry being what the scan
of line 223 makes of a line, its name the name token without its last character), a
line at that place that yields an entry of that name decides the lookup: the name
resolves to the identifier of that line, whatever lines follow; in particular, when
the line at that place is `BO_ <id> <name>: ...` with a decimal id below `2^32` and a
name token that fits `m_name`, the name resolves to that id, also when later lines
`BO_ <id2> <name>: ...` carry the same name with other ids. -/
theorem process_dbc_first_wins (pre post : List (List Char)) (name : List Char) (base : Nat)
    (hpre : ∀ k ∈ pre, ∀ e, dbc_entry k = some e → e.name ≠ name) :
    (∀ l m, dbc_entry l = some m → m.name = name →
      (get_can_id name base (process_dbc (some (pre ++ l :: post)))).1 = m.id) ∧
    (∀ id rest, IsNumeral 10 id → numeralValue 10 id < 2 ^ 32 → IsToken (name ++ [':']) →
      (name ++ [':']).length < MSG_NAME_MAX → AtGap rest →
      (get_can_id name base (process_dbc (some (pre ++
        ('B' :: 'O' :: '_' :: ' ' :: (id ++ ' ' :: ((name ++ [':']) ++ rest))) :: post)))).1 =
        numeralValue 10 id) := by
  have hgen : ∀ l m, dbc_entry l = some m → m.name = name →
      (get_can_id name base (process_dbc (some (pre ++ l :: post)))).1 = m.id := by
    intro l m hl hm
    rw [process_dbc_eq, List.filterMap_append, List.filterMap_cons, hl]
    apply get_can_id_of_find
    apply find_msg_first _ _ _ _ hm
    intro p hp
    obtain ⟨k, hk, hkp⟩ := List.mem_filterMap.mp hp
    exact hpre k hk p hkp
  refine ⟨hgen, ?_⟩
  intro id rest hid hlt hname _ hrest
  exact hgen _ ⟨name, numeralValue 10 id⟩ (dbc_entry_line id name rest hid hname hrest hlt) rfl

/-- C6 amended, at a database with two lines of the name `Msg` after a line that
yields no entry: `Msg` resolves to 100, the id of the first of them. -/
theorem process_dbc_first_wins_witness :
    (∀ k ∈ ["BU_: ECU1\n".toList], ∀ e, dbc_entry k = some e → e.name ≠ "Msg".toList) ∧
    (get_can_id "Msg".toList 10
      (process_dbc (some (["BU_: ECU1\n".toList] ++
        "BO_ 100 Msg: 8 Vector__XXX\n".toList ::
          ["BO_ 200 Msg: 8 Vector__XXX\n".toList])))).1 = 100 := by
  have hpre : ∀ k ∈ ["BU_: ECU1\n".toList], ∀ e, dbc_entry k = some e →
      e.name ≠ "Msg".toList := by
    intro k hk e he
    have hnone : dbc_entry "BU_: ECU1\n".toList = none := by decide
    rw [List.mem_singleton.mp hk, hnone] at he
    exact absurd he (by simp)
  exact ⟨hpre,
    (process_dbc_first_wins ["BU_: ECU1\n".toList] ["BO_ 200 Msg: 8 Vector__XXX\n".toList]
      "Msg".toList 10 hpre).2 "100".toList " 8 Vector__XXX\n".toList (by decide) (by decide)
      (by decide) (by decide) (atGap_cons_space _)⟩

/-- C15 as stated fails: the line `BO_ 100 Msg 8 X` does not have the shape
`BO_ <id> <name>: ...` (no colon), yet it adds an entry, with the name `Ms`. -/
theorem dbc_line_without_colon :
    dbc_entry "BO_ 100 Msg 8 X\n".toList = some ⟨"Ms".toList, 100⟩ ∧
    process_dbc (some ["BO_ 100 Msg 8 X\n".toList]) = [⟨"Ms".toList, 100⟩] := by
  decide

/-- C15 amended (the last character of the name token is cut off unchecked):
`process_dbc` is total and its list is, in file order, one entry for each line on
which the scan of line 223 assigns id and name token; a line `BO_ <id> <token> ...`
with a decimal id below `2^32` and a token that fits `m_name` gives the entry of that
id whose name is the token without its last character, whatever that character is; so
a line `BO_ <id> <name>: ...` gives the entry (name, id) with the colon removed; a
line that does not begin with `BO_` adds nothing; for a database whose loaded names
are pairwise distinct, resolving each loaded name returns its id in either base; and
a string that differs from every loaded name finds no entry. -/
theorem process_dbc_round_trip (lines : List (List Char)) :
    process_dbc (some lines) = lines.filterMap dbc_entry ∧
    (∀ id tok rest, IsNumeral 10 id → numeralValue 10 id < 2 ^ 32 →
      IsToken tok → tok.length < MSG_NAME_MAX → AtGap rest →
      dbc_entry ('B' :: 'O' :: '_' :: ' ' :: (id ++ ' ' :: (tok ++ rest))) =
        some ⟨tok.dropLast, numeralValue 10 id⟩) ∧
    (∀ id name rest, IsNumeral 10 id → numeralValue 10 id < 2 ^ 32 →
      IsToken (name ++ [':']) → (name ++ [':']).length < MSG_NAME_MAX → AtGap rest →
      dbc_entry ('B' :: 'O' :: '_' :: ' ' :: (id ++ ' ' :: ((name ++ [':']) ++ rest))) =
        some ⟨name, numeralValue 10 id⟩) ∧
    (∀ buf, buf.take 3 ≠ "BO_".toList → dbc_entry buf = none) ∧
    (((process_dbc (some lines)).map msg_t.name).Nodup →
      ∀ m ∈ process_dbc (some lines), ∀ base,
        (get_can_id m.name base (process_dbc (some lines))).1 = m.id) ∧
    (∀ str, (∀ m ∈ process_dbc (some lines), m.name ≠ str) →
      find_msg str (process_dbc (some lines)) = none) := by
  refine ⟨process_dbc_eq lines, ?_, ?_, dbc_entry_other, ?_, ?_⟩
  · intro id tok rest hid hlt htok _ hrest
    exact dbc_entry_token id tok rest hid htok hrest hlt
  · intro id name rest hid hlt hname _ hrest
    rw [dbc_entry_line id name rest hid hname hrest hlt]
  · intro hn m hm base
    exact get_can_id_of_find _ _ _ _ (find_msg_nodup _ hn m hm)
  · intro str hstr
    exact find_msg_none str _ hstr

/-- C15 amended, at a database of two messages: the token `Msg` of a line without
colon loses its last character, `Msg` resolves to 100 and the string `msg`, which
differs in letter case only, finds no entry. -/
theorem process_dbc_round_trip_witness :
    dbc_entry "BO_ 100 Msg 8 X\n".toList = some ⟨"Ms".toList, 100⟩ ∧
    ((process_dbc (some ["BO_ 100 Msg: 8 Vector__XXX\n".toList,
        "BO_ 200 Other: 8 Vector__XXX\n".toList])).map msg_t.name).Nodup ∧
    (get_can_id "Msg".toList 16
      (process_dbc (some ["BO_ 100 Msg: 8 Vector__XXX\n".toList,
        "BO_ 200 Other: 8 Vector__XXX\n".toList]))).1 = 100 ∧
    find_msg "msg".toList
      (process_dbc (some ["BO_ 100 Msg: 8 Vector__XXX\n".toList,
        "BO_ 200 Other: 8 Vector__XXX\n".toList])) = none :=
  ⟨(process_dbc_round_trip []).2.1 "100".toList "Msg".toList " 8 X\n".toList (by decide)
      (by decide) (by decide) (by decide) (atGap_cons_space _),
   by decide,
   (process_dbc_round_trip ["BO_ 100 Msg: 8 Vector__XXX\n".toList,
      "BO_ 200 Other: 8 Vector__XXX\n".toList]).2.2.2.2.1 (by decide)
      ⟨"Msg".toList, 100⟩ (by decide) 16,
   (process_dbc_round_trip ["BO_ 100 Msg: 8 Vector__XXX\n".toList,
      "BO_ 200 Other: 8 Vector__XXX\n".toList]).2.2.2.2.2 "msg".toList (by decide)⟩

/-! ## Relative timestamps over a sequence of calls -/

/-- The carry step does not change the time value. -/
theorem carry_micros (t : timeval) : (carry t).micros = t.micros := by
  unfold carry timeval.micros
  split
  · dsimp only; omega
  · rfl

/-- Scaling keeps a non-negative fraction non-negative. -/
theorem scale_usec_nonneg (dplace usec : Int) (h : 0 ≤ usec) : 0 ≤ scale_usec dplace usec := by
  rw [scale_usec_eq]
  split
  · omega
  · split <;> omega

/-- The time value of a relative-mode result: the origin (the session date if the call
seeds, the accumulator otherwise) plus the scaled raw timestamp. -/
theorem calc_tv_relative_micros (tv r date_tv : timeval) (dplace : Int) :
    (calc_tv tv r date_tv 'r' dplace).1.micros =
      (if seeds tv date_tv then date_tv.micros else tv.micros) +
        (r.tv_sec * 1000000 + scale_usec dplace r.tv_usec) := by
  obtain ⟨a, b⟩ := tv
  obtain ⟨c, d⟩ := date_tv
  rw [calc_tv_relative, carry_micros]
  simp only [seeds, timeval.mk.injEq, ne_eq, not_and, decide_eq_true_eq]
  by_cases h : (a = 0 ∧ b = 0) ∧ (¬ c = 0 ∨ ¬ d = 0)
  · have h2 : (a = 0 ∧ b = 0) ∧ (c = 0 → ¬ d = 0) := ⟨h.1, by tauto⟩
    rw [if_pos h, if_pos h2]
    simp only [timeval.micros]
    omega
  · have h2 : ¬ ((a = 0 ∧ b = 0) ∧ (c = 0 → ¬ d = 0)) := by tauto
    rw [if_neg h, if_neg h2]
    simp only [timeval.micros]
    omega

/-- With a non-negative session date and a non-negative raw timestamp, the result of a
relative-mode call is not earlier than the accumulator, and a seeding call yields a
positive time value. -/
theorem calc_tv_relative_step (tv r date_tv : timeval) (dplace : Int)
    (hds : 0 ≤ date_tv.tv_sec) (hdu : 0 ≤ date_tv.tv_usec)
    (hrs : 0 ≤ r.tv_sec) (hru : 0 ≤ r.tv_usec) :
    tv.micros ≤ (calc_tv tv r date_tv 'r' dplace).1.micros ∧
    (seeds tv date_tv = true → 0 < (calc_tv tv r date_tv 'r' dplace).1.micros) := by
  have hs := scale_usec_nonneg dplace r.tv_usec hru
  rw [calc_tv_relative_micros]
  by_cases h : seeds tv date_tv = true
  · rw [if_pos h]
    simp only [seeds, decide_eq_true_eq] at h
    simp only [timeval.micros]
    omega
  · rw [if_neg h]
    exact ⟨by omega, fun h2 => absurd h2 h⟩

/-- A value in the range of `long` is kept by `long` arithmetic. -/
theorem wrap_long_of_range (x : Int) (h0 : - 2 ^ 63 ≤ x) (h1 : x < 2 ^ 63) :
    wrap_long x = x := by
  unfold wrap_long
  omega

/-- With 4, 5 or 6 decimal places the scaling of a raw fraction in [0, 10^dplace)
does not overflow. -/
theorem scale_usec_long_eq (dplace : Nat) (usec : Int)
    (hd : dplace = 4 ∨ dplace = 5 ∨ dplace = 6) (h0 : 0 ≤ usec) (h1 : usec < 10 ^ dplace) :
    scale_usec_long dplace usec = scale_usec dplace usec := by
  rcases hd with rfl | rfl | rfl
  · norm_num [scale_usec_long, scale_usec] at h1 ⊢
    exact wrap_long_of_range _ (by omega) (by omega)
  · norm_num [scale_usec_long, scale_usec] at h1 ⊢
    exact wrap_long_of_range _ (by omega) (by omega)
  · norm_num [scale_usec_long, scale_usec] at h1 ⊢

/-- The carry step does not overflow on microseconds of [0, 2_000_000) and seconds
below `2^63 - 1`. -/
theorem carry_long_eq (t : timeval) (h0 : 0 ≤ t.tv_usec) (h1 : t.tv_usec < 2000000)
    (h2 : - 2 ^ 63 ≤ t.tv_sec) (h3 : t.tv_sec + 1 < 2 ^ 63) :
    carry_long t = carry t := by
  unfold carry_long carry
  rw [wrap_long_of_range _ (by omega) (by omega), wrap_long_of_range _ (by omega) (by omega)]

/-- A relative-mode call whose sums stay in the range of `long` computes what
`calc_tv` computes with mathematical integers, with microseconds in [0, 1_000_000]
and seconds between the smaller origin and the larger origin plus the raw seconds plus
one. -/
theorem calc_tv_long_relative (tv r date_tv : timeval) (dplace : Nat)
    (hd : dplace = 4 ∨ dplace = 5 ∨ dplace = 6)
    (hds : 0 ≤ date_tv.tv_sec) (hdu : 0 ≤ date_tv.tv_usec) (hdu1 : date_tv.tv_usec < 1000000)
    (hts : - 2 ^ 63 ≤ tv.tv_sec) (htu : 0 ≤ tv.tv_usec) (htu1 : tv.tv_usec ≤ 1000000)
    (hrs : 0 ≤ r.tv_sec) (hru : 0 ≤ r.tv_usec) (hru1 : r.tv_usec < 10 ^ dplace)
    (hb1 : tv.tv_sec + (r.tv_sec + 1) < 2 ^ 63)
    (hb2 : date_tv.tv_sec + (r.tv_sec + 1) < 2 ^ 63) :
    (calc_tv_long tv r date_tv 'r' dplace).1 = (calc_tv tv r date_tv 'r' dplace).1 ∧
    0 ≤ (calc_tv_long tv r date_tv 'r' dplace).1.tv_usec ∧
    (calc_tv_long tv r date_tv 'r' dplace).1.tv_usec ≤ 1000000 ∧
    - 2 ^ 63 ≤ (calc_tv_long tv r date_tv 'r' dplace).1.tv_sec ∧
    ((calc_tv_long tv r date_tv 'r' dplace).1.tv_sec ≤ tv.tv_sec + (r.tv_sec + 1) ∨
     (calc_tv_long tv r date_tv 'r' dplace).1.tv_sec ≤ date_tv.tv_sec + (r.tv_sec + 1)) := by
  have hs := scale_usec_range dplace r.tv_usec hd hru hru1
  have hsl := scale_usec_long_eq dplace r.tv_usec hd hru hru1
  obtain ⟨a, b⟩ := tv
  obtain ⟨c, d⟩ := date_tv
  obtain ⟨e, f⟩ := r
  dsimp only at hds hdu hdu1 hts htu htu1 hrs hru hru1 hb1 hb2 hs hsl
  have hr : ¬ ('r' = 'a') := by decide
  simp only [calc_tv_long, calc_tv, hr, if_false, hsl]
  generalize scale_usec (dplace : Int) f = g at hs
  by_cases h : (a = 0 ∧ b = 0) ∧ (c ≠ 0 ∨ d ≠ 0)
  · rw [if_pos h]
    dsimp only
    rw [wrap_long_of_range (c + e) (by omega) (by omega),
      wrap_long_of_range (d + g) (by omega) (by omega),
      carry_long_eq _ (by dsimp only; omega) (by dsimp only; omega) (by dsimp only; omega)
        (by dsimp only; omega)]
    refine ⟨rfl, ?_⟩
    unfold carry
    by_cases hc : d + g > 1000000
    · rw [if_pos hc]
      dsimp only
      omega
    · rw [if_neg hc]
      dsimp only
      omega
  · rw [if_neg h]
    dsimp only
    rw [wrap_long_of_range (a + e) (by omega) (by omega),
      wrap_long_of_range (b + g) (by omega) (by omega),
      carry_long_eq _ (by dsimp only; omega) (by dsimp only; omega) (by dsimp only; omega)
        (by dsimp only; omega)]
    refine ⟨rfl, ?_⟩
    unfold carry
    by_cases hc : b + g > 1000000
    · rw [if_pos hc]
      dsimp only
      omega
    · rw [if_neg hc]
      dsimp only
      omega

/-- Over a sequence of relative-mode calls whose seconds sums stay in the range of
`long`: each result is not earlier than the accumulator before the call, at most one
call seeds, and none does once the accumulator has a positive time value. -/
theorem relative_chain (date_tv : timeval) (dplace : Nat) (raws : List timeval)
    (hd : dplace = 4 ∨ dplace = 5 ∨ dplace = 6)
    (hds : 0 ≤ date_tv.tv_sec) (hdu : 0 ≤ date_tv.tv_usec) (hdu1 : date_tv.tv_usec < 1000000)
    (hraws : ∀ r ∈ raws, 0 ≤ r.tv_sec ∧ 0 ≤ r.tv_usec ∧ r.tv_usec < 10 ^ dplace)
    (hb2 : date_tv.tv_sec + seconds_added raws < 2 ^ 63) (tv : timeval)
    (hts : - 2 ^ 63 ≤ tv.tv_sec) (htu : 0 ≤ tv.tv_usec) (htu1 : tv.tv_usec ≤ 1000000)
    (hb1 : tv.tv_sec + seconds_added raws < 2 ^ 63) :
    List.Chain (fun a b => a.micros ≤ b.micros) tv
      (relative_results tv date_tv dplace raws) ∧
    seed_count tv date_tv dplace raws ≤ 1 ∧
    (0 < tv.micros → seed_count tv date_tv dplace raws = 0) := by
  induction raws generalizing tv with
  | nil => exact ⟨List.Chain.nil, by simp [seed_count], fun _ => rfl⟩
  | cons r rs ih =>
    obtain ⟨hrs, hru, hru1⟩ := hraws r (List.mem_cons_self _ _)
    have hrest : ∀ x ∈ rs, 0 ≤ x.tv_sec ∧ 0 ≤ x.tv_usec ∧ x.tv_usec < 10 ^ dplace :=
      fun x hx => hraws x (List.mem_cons_of_mem _ hx)
    have hadd : seconds_added (r :: rs) = (r.tv_sec + 1) + seconds_added rs := by
      simp [seconds_added]
    have hnn : 0 ≤ seconds_added rs := by
      unfold seconds_added
      apply List.sum_nonneg
      intro x hx
      obtain ⟨y, hy, rfl⟩ := List.mem_map.mp hx
      have := (hrest y hy).1
      omega
    rw [hadd] at hb1 hb2
    obtain ⟨heq, h0, h1, h2, h3⟩ := calc_tv_long_relative tv r date_tv dplace hd hds hdu hdu1
      hts htu htu1 hrs hru hru1 (by omega) (by omega)
    obtain ⟨hstep, hseed⟩ := calc_tv_relative_step tv r date_tv dplace hds hdu hrs hru
    rw [← heq] at hstep hseed
    obtain ⟨ihc, ihs, ihp⟩ := ih hrest (by omega) (calc_tv_long tv r date_tv 'r' dplace).1
      h2 h0 h1 (by rcases h3 with h3 | h3 <;> omega)
    refine ⟨List.Chain.cons hstep ihc, ?_, ?_⟩
    · simp only [seed_count]
      by_cases h : seeds tv date_tv = true
      · rw [ihp (hseed h)]
        simp [h]
      · have hf : seeds tv date_tv = false := by simpa using h
        simp only [hf, Bool.false_eq_true, if_false]
        omega
    · intro hpos
      have hno : seeds tv date_tv = false := by
        simp only [seeds, decide_eq_false_iff_not]
        simp only [timeval.micros] at hpos
        intro h
        rw [h.1.1, h.1.2] at hpos
        omega
      simp only [seed_count, hno, Bool.false_eq_true, if_false, Nat.zero_add]
      exact ihp (by omega)

/-- Why the session date is taken non-negative: `calc_tv` called with the session date
(-1, 0), which `main` never passes, the zero accumulator and the raw timestamps
1.000000 and 0.000000 seeds twice and goes back from (0, 0) to (-1, 0). -/
theorem negative_date_seeds_twice :
    relative_results ⟨0, 0⟩ ⟨-1, 0⟩ 6 [⟨1, 0⟩, ⟨0, 0⟩] = [⟨0, 0⟩, ⟨-1, 0⟩] ∧
    seed_count ⟨0, 0⟩ ⟨-1, 0⟩ 6 [⟨1, 0⟩, ⟨0, 0⟩] = 2 := by
  decide

/-- C20 as stated fails: with the session date (1000, 0), the zero accumulator, six
decimal places and the raw timestamps 9223372036854774807.000000 and 1.000000, whose
seconds are not negative and whose fractions are below `10^6`, the first call seeds
and yields (9223372036854775807, 0), and the seconds sum of the second call leaves the
range of a 64-bit `long`: its result is (-9223372036854775808, 0), which is earlier. A
frame line with these seconds is scanned to that raw timestamp. -/
theorem long_overflow_not_monotone :
    (scan_frame (calibrated 'h' 'r' 6)
      "9223372036854774807.000000 1 123 Rx d 0\n".toList).1.read_tv =
        ⟨9223372036854774807, 0⟩ ∧
    relative_results ⟨0, 0⟩ ⟨1000, 0⟩ 6 [⟨9223372036854774807, 0⟩, ⟨1, 0⟩] =
      [⟨9223372036854775807, 0⟩, ⟨-9223372036854775808, 0⟩] ∧
    ¬ List.Chain' (fun a b => a.micros ≤ b.micros)
      (relative_results ⟨0, 0⟩ ⟨1000, 0⟩ 6 [⟨9223372036854774807, 0⟩, ⟨1, 0⟩]) := by
  have h : relative_results ⟨0, 0⟩ ⟨1000, 0⟩ 6 [⟨9223372036854774807, 0⟩, ⟨1, 0⟩] =
      [⟨9223372036854775807, 0⟩, ⟨-9223372036854775808, 0⟩] := by decide
  refine ⟨by decide, h, ?_⟩
  rw [h]
  simp [timeval.micros]

/-- C20 amended (non-negative session date, no overflow of `long`): for every sequence
of `calc_tv` calls in relative mode with 4, 5 or 6 decimal places and a fixed session
date whose seconds are not negative and whose microseconds are in [0, 1_000_000),
starting from an accumulator with microseconds in [0, 1_000_000], where every raw
timestamp has non-negative seconds and a fraction `r` with `0 <= r < 10^dplace`, and
where the seconds of the accumulator and of the session date, plus the raw seconds of
the whole sequence and one carry for each call, stay below `2^63`, the produced
timestamps are non-decreasing as time values and at most one call seeds the
accumulator from the session date. -/
theorem relative_monotone (tv date_tv : timeval) (dplace : Nat) (raws : List timeval)
    (hd : dplace = 4 ∨ dplace = 5 ∨ dplace = 6)
    (hds : 0 ≤ date_tv.tv_sec) (hdu : 0 ≤ date_tv.tv_usec) (hdu1 : date_tv.tv_usec < 1000000)
    (hts : - 2 ^ 63 ≤ tv.tv_sec) (htu : 0 ≤ tv.tv_usec) (htu1 : tv.tv_usec ≤ 1000000)
    (hraws : ∀ r ∈ raws, 0 ≤ r.tv_sec ∧ 0 ≤ r.tv_usec ∧ r.tv_usec < 10 ^ dplace)
    (hb1 : tv.tv_sec + seconds_added raws < 2 ^ 63)
    (hb2 : date_tv.tv_sec + seconds_added raws < 2 ^ 63) :
    List.Chain' (fun a b => a.micros ≤ b.micros) (relative_results tv date_tv dplace raws) ∧
    seed_count tv date_tv dplace raws ≤ 1 := by
  obtain ⟨hc, hs, _⟩ := relative_chain date_tv dplace raws hd hds hdu hdu1 hraws hb2 tv
    hts htu htu1 hb1
  refine ⟨?_, hs⟩
  cases hres : relative_results tv date_tv dplace raws with
  | nil => exact List.chain'_nil
  | cons t ts =>
    rw [hres] at hc
    exact (List.chain_cons.mp hc).2

/-- C20 amended, at the session date (1000, 0) and the raw timestamps 0.500000 and
0.600000 of the specification. -/
theorem relative_monotone_witness :
    ((6 : Nat) = 4 ∨ (6 : Nat) = 5 ∨ (6 : Nat) = 6) ∧
    (0 : Int) ≤ (⟨1000, 0⟩ : timeval).tv_sec ∧
    (1000 : Int) + seconds_added [⟨0, 500000⟩, ⟨0, 600000⟩] < 2 ^ 63 ∧
    relative_results ⟨0, 0⟩ ⟨1000, 0⟩ 6 [⟨0, 500000⟩, ⟨0, 600000⟩] =
      [⟨1000, 500000⟩, ⟨1001, 100000⟩] ∧
    List.Chain' (fun a b => a.micros ≤ b.micros)
      (relative_results ⟨0, 0⟩ ⟨1000, 0⟩ ((6 : Nat) : Int) [⟨0, 500000⟩, ⟨0, 600000⟩]) ∧
    seed_count ⟨0, 0⟩ ⟨1000, 0⟩ ((6 : Nat) : Int) [⟨0, 500000⟩, ⟨0, 600000⟩] ≤ 1 :=
  ⟨by decide, by decide, by decide, by decide,
   relative_monotone ⟨0, 0⟩ ⟨1000, 0⟩ 6 [⟨0, 500000⟩, ⟨0, 600000⟩] (by decide) (by decide)
     (by decide) (by decide) (by decide) (by decide) (by decide) (by decide) (by decide)
     (by decide)⟩

end Asc2log
